import Mathlib

/-!
mis2rib: the OBJ mesh translator and the material translator.

A shallow embedding of `src/mis2rib.cpp`.  Strings are lists of characters,
`std::map<int,int>` and `std::unordered_map<string,string>` are association
lists read through their lookup, C `int`s are mathematical integers (the
source overflows only on indices beyond the 32-bit range), and the two output
streams are lists: what goes to `ostr` and what goes to `cerr`.

Single precision numbers are carried as values of an arbitrary type `F`: the
mesh translator only stores and re-emits them.  The library conversion
`%f` of `sscanf` is a parameter `readFloat`.  What the material translator
takes from the JSON library and from the arithmetic of `float` is the
parameter `Lib`; a library call that throws ends `material` with
`Except.error`.
-/

namespace Mis2rib

/-- A `std::string` (or a C string), as the list of its characters. -/
abbrev Str := List Char

/-- The struct `Float3`. -/
structure Float3 (F : Type) where
  x : F
  y : F
  z : F
deriving DecidableEq, Repr

/-! Containers. -/

/-- A `std::map<int,int>`: association list, the newest binding of a key first. -/
abbrev IntMap := List (Int × Int)

/-- The lookup `m.find(k)`: the bound value, or `none` for `m.end()`. -/
def IntMap.find (m : IntMap) (k : Int) : Option Int :=
  match m with
  | [] => none
  | (k', v) :: rest => if k' = k then some v else IntMap.find rest k

/-- The assignment `m[k] = v`. -/
def IntMap.set (m : IntMap) (k v : Int) : IntMap := (k, v) :: m

/-- A `std::unordered_map<string,string>`, the newest binding of a key first. -/
abbrev StrMap := List (Str × Str)

/-- The lookup `m.find(k)` of a string table. -/
def StrMap.find (m : StrMap) (k : Str) : Option Str :=
  match m with
  | [] => none
  | (k', v) :: rest => if k' = k then some v else StrMap.find rest k

/-- The assignment `m[k] = v` of a string table. -/
def StrMap.set (m : StrMap) (k v : Str) : StrMap := (k, v) :: m

/-- The read `xs[i]` of a `std::vector` at an `int` index; `none` where the
index is outside the vector (undefined behaviour in the source). -/
def vecAt {α : Type} (xs : List α) (i : Int) : Option α :=
  if 0 ≤ i then xs.get? i.toNat else none

/-! The `std::string` operations used by the translator. -/

/-- The call `s.find(c, 0)` for a one character needle: `none` is `npos`. -/
def strFind (s : Str) (c : Char) : Option Nat :=
  if s.indexOf c < s.length then some (s.indexOf c) else none

/-- The call `s.replace(pos, len, r)`. -/
def strReplace (s : Str) (pos len : Nat) (r : Str) : Str :=
  s.take pos ++ r ++ s.drop (pos + len)

/-- The C string `s.c_str()` as the program reads it: up to the first NUL. -/
def cstr (s : Str) : Str := s.takeWhile (fun c => c ≠ Char.ofNat 0)

/-- The read `buf[i]` of a C string: the terminator past the last character. -/
def charAt (buf : Str) (i : Nat) : Char := buf.getD i (Char.ofNat 0)

/-! The C library function `sscanf`. -/

/-- The C library `isspace` in the C locale. -/
def isspace (c : Char) : Bool :=
  c = ' ' || c = '\t' || c = '\n' || c = '\r' || c = Char.ofNat 11 || c = Char.ofNat 12

/-- The C library `isdigit`. -/
def isdigit (c : Char) : Bool := decide ('0' ≤ c) && decide (c ≤ '9')

/-- Skips leading white space of the input. -/
def skipSpace (inp : Str) : Str := inp.dropWhile isspace

/-- The value of a run of decimal digits. -/
def digitsVal (ds : Str) : Int :=
  ds.foldl (fun a c => 10 * a + ((c.toNat : Int) - 48)) 0

/-- The conversion `%d`: skips white space, takes an optional sign and the
longest run of decimal digits; fails without a digit.  Returns the value and
the rest of the input.  A value outside the range of `int` is undefined
behaviour in C; the model keeps the value of the digits. -/
def scanInt (inp : Str) : Option (Int × Str) :=
  let body : Bool × Str :=
    match skipSpace inp with
    | '-' :: r => (true, r)
    | '+' :: r => (false, r)
    | r => (false, r)
  let ds := body.2.takeWhile isdigit
  if ds = [] then none
  else some ((if body.1 then - digitsVal ds else digitsVal ds), body.2.dropWhile isdigit)

/-- The function `sscanf(buf, fmt, ...)` for a format whose conversions are all
of one kind, read by `conv`: white space in the format skips any white space of
the input, `%` and the next character is a conversion, any other character has
to match the input.  The result lists the converted values; its length is the
value `sscanf` returns when at least one conversion is made. -/
def sscanf {α : Type} (conv : Str → Option (α × Str)) : Str → Str → List α
  | [], _ => []
  | '%' :: _ :: fmt, inp =>
    match conv inp with
    | some (a, rest) => a :: sscanf conv fmt rest
    | none => []
  | c :: fmt, inp =>
    if isspace c then sscanf conv fmt (skipSpace inp)
    else
      match inp with
      | d :: rest => if d = c then sscanf conv fmt rest else []
      | [] => []

/-! The OBJ file translator: `objstate`, `flushfaces`, `vertmap`, `parseobj`. -/

/-- The struct `objstate`. -/
structure objstate (F : Type) where
  elementName : Str
  currentName : Str
  currentMaterial : Str
  P : List (Float3 F)
  N : List (Float3 F)
  Pmap : IntMap
  Prevmap : IntMap
  Nmap : IntMap
  nverts : Int
  nfaces : Int
  facesize : List Int
  faceidx : List Int
  faceNidx : List Int

/-- One entry of an emitted coordinate array. -/
inductive Emit (F : Type) where
  /-- the three coordinates of a vector element -/
  | value (p : Float3 F)
  /-- the text `-666 -666 -666` -/
  | sentinel
  /-- a read outside the vector: undefined behaviour in the source -/
  | invalid
deriving DecidableEq, Repr

/-- Everything `flushfaces` writes between `AttributeBegin` and `AttributeEnd`,
section by section in the order written. -/
structure Fragment (F : Type) where
  /-- the shading block after substitution, when the bound material is in the table -/
  material : Option Str
  /-- the name of both `Attribute "identifier"` lines -/
  name : Str
  /-- `PointsPolygons` when true, `SubdivisionMesh "catmull-clark"` when false -/
  polygons : Bool
  /-- first array: the face sizes -/
  facesize : List Int
  /-- second array: the face vertex indices -/
  faceidx : List Int
  /-- the array `"vertex point P"` -/
  P : List (Emit F)
  /-- the array `"vertex normal N"`, when written -/
  N : Option (List (Emit F))
  /-- the array `"uniform float __faceindex"` -/
  faceindex : List Int
deriving DecidableEq, Repr

/-- One item of the RIB stream `parseobj` writes. -/
inductive Rib (F : Type) where
  /-- a comment line passed through -/
  | comment (text : Str)
  /-- one block `AttributeBegin` .. `AttributeEnd` -/
  | attribute (frag : Fragment F)
deriving DecidableEq, Repr

/-- The substitution loop of `flushfaces`: at most `n` times, the first `%` of
the block is replaced by the name of the ptx file. -/
def substitute (ptxfile : Str) : Nat → Str → Str
  | 0, material => material
  | n + 1, material =>
    match strFind material '%' with
    | some pos => substitute ptxfile n (strReplace material pos 1 ptxfile)
    | none => material

/-- The largest entry of `faceidx`, starting from `-1`. -/
def maxvertOf (faceidx : List Int) : Int :=
  faceidx.foldl (fun maxvert i => if i > maxvert then i else maxvert) (-1)

/-- The indices `0 .. maxvert` of the two emission loops. -/
def upTo (maxvert : Int) : List Int :=
  (List.range (maxvert + 1).toNat).map (fun (i : Nat) => (i : Int))

/-- The element `xs[i]` of a vector as the emission loops write it. -/
def emitAt {F : Type} (xs : List (Float3 F)) (i : Int) : Emit F :=
  match vecAt xs i with
  | some p => Emit.value p
  | none => Emit.invalid

/-- The array `"vertex point P"`. -/
def emitP {F : Type} (s : objstate F) (maxvert : Int) : List (Emit F) :=
  (upTo maxvert).map (fun i =>
    match s.Prevmap.find i with
    | some j => emitAt s.P j
    | none => Emit.sentinel)

/-- The array `"vertex normal N"`; `s.Nmap[i]` of an unbound `i` is `0`. -/
def emitN {F : Type} (s : objstate F) (maxvert : Int) : List (Emit F) :=
  (upTo maxvert).map (fun i => emitAt s.N ((s.Nmap.find i).getD 0))

/-- The function `flushfaces`: the stream items appended to `ostr` and the
state afterwards. -/
def flushfaces {F : Type} (s : objstate F) (materials : StrMap) :
    List (Rib F) × objstate F :=
  if s.facesize ≠ [] then
    let polygons : Bool := decide (s.facesize.head? = some 3)
    let maxvert := maxvertOf s.faceidx
    let frag : Fragment F :=
      { material := (materials.find s.currentMaterial).map
          (substitute (s.currentName ++ ".ptx".toList) 2)
        name := s.currentName
        polygons := polygons
        facesize := s.facesize
        faceidx := s.faceidx
        P := emitP s maxvert
        N := if polygons && !s.N.isEmpty then some (emitN s maxvert) else none
        faceindex := upTo ((s.facesize.length : Int) - 1) }
    ([Rib.attribute frag],
      { s with nverts := 0, nfaces := 0, Pmap := [], Prevmap := [], Nmap := [],
               facesize := [], faceidx := [] })
  else ([], s)

/-- The function `vertmap`: the local index of source index `v`, and the state. -/
def vertmap {F : Type} (s : objstate F) (v : Int) : Int × objstate F :=
  match s.Pmap.find v with
  | none =>
    (s.nverts,
      { s with Pmap := s.Pmap.set v s.nverts, Prevmap := s.Prevmap.set s.nverts v,
               nverts := s.nverts + 1 })
  | some i => (i, s)

/-- The statement `s.faceidx.push_back(vertmap(s, v))`. -/
def pushIdx {F : Type} (s : objstate F) (v : Int) : objstate F :=
  let r := vertmap s v
  { r.2 with faceidx := r.2.faceidx ++ [r.1] }

/-- The statement `s.Nmap[vertmap(s, v)] = n`. -/
def setNormal {F : Type} (s : objstate F) (v n : Int) : objstate F :=
  let r := vertmap s v
  { r.2 with Nmap := r.2.Nmap.set r.1 n }

/-- The quad branch of `parseobj`, after a successful scan of eight integers. -/
def addQuad {F : Type} (s : objstate F) (v0 n0 v1 n1 v2 n2 v3 n3 : Int) : objstate F :=
  let s := { s with facesize := s.facesize ++ [4] }
  let s := pushIdx s (v0 - 1)
  let s := pushIdx s (v1 - 1)
  let s := pushIdx s (v2 - 1)
  let s := pushIdx s (v3 - 1)
  let s := setNormal s (v0 - 1) (n0 - 1)
  let s := setNormal s (v1 - 1) (n1 - 1)
  let s := setNormal s (v2 - 1) (n2 - 1)
  let s := setNormal s (v3 - 1) (n3 - 1)
  { s with nfaces := s.nfaces + 1 }

/-- The triangle branch of `parseobj`, after a successful scan of six integers. -/
def addTriangle {F : Type} (s : objstate F) (v0 n0 v1 n1 v2 n2 : Int) : objstate F :=
  let s := { s with facesize := s.facesize ++ [3] }
  let s := pushIdx s (v0 - 1)
  let s := pushIdx s (v1 - 1)
  let s := pushIdx s (v2 - 1)
  let s := setNormal s (v0 - 1) (n0 - 1)
  let s := setNormal s (v1 - 1) (n1 - 1)
  let s := setNormal s (v2 - 1) (n2 - 1)
  { s with nfaces := s.nfaces + 1 }

/-- The local variables of the loop of `parseobj`: the state and both streams. -/
structure Streams (F : Type) where
  s : objstate F
  ostr : List (Rib F)
  cerr : List Str

/-- The conversion `%f` of `sscanf`, given the library reader of a number:
leading white space is skipped first. -/
def scanFloat {F : Type} (readFloat : Str → Option (F × Str)) (inp : Str) :
    Option (F × Str) :=
  readFloat (skipSpace inp)

/-- The line of `getline` as the loop body sees it: a last `\n` erased. -/
def chomp (bufStr : Str) : Str :=
  if bufStr.getLast? = some '\n' then bufStr.dropLast else bufStr

/-- The body of the `while (getline(istr, bufStr))` loop of `parseobj`.  On the
one character line `g` the source reads `string(buf + 2)` past the terminator;
the model takes the empty name there. -/
def parseLine {F : Type} (readFloat : Str → Option (F × Str)) (materials : StrMap)
    (st : Streams F) (line : Str) : Streams F :=
  let bufStr := chomp line
  if bufStr = [] then st
  else
    let buf := cstr bufStr
    let st : Streams F :=
      if charAt buf 0 ≠ 'f' then
        let r := flushfaces st.s materials
        { st with s := r.2, ostr := st.ostr ++ r.1 }
      else st
    if charAt buf 0 = '#' then
      { st with ostr := st.ostr ++ [Rib.comment buf] }
    else if charAt buf 0 = 'g' then
      { st with s := { st.s with currentName := buf.drop 2 } }
    else if buf.take 7 = "usemtl ".toList then
      { st with s := { st.s with currentMaterial := buf.drop 7 } }
    else if charAt buf 0 = 'v' ∧ charAt buf 1 = 'n' then
      match sscanf (scanFloat readFloat) "vn %f %f %f".toList buf with
      | [x, y, z] => { st with s := { st.s with N := st.s.N ++ [Float3.mk x y z] } }
      | _ => { st with cerr := st.cerr ++ ["Bad normal directive:".toList ++ buf] }
    else if charAt buf 0 = 'v' then
      match sscanf (scanFloat readFloat) "v %f %f %f".toList buf with
      | [x, y, z] => { st with s := { st.s with P := st.s.P ++ [Float3.mk x y z] } }
      | _ => { st with cerr := st.cerr ++ ["Bad point directive:".toList ++ buf] }
    else if charAt buf 0 = 'f' then
      match sscanf scanInt "f %d//%d %d//%d %d//%d %d//%d".toList buf with
      | [v0, n0, v1, n1, v2, n2, v3, n3] =>
        { st with s := addQuad st.s v0 n0 v1 n1 v2 n2 v3 n3 }
      | _ =>
        match sscanf scanInt "f %d//%d %d//%d %d//%d".toList buf with
        | [v0, n0, v1, n1, v2, n2] => { st with s := addTriangle st.s v0 n0 v1 n1 v2 n2 }
        | _ => { st with cerr := st.cerr ++ ["Bad face directive:".toList ++ buf] }
    else st

/-- The state `struct objstate s` as `parseobj` declares it. -/
def objstate.init {F : Type} (elementName : Str) : objstate F :=
  { elementName := elementName, currentName := [], currentMaterial := [],
    P := [], N := [], Pmap := [], Prevmap := [], Nmap := [],
    nverts := 0, nfaces := 0, facesize := [], faceidx := [], faceNidx := [] }

/-- The locals of `parseobj` before its loop: the declared state, nothing
written yet. -/
def Streams.init {F : Type} (elementName : Str) : Streams F :=
  { s := objstate.init elementName, ostr := [], cerr := [] }

/-- The loop of `parseobj` over the lines `getline` delivers. -/
def readLines {F : Type} (readFloat : Str → Option (F × Str)) (materials : StrMap)
    (st : Streams F) (lines : List Str) : Streams F :=
  lines.foldl (parseLine readFloat materials) st

/-- The function `parseobj`: the input stream is the list of its lines; the
result holds what was written to `ostr` and to `cerr`. -/
def parseobj {F : Type} (readFloat : Str → Option (F × Str)) (elementName : Str)
    (materials : StrMap) (lines : List Str) : Streams F :=
  let st := readLines readFloat materials (Streams.init elementName) lines
  let r := flushfaces st.s materials
  { st with s := r.2, ostr := st.ostr ++ r.1 }

/-! Definitions used to state the properties of a face run. -/

/-- The distinct values of a list, in the order of their first occurrence. -/
def seen (xs : List Int) : List Int :=
  xs.foldl (fun acc x => if x ∈ acc then acc else acc ++ [x]) []

/-- The rank of a value among the distinct values of a list. -/
def rk (xs : List Int) (v : Int) : Int := ((seen xs).indexOf v : Nat)

/-- What the remap tables hold once the source indices `xs` were passed to
`vertmap` in order, starting from empty tables. -/
structure Core {F : Type} (s : objstate F) (xs : List Int) : Prop where
  nverts : s.nverts = ((seen xs).length : Nat)
  pmap : ∀ v, s.Pmap.find v = if v ∈ xs then some (rk xs v) else none
  prevmap : ∀ i, s.Prevmap.find i = vecAt (seen xs) i

/-- The fields no face directive changes. -/
def Frame {F : Type} (s t : objstate F) : Prop :=
  t.P = s.P ∧ t.N = s.N ∧ t.currentName = s.currentName ∧
    t.currentMaterial = s.currentMaterial

/-- The face branches of `parseobj` for a face given by its corners
`(v - 1, vn - 1)`: the size, the indices of all corners, then their normals. -/
def addFace {F : Type} (s : objstate F) (f : List (Int × Int)) : objstate F :=
  let s1 := { s with facesize := s.facesize ++ [(f.length : Int)] }
  let s2 := (f.map Prod.fst).foldl pushIdx s1
  let s3 := f.foldl (fun t c => setNormal t c.1 c.2) s2
  { s3 with nfaces := s3.nfaces + 1 }

/-- The state of a run whose accepted faces have sizes `fs` and corners `cs`,
each corner a pair `(v - 1, vn - 1)`. -/
structure Acc {F : Type} (s : objstate F) (fs : List Int) (cs : List (Int × Int)) : Prop where
  core : Core s (cs.map Prod.fst)
  idx : s.faceidx = (cs.map Prod.fst).map (rk (cs.map Prod.fst))
  nmap : s.Nmap = (cs.map (fun c => (rk (cs.map Prod.fst) c.1, c.2))).reverse
  sizes : s.facesize = fs

/-- A line the loop of `parseobj` skips: empty once a last `\n` is erased. -/
def isBlank (line : Str) : Bool := decide (chomp line = [])

/-- A face directive: a line whose first character is `f`. -/
def isFaceLine (line : Str) : Bool := decide (charAt (cstr (chomp line)) 0 = 'f')

/-- The corners `(v, vn)` the face branch of `parseobj` scans from a line,
`none` where it reports a bad face directive. -/
def faceOf (buf : Str) : Option (List (Int × Int)) :=
  match sscanf scanInt "f %d//%d %d//%d %d//%d %d//%d".toList buf with
  | [v0, n0, v1, n1, v2, n2, v3, n3] => some [(v0, n0), (v1, n1), (v2, n2), (v3, n3)]
  | _ =>
    match sscanf scanInt "f %d//%d %d//%d %d//%d".toList buf with
    | [v0, n0, v1, n1, v2, n2] => some [(v0, n0), (v1, n1), (v2, n2)]
    | _ => none

/-- The corners of a face as the tables store them: `(v - 1, vn - 1)`. -/
def zeroBased (f : List (Int × Int)) : List (Int × Int) :=
  f.map (fun c => (c.1 - 1, c.2 - 1))

/-- The lines of a run: each one blank or a face directive. -/
def faceRun (run : List Str) : Bool := run.all (fun l => isBlank l || isFaceLine l)

/-- The lines before a run: none at all, or the last one is a directive that is
not a face directive. -/
def atBoundary (pre : List Str) : Bool :=
  match pre.getLast? with
  | none => true
  | some b => !isBlank b && !isFaceLine b

/-- The faces of the lines that `parseobj` accepts, in input order, each with
its corners `(v, vn)` as written. -/
def acceptedFaces (lines : List Str) : List (List (Int × Int)) :=
  lines.filterMap (fun l => if isFaceLine l then faceOf (cstr (chomp l)) else none)

/-- The corners `(v, vn)` of all accepted faces of the lines, in input order. -/
def corners (lines : List Str) : List (Int × Int) := (acceptedFaces lines).flatten

/-- The fields of a run are those of a state just declared or just flushed. -/
def Fresh {F : Type} (s : objstate F) : Prop :=
  s.facesize = [] ∧ s.faceidx = [] ∧ s.Pmap = [] ∧ s.Prevmap = [] ∧ s.Nmap = [] ∧
    s.nverts = 0

/-- Two states with the same fields of the run. -/
def Quiet {F : Type} (s t : objstate F) : Prop :=
  t.facesize = s.facesize ∧ t.faceidx = s.faceidx ∧ t.Pmap = s.Pmap ∧
    t.Prevmap = s.Prevmap ∧ t.Nmap = s.Nmap ∧ t.nverts = s.nverts

/-- The invariant of the loop of `parseobj`: the run fields are those of some
accepted faces, and they are all clear when no face is pending. -/
def Inv {F : Type} (s : objstate F) : Prop :=
  (∃ fs cs, Acc s fs cs) ∧ (s.facesize = [] → Fresh s)

/-- First occurrence ranking, from the words of the specification: a corner
gets the number of distinct source indices referenced before the first
reference to its own source index. -/
def firstOccurrenceRank (src : List Int) : List Int :=
  src.map (fun p => (((src.take (src.indexOf p)).toFinset.card : Nat) : Int))

/-- A reader of unsigned decimal integers, one possible `%f` reader: it runs
the translator on concrete lines. -/
def readDigits (inp : Str) : Option (Nat × Str) :=
  if inp.takeWhile isdigit = [] then none
  else some ((digitsVal (inp.takeWhile isdigit)).toNat, inp.dropWhile isdigit)

/-- Sample input: four positions and two normals declared before a run. -/
def sampleDecls : List Str :=
  ["g quad".toList, "v 1 2 3".toList, "v 4 5 6".toList, "v 7 8 9".toList, "v 10 11 12".toList,
    "vn 0 0 1".toList, "vn 0 1 0".toList]

/-- Sample input: a run of two triangles that share two positions. -/
def sampleRun : List Str := ["f 1//1 2//1 3//1".toList, "f 3//2 2//2 4//2".toList]

/-- The blocks `AttributeBegin` .. `AttributeEnd` of a RIB stream, in order. -/
def fragments {F : Type} (ostr : List (Rib F)) : List (Fragment F) :=
  ostr.filterMap (fun r =>
    match r with
    | Rib.attribute frag => some frag
    | Rib.comment _ => none)

/-- Cuts the lines after the pending run `cur` into maximal runs. -/
def faceRunsFrom (cur : List Str) : List Str → List (List Str)
  | [] => [cur]
  | l :: ls =>
    if isBlank l || isFaceLine l then faceRunsFrom (cur ++ [l]) ls
    else cur :: faceRunsFrom [] ls

/-- The maximal runs of face directives, from the words of the specification:
the stream is cut at every directive that is not a face directive, blank lines
being no directive, and the end of the stream closes the last run. -/
def faceRuns (lines : List Str) : List (List Str) := faceRunsFrom [] lines

/-- What identifies the faces of a fragment: the face sizes and the ranking of
the corners, for the accepted faces of one run. -/
def runFaces (faces : List (List (Int × Int))) : List Int × List Int :=
  (faces.map (fun f => (f.length : Int)), firstOccurrenceRank (faces.flatten.map Prod.fst))

/-- The substitution the specification describes: going once through the
block, the first `n` placeholder tokens `%` are each replaced by the name of
the ptx file and all other text is kept. -/
def replaceTokens (ptxfile : Str) : Nat → Str → Str
  | 0, block => block
  | _ + 1, [] => []
  | n + 1, c :: block =>
    if c = '%' then ptxfile ++ replaceTokens ptxfile n block
    else c :: replaceTokens ptxfile (n + 1) block

/-! The material translator: `floatParam` and `material`. -/

/-- A JSON value of the library `json.hpp`; `D` is the type of its numbers.
The members of an object are listed in the order its iterator visits them. -/
inductive Json (D : Type) where
  | null
  | bool (b : Bool)
  | num (d : D)
  | str (s : Str)
  | arr (items : List (Json D))
  | obj (members : List (Str × Json D))

/-- What `material` takes from the libraries: the conversions and the output
operators of JSON values and of `float`, and the arithmetic of `float`. -/
structure Lib (D F : Type) where
  /-- the conversion of a JSON value to `float`, `none` where it throws -/
  toFloat : Json D → Option F
  /-- the text that `ostream << json` writes -/
  dump : Json D → Str
  /-- the text that `ostream << float` writes -/
  showFloat : F → Str
  /-- the constant `0` as a `float` -/
  zero : F
  /-- the constant `1.0f` -/
  one : F
  /-- the constant `2` as a `float` -/
  two : F
  /-- the constant `0.5f` -/
  half : F
  /-- the sum of two `float`s -/
  add : F → F → F
  /-- the difference of two `float`s -/
  sub : F → F → F
  /-- the product of two `float`s -/
  mul : F → F → F
  /-- the comparison `a > b` -/
  gt : F → F → Bool
  /-- the comparison `a == b` -/
  eq : F → F → Bool
  /-- the quotient of two `float`s -/
  div : F → F → F
  /-- the conversion of an `int` or a `size_t` to `float` -/
  ofNat : Nat → F

/-- The lookup `j.find(key)` of a constant JSON value: `none` is `j.end()`,
also for a value that is no object. -/
def Json.find {D : Type} (j : Json D) (key : Str) : Option (Json D) :=
  match j with
  | Json.obj members => members.lookup key
  | _ => none

/-- The comparison `v != ""` of a JSON value with a string literal. -/
def Json.notEmptyString {D : Type} (v : Json D) : Bool :=
  match v with
  | Json.str [] => false
  | _ => true

/-- The conversion of a JSON value to `std::string`, `none` where it throws. -/
def Json.getString {D : Type} (v : Json D) : Option Str :=
  match v with
  | Json.str s => some s
  | _ => none

/-- The conversion of the elements of an array to strings. -/
def allStrings {D : Type} : List (Json D) → Option (List Str)
  | [] => some []
  | v :: rest =>
    match v.getString, allStrings rest with
    | some s, some ss => some (s :: ss)
    | _, _ => none

/-- The conversion of a JSON value to `std::vector<std::string>`. -/
def Json.getStrings {D : Type} (v : Json D) : Option (List Str) :=
  match v with
  | Json.arr items => allStrings items
  | _ => none

/-- The conversion of the elements of an array to `float`. -/
def allFloats {D F : Type} (lib : Lib D F) : List (Json D) → Option (List F)
  | [] => some []
  | v :: rest =>
    match lib.toFloat v, allFloats lib rest with
    | some x, some xs => some (x :: xs)
    | _, _ => none

/-- The conversion of a JSON value to `std::vector<float>`. -/
def Json.getFloats {D F : Type} (lib : Lib D F) (v : Json D) : Option (List F) :=
  match v with
  | Json.arr items => allFloats lib items
  | _ => none

/-- The element `v[k]` of a constant JSON value: `none` where the value is no
array (the library throws) or the index is outside it (undefined). -/
def Json.index {D : Type} (v : Json D) (k : Nat) : Option (Json D) :=
  match v with
  | Json.arr items => items.get? k
  | _ => none

/-- The members the loop `for (auto i = j.begin(); i != j.end(); ++i)` visits
with `i.key()`: `none` where `i.key()` throws, on a non-empty value that is no
object. -/
def Json.items {D : Type} (j : Json D) : Option (List (Str × Json D)) :=
  match j with
  | Json.obj members => some members
  | Json.null => some []
  | Json.arr [] => some []
  | _ => none

/-- The function `floatParam`: the text it writes. -/
def floatParam {D F : Type} (lib : Lib D F) (name : Str) (f : F) : Str :=
  " \"float ".toList ++ name ++ "\" [".toList ++ lib.showFloat f ++ "]".toList

/-- The text ` "reference color <param>" ["<name>ColorMap:resultRGB"]`. -/
def referenceColor (param : String) (name : Str) : Str :=
  " \"reference color ".toList ++ param.toList ++ "\" [\"".toList ++ name ++
    "ColorMap:resultRGB\"]".toList

/-- The text ` "color <param>" [c[0] c[1] c[2]]` for a JSON value `c`, `none`
where an element cannot be read. -/
def literalColor {D F : Type} (lib : Lib D F) (param : String) (c : Json D) : Option Str :=
  match c.index 0, c.index 1, c.index 2 with
  | some c0, some c1, some c2 =>
    some (" \"color ".toList ++ param.toList ++ "\" [".toList ++ lib.dump c0 ++ " ".toList ++
      lib.dump c1 ++ " ".toList ++ lib.dump c2 ++ "]".toList)
  | _, _, _ => none

/-- The text ` "color <param>" [x y z]` for three `float`s. -/
def floatColor {D F : Type} (lib : Lib D F) (param : String) (x y z : F) : Str :=
  " \"color ".toList ++ param.toList ++ "\" [".toList ++ lib.showFloat x ++ " ".toList ++
    lib.showFloat y ++ " ".toList ++ lib.showFloat z ++ "]".toList

/-- The locals of `material` and what it changes: the text written to the
string stream, the assignment table, and what went to `cerr`. -/
structure MatOut where
  ostr : Str
  assignments : StrMap
  cerr : List Str
deriving DecidableEq, Repr

/-- The color that follows a gain: the reference to the color map when there
is one, else the literal `baseColor` of the material when it has one. -/
def colorSource {D F : Type} (lib : Lib D F) (name : Str) (j : Json D) (ptxColor : Bool)
    (param : String) (st : MatOut) : Except MatOut MatOut :=
  if ptxColor then Except.ok { st with ostr := st.ostr ++ referenceColor param name }
  else
    match j.find "baseColor".toList with
    | some c =>
      match literalColor lib param c with
      | some text => Except.ok { st with ostr := st.ostr ++ text }
      | none => Except.error st
    | none => Except.ok st

/-- The blend `(1.0f - t) + t * c` of white and a channel. -/
def tint {D F : Type} (lib : Lib D F) (t c : F) : F :=
  lib.add (lib.sub lib.one t) (lib.mul t c)

/-- One pass of the loop of `material` over the keys of the material. -/
def materialKey {D F : Type} (lib : Lib D F) (name : Str) (j : Json D) (ptxColor : Bool)
    (st : MatOut) (kv : Str × Json D) : Except MatOut MatOut :=
  let key := kv.1
  let value := kv.2
  if key = "colorMap".toList ∨ key = "displacementMap".toList then Except.ok st
  else if key = "assignment".toList then
    match value.getStrings with
    | some s =>
      Except.ok { st with assignments := s.foldl (fun a k => StrMap.set a k name) st.assignments }
    | none => Except.error st
  else if key = "type".toList then Except.ok st
  else if key = "baseColor".toList then
    if ptxColor then
      Except.ok { st with ostr := st.ostr ++ referenceColor "diffuseColor" name }
    else
      match literalColor lib "diffuseColor" value with
      | some text => Except.ok { st with ostr := st.ostr ++ text }
      | none => Except.error st
  else if key = "diffTrans".toList then
    match lib.toFloat value with
    | some diffTrans =>
      if lib.gt diffTrans lib.zero then
        colorSource lib name j ptxColor "diffuseTransmitColor"
          { st with ostr := st.ostr ++ " \"int diffuseDoubleSided\" [1]".toList ++
              floatParam lib "diffuseGain".toList (lib.mul lib.half (lib.sub lib.two diffTrans)) ++
              floatParam lib "diffuseTransmitGain".toList (lib.mul lib.half diffTrans) }
      else Except.ok st
    | none => Except.error st
  else if key = "flatness".toList then
    match lib.toFloat value with
    | some subsurfaceGain =>
      if !lib.eq subsurfaceGain lib.zero then
        colorSource lib name j ptxColor "subsurfaceColor"
          { st with ostr := st.ostr ++ floatParam lib "subsurfaceGain".toList subsurfaceGain }
      else Except.ok st
    | none => Except.error st
  else if key = "roughness".toList then
    match lib.toFloat value with
    | some r =>
      Except.ok
        { st with ostr := st.ostr ++ floatParam lib "specularRoughness".toList r ++
            floatParam lib "diffuseRoughness".toList r }
    | none => Except.error st
  else if key = "ior".toList then
    Except.ok
      { st with ostr := st.ostr ++ " \"color specularIor\" [".toList ++ lib.dump value ++
          " ".toList ++ lib.dump value ++ " ".toList ++ lib.dump value ++ "]".toList }
  else if key = "sheen".toList then
    match lib.toFloat value with
    | some x => Except.ok { st with ostr := st.ostr ++ floatParam lib "fuzzGain".toList x }
    | none => Except.error st
  else if key = "sheenTint".toList then
    match lib.toFloat value with
    | some sheenTint =>
      match j.find "baseColor".toList with
      | some c =>
        if !lib.eq sheenTint lib.zero then
          if lib.eq sheenTint lib.one then colorSource lib name j ptxColor "fuzzColor" st
          else if ptxColor then
            Except.ok { st with ostr := st.ostr ++ referenceColor "fuzzColor" name }
          else
            match c.getFloats lib with
            | some (c0 :: c1 :: c2 :: _) =>
              let fuzzColor0 := tint lib sheenTint c0
              let fuzzColor1 := tint lib sheenTint c1
              let fuzzColor2 := tint lib sheenTint c2
              Except.ok
                { st with ostr := st.ostr ++
                    floatColor lib "fuzzColor" fuzzColor0 fuzzColor1 fuzzColor2 }
            | _ => Except.error st
        else Except.ok st
      | none => Except.ok st
    | none => Except.error st
  else if key = "alpha".toList then Except.ok st
  else if key = "specTrans".toList ∨ key = "scatterDistance".toList then Except.ok st
  else if key = "refractive".toList then
    match lib.toFloat value with
    | some x =>
      let st1 : MatOut :=
        { st with ostr := st.ostr ++ floatParam lib "refractionGain".toList x ++
            floatParam lib "reflectionGain".toList x ++
            floatParam lib "diffuseGain".toList lib.zero }
      let withIor : Except MatOut MatOut :=
        match j.find "ior".toList with
        | some v =>
          match lib.toFloat v with
          | some y => Except.ok { st1 with ostr := st1.ostr ++ floatParam lib "glassIor".toList y }
          | none => Except.error st1
        | none => Except.ok st1
      match withIor with
      | Except.ok st2 =>
        match j.find "roughness".toList with
        | some v =>
          match lib.toFloat v with
          | some y =>
            Except.ok { st2 with ostr := st2.ostr ++ floatParam lib "glassRoughness".toList y }
          | none => Except.error st2
        | none => Except.ok st2
      | Except.error e => Except.error e
    | none => Except.error st
  else if key = "specularTint".toList then
    match lib.toFloat value with
    | some specularTint =>
      match j.find "baseColor".toList with
      | some c =>
        if !lib.eq specularTint lib.zero then
          match c.getFloats lib with
          | some (c0 :: c1 :: c2 :: _) =>
            let specularColor0 := tint lib specularTint c0
            let specularColor1 := tint lib specularTint c1
            let specularColor2 := tint lib specularTint c2
            Except.ok
              { st with ostr := st.ostr ++
                  floatColor lib "specularFaceColor" specularColor0 specularColor1 specularColor2 ++
                  floatColor lib "specularEdgeColor" specularColor0 specularColor1 specularColor2 }
          | _ => Except.error st
        else Except.ok st
      | none => Except.ok st
    | none => Except.error st
  else if key = "metallic".toList then Except.ok st
  else if key = "clearcoat".toList ∨ key = "clearcoatGloss".toList then Except.ok st
  else if key = "anisotropic".toList then
    match lib.toFloat value with
    | some anisotropic =>
      if !lib.eq anisotropic lib.zero then
        Except.ok { st with ostr := st.ostr ++ floatParam lib key anisotropic }
      else Except.ok st
    | none => Except.error st
  else
    Except.ok { st with cerr := st.cerr ++ ["Warning: unknown material key ".toList ++ key] }

/-- The loop of `material` over the members of the material. -/
def materialKeys {D F : Type} (lib : Lib D F) (name : Str) (j : Json D) (ptxColor : Bool) :
    MatOut → List (Str × Json D) → Except MatOut MatOut
  | st, [] => Except.ok st
  | st, kv :: rest =>
    match materialKey lib name j ptxColor st kv with
    | Except.ok st1 => materialKeys lib name j ptxColor st1 rest
    | Except.error e => Except.error e

/-- The displacement part of `material`: the pattern and the binding of a
displacement map that is present and not the empty string. -/
def displacementPart {D : Type} (name : Str) (j : Json D) (st : MatOut) : Except MatOut MatOut :=
  match j.find "displacementMap".toList with
  | some v =>
    if v.notEmptyString then
      match v.getString with
      | some displacementMap =>
        Except.ok
          { st with ostr := st.ostr ++
              "    Pattern \"PxrPtexture\" \"".toList ++ name ++
              "DisplacementMap\" \"string filename\" \"".toList ++ displacementMap ++
              "%\"\n".toList ++
              "    Displace \"PxrDisplace\" \"".toList ++ name ++ "\"".toList ++
              " \"reference float dispScalar\" [\"".toList ++ name ++
              "DisplacementMap:resultR\"]\n".toList }
      | none => Except.error st
    else Except.ok st
  | none => Except.ok st

/-- The color map part of `material`: the pattern of a color map that is
present and not the empty string, and the flag `ptxColor`. -/
def colorMapPart {D : Type} (name : Str) (j : Json D) (st : MatOut) :
    Except MatOut (MatOut × Bool) :=
  match j.find "colorMap".toList with
  | some v =>
    if v.notEmptyString then
      match v.getString with
      | some colorMap =>
        let colorMap :=
          if colorMap ≠ [] ∧ colorMap.getLast? ≠ some '/' then colorMap ++ "/".toList
          else colorMap
        Except.ok
          ({ st with ostr := st.ostr ++
              "    Pattern \"PxrPtexture\" \"".toList ++ name ++
              "ColorMap\" \"string filename\" \"".toList ++ colorMap ++ "%\"".toList ++
              " \"int linearize\" [1]".toList ++ "\n".toList }, true)
      | none => Except.error st
    else Except.ok (st, false)
  | none => Except.ok (st, false)

set_option linter.unusedVariables false in
/-- The function `material`.  The result is `Except.ok` with the returned
text in `ostr`, or `Except.error` where a library call throws; both carry the
assignment table and the diagnostics as they are at that point. -/
def material {D F : Type} (lib : Lib D F) (elementName : Str) (name : Str) (j : Json D)
    (assignments : StrMap) : Except MatOut MatOut :=
  let st0 : MatOut := { ostr := [], assignments := assignments, cerr := [] }
  match displacementPart name j st0 with
  | Except.error e => Except.error e
  | Except.ok st1 =>
    match colorMapPart name j st1 with
    | Except.error e => Except.error e
    | Except.ok (st2, ptxColor) =>
      let st3 : MatOut :=
        { st2 with ostr := st2.ostr ++ "    Bxdf \"PxrSurface\" \"".toList ++ name ++ "\"".toList }
      match j.items with
      | some members => materialKeys lib name j ptxColor st3 members
      | none => Except.error st3

/-- The state of `material` before anything is written. -/
def MatOut.empty : MatOut := { ostr := [], assignments := [], cerr := [] }

/-- The state `st` followed by what a part of `material` adds to an empty
state: text and diagnostics are appended, new bindings go in front. -/
def MatOut.app (st d : MatOut) : MatOut :=
  { ostr := st.ostr ++ d.ostr, assignments := d.assignments ++ st.assignments,
    cerr := st.cerr ++ d.cerr }

/-- An outcome of a part of `material` on the empty state, moved behind `st`. -/
def MatOut.after (st : MatOut) (r : Except MatOut MatOut) : Except MatOut MatOut :=
  match r with
  | Except.ok d => Except.ok (st.app d)
  | Except.error e => Except.error (st.app e)

/-- The text `colorSource` adds, `none` where it throws. -/
def colorText {D F : Type} (lib : Lib D F) (name : Str) (j : Json D) (ptxColor : Bool)
    (param : String) : Option Str :=
  if ptxColor then some (referenceColor param name)
  else
    match j.find "baseColor".toList with
    | some c => literalColor lib param c
    | none => some []

/-- The known parameter set: the keys the loop of `material` has a branch for. -/
def knownKeys : List Str :=
  ["colorMap", "displacementMap", "assignment", "type", "baseColor", "diffTrans", "flatness",
    "roughness", "ior", "sheen", "sheenTint", "alpha", "specTrans", "scatterDistance",
    "refractive", "specularTint", "metallic", "clearcoat", "clearcoatGloss",
    "anisotropic"].map String.toList

/-- What `material` does before its loop: the displacement and color map
patterns and the declaration `Bxdf "PxrSurface" "<name>"`; the result is the
state at the start of the loop and the flag `ptxColor`. -/
def materialHead {D : Type} (name : Str) (j : Json D) (assignments : StrMap) :
    Except MatOut (MatOut × Bool) :=
  match displacementPart name j { ostr := [], assignments := assignments, cerr := [] } with
  | Except.error e => Except.error e
  | Except.ok st1 =>
    match colorMapPart name j st1 with
    | Except.error e => Except.error e
    | Except.ok (st2, ptxColor) =>
      Except.ok
        ({ st2 with ostr := st2.ostr ++ "    Bxdf \"PxrSurface\" \"".toList ++ name ++
            "\"".toList }, ptxColor)

/-- A rational number as text: the numerator, and the denominator when it is
not one. -/
def showRat (q : ℚ) : Str :=
  (if q.num < 0 then ['-'] else []) ++ Nat.toDigits 10 q.num.natAbs ++
    (if q.den = 1 then [] else '/' :: Nat.toDigits 10 q.den)

/-- A sample library over the rational numbers, with exact arithmetic: JSON
numbers and `float`s are rationals written by `showRat`, strings are written
in quotes, and an array or an object is written as a fixed word. -/
def ratLib : Lib ℚ ℚ where
  toFloat v :=
    match v with
    | Json.num d => some d
    | Json.bool b => some (if b then 1 else 0)
    | _ => none
  dump v :=
    match v with
    | Json.null => "null".toList
    | Json.bool b => if b then "true".toList else "false".toList
    | Json.num d => showRat d
    | Json.str s => '"' :: s ++ ['"']
    | Json.arr _ => "array".toList
    | Json.obj _ => "object".toList
  showFloat := showRat
  zero := 0
  one := 1
  two := 2
  half := 1 / 2
  add a b := a + b
  sub a b := a - b
  mul a b := a * b
  gt a b := decide (b < a)
  eq a b := decide (a = b)
  div a b := a / b
  ofNat n := (n : ℚ)

/-- A fixed point number of three decimal places, given in thousandths, as
text: `500` is written `0.5`. -/
def showMilli (x : Int) : Str :=
  let n := x.natAbs
  let digits : Str :=
    [Nat.digitChar (n % 1000 / 100), Nat.digitChar (n % 100 / 10), Nat.digitChar (n % 10)]
  (if x < 0 then ['-'] else []) ++ Nat.toDigits 10 (n / 1000) ++
    (if n % 1000 = 0 then [] else '.' :: (digits.reverse.dropWhile (fun c => c = '0')).reverse)

/-- A sample library with fixed point arithmetic: JSON numbers and `float`s are
integers counting thousandths, products and quotients are cut to three places.
It runs `material` and the curve translator on concrete input. -/
def milliLib : Lib Int Int where
  toFloat v :=
    match v with
    | Json.num d => some d
    | Json.bool b => some (if b then 1000 else 0)
    | _ => none
  dump v :=
    match v with
    | Json.null => "null".toList
    | Json.bool b => if b then "true".toList else "false".toList
    | Json.num d => showMilli d
    | Json.str s => '"' :: s ++ ['"']
    | Json.arr _ => "array".toList
    | Json.obj _ => "object".toList
  showFloat := showMilli
  zero := 0
  one := 1000
  two := 2000
  half := 500
  add a b := a + b
  sub a b := a - b
  mul a b := a * b / 1000
  gt a b := decide (b < a)
  eq a b := decide (a = b)
  div a b := a * 1000 / b
  ofNat n := 1000 * (n : Int)

/-! The element translator: the JSON accesses, `objFile`, `materialFile`. -/

/-- What a library call can raise. -/
inductive Thrown where
  /-- the exception `json::out_of_range` that `at` throws for a key the object
  does not have -/
  | outOfRange (key : Str)
  /-- another exception of the JSON library: `type_error`, `invalid_iterator`,
  `parse_error` -/
  | exception
  /-- no exception, undefined behaviour: the constant `operator[]` with a key
  the object does not have, an index outside a vector, an iterator at the end
  dereferenced -/
  | undefined
deriving DecidableEq, Repr

/-- The call `j.at(key)` on a constant JSON value. -/
def Json.atKey {D : Type} (j : Json D) (key : Str) : Except Thrown (Json D) :=
  match j with
  | Json.obj members =>
    match members.lookup key with
    | some v => Except.ok v
    | none => Except.error (Thrown.outOfRange key)
  | _ => Except.error Thrown.exception

/-- The read `j[key]` of a constant JSON value. -/
def Json.sub {D : Type} (j : Json D) (key : Str) : Except Thrown (Json D) :=
  match j with
  | Json.obj members =>
    match members.lookup key with
    | some v => Except.ok v
    | none => Except.error Thrown.undefined
  | _ => Except.error Thrown.exception

/-- The read `j[key]` of a JSON value that is not constant: a key the object
does not have is added with the value null, and null becomes an object. -/
def Json.subMut {D : Type} (j : Json D) (key : Str) : Except Thrown (Json D) :=
  match j with
  | Json.obj members =>
    match members.lookup key with
    | some v => Except.ok v
    | none => Except.ok Json.null
  | Json.null => Except.ok Json.null
  | _ => Except.error Thrown.exception

/-- The test `v.is_null()`. -/
def Json.isNull {D : Type} (v : Json D) : Bool :=
  match v with
  | Json.null => true
  | _ => false

/-- The comparison `v == "text"` of a JSON value with a string literal. -/
def Json.isStr {D : Type} (v : Json D) (text : Str) : Bool :=
  match v with
  | Json.str s => decide (s = text)
  | _ => false

/-- The values the loop `for (auto i = j.begin(); i != j.end(); ++i)` visits
with `*i` or `i.value()`: the elements of an array, the values of the members
of an object, nothing for null, and the value itself otherwise. -/
def Json.values {D : Type} (j : Json D) : List (Json D) :=
  match j with
  | Json.arr items => items
  | Json.obj members => members.map Prod.snd
  | Json.null => []
  | v => [v]

/-- The conversion of a JSON value to `std::string`. -/
def Json.asString {D : Type} (v : Json D) : Except Thrown Str :=
  match v.getString with
  | some s => Except.ok s
  | none => Except.error Thrown.exception

/-- The conversion of a JSON value to `float`. -/
def Json.asFloat {D F : Type} (lib : Lib D F) (v : Json D) : Except Thrown F :=
  match lib.toFloat v with
  | some x => Except.ok x
  | none => Except.error Thrown.exception

/-- The call `s.find(needle, 0)` of a string: `none` is `npos`. -/
def strFindStr (needle : Str) : Str → Nat → Option Nat
  | [], pos => if needle = [] then some pos else none
  | c :: rest, pos =>
    if needle.isPrefixOf (c :: rest) then some pos else strFindStr needle rest (pos + 1)

/-- The name `ofilename` that `objFile` derives from `filename`: the first
`.obj` becomes `.rib`, then the first `obj/` becomes `rib/`. -/
def ribName (filename : Str) : Str :=
  let ofilename :=
    match strFindStr ".obj".toList filename 0 with
    | some pos => strReplace filename pos 4 ".rib".toList
    | none => filename
  match strFindStr "obj/".toList ofilename 0 with
  | some pos => strReplace ofilename pos 4 "rib/".toList
  | none => ofilename

/-- One piece of the main RIB stream, as the translator writes it; white space
and line ends are left out. -/
inductive Item (F : Type) where
  /-- a comment line: the text after the hash sign -/
  | comment (text : Str)
  /-- the line `ObjectBegin "name"` -/
  | objectBegin (name : Str)
  /-- the line `ObjectEnd` -/
  | objectEnd
  /-- the line `AttributeBegin` -/
  | attributeBegin
  /-- the line `AttributeEnd` -/
  | attributeEnd
  /-- the line `Attribute "identifier" "string object" "name"` -/
  | identifierObject (name : Str)
  /-- the line `Attribute "identifier" "string name" "name"` -/
  | identifierName (name : Str)
  /-- the line `ConcatTransform [m0 .. m15]` -/
  | concatTransform (matrix : List F)
  /-- the line `ObjectInstance "master"` -/
  | objectInstance (master : Str)
  /-- the line `ReadArchive "file"` -/
  | readArchive (file : Str)
  /-- the shading block of a material, one line -/
  | shading (text : Str)
  /-- the line `Basis "b-spline" 1 "b-spline" 1` -/
  | basis
  /-- the text `Curves "cubic" [` -/
  | curvesBegin
  /-- one vertex count and the blank after it -/
  | count (n : Nat)
  /-- the text `] "nonperiodic" "P" [` -/
  | pBegin
  /-- one coordinate and the blank after it -/
  | coord (x : F)
  /-- the text `] "varying float width" [` -/
  | widthBegin
  /-- one width and the blank after it -/
  | width (x : F)
  /-- the text `]` that ends the `Curves` line -/
  | curvesEnd
deriving DecidableEq, Repr

/-- What the translator reads from outside: the libraries and the files. -/
structure Env (D F : Type) where
  /-- the JSON library and the arithmetic of `float` -/
  lib : Lib D F
  /-- the conversion `%f` of `sscanf` -/
  readFloat : Str → Option (F × Str)
  /-- the value `ifstream f(name); f >> j` reads from the file `name`, `none`
  where the parse throws -/
  jsonFile : Str → Option (Json D)
  /-- the lines `getline` reads from the file `name`: none for a file that
  cannot be opened -/
  objLines : Str → List Str
  /-- the text `e.what()` of the `out_of_range` exception for a missing key -/
  what : Str → Str

/-- What the translator writes: the main stream `ostr`, the stream `cerr`,
and the mesh files written by `parseobj`, in the order they are written. -/
structure World (F : Type) where
  ostr : List (Item F)
  cerr : List Str
  files : List (Str × List (Rib F))
deriving DecidableEq, Repr

/-- The world before anything is written. -/
def World.init {F : Type} : World F := { ostr := [], cerr := [], files := [] }

/-- One more piece on the main stream. -/
def World.put {F : Type} (w : World F) (item : Item F) : World F :=
  { w with ostr := w.ostr ++ [item] }

/-- One more line on `cerr`. -/
def World.warn {F : Type} (w : World F) (line : Str) : World F :=
  { w with cerr := w.cerr ++ [line] }

/-- The outcome of a part of the translator: the world after it, or what was
thrown and the world at that point. -/
abbrev Run (F : Type) := Except (Thrown × World F) (World F)

/-- The function `objFile`.  The directory of the mesh file is taken to exist
or to be created without an error. -/
def objFile {D F : Type} (env : Env D F) (elementName filename : Str) (materials : StrMap)
    (isMaster : Bool) (w : World F) : World F :=
  let ofilename := ribName filename
  let r := parseobj env.readFloat elementName materials (env.objLines filename)
  let w1 : World F :=
    { w with cerr := w.cerr ++ r.cerr, files := w.files ++ [(ofilename, r.ostr)] }
  let w2 := if isMaster then w1 else w1.put (Item.comment ("begin objFile ".toList ++ filename))
  let w3 := w2.put (Item.readArchive ofilename)
  if isMaster then w3 else w3.put (Item.comment ("end objFile ".toList ++ filename))

/-- The function `outputTransform`. -/
def outputTransform {F : Type} (matrix : List F) (w : World F) : Run F :=
  if 16 ≤ matrix.length then Except.ok (w.put (Item.concatTransform (matrix.take 16)))
  else Except.error (Thrown.undefined, w)

/-- The call `outputTransform(ostr, v)` with a JSON value `v`, converted to
`std::vector<float>` first. -/
def transformOf {D F : Type} (lib : Lib D F) (v : Json D) (w : World F) : Run F :=
  match v.getFloats lib with
  | some matrix => outputTransform matrix w
  | none => Except.error (Thrown.exception, w)

/-- The locals `materials` and `assignments` of `element`, and what the
material translator wrote to `cerr`. -/
structure Tables where
  materials : StrMap
  assignments : StrMap
  cerr : List Str
deriving DecidableEq, Repr

/-- One pass of the loop of `materialFile`. -/
def materialEntry {D F : Type} (lib : Lib D F) (elementName : Str) (t : Tables)
    (kv : Str × Json D) : Except Tables Tables :=
  match material lib elementName kv.1 kv.2 t.assignments with
  | Except.ok r =>
    Except.ok
      { materials := t.materials.set kv.1 r.ostr, assignments := r.assignments,
        cerr := t.cerr ++ r.cerr }
  | Except.error e =>
    Except.error { t with assignments := e.assignments, cerr := t.cerr ++ e.cerr }

/-- The loop of `materialFile` over the members of the file. -/
def materialEntries {D F : Type} (lib : Lib D F) (elementName : Str) (t : Tables) :
    List (Str × Json D) → Except Tables Tables
  | [] => Except.ok t
  | kv :: rest =>
    match materialEntry lib elementName t kv with
    | Except.ok t1 => materialEntries lib elementName t1 rest
    | Except.error e => Except.error e

set_option linter.unusedVariables false in
/-- The function `materialFile`: `Except.error` where a library call throws,
which is never `out_of_range`. -/
def materialFile {D F : Type} (lib : Lib D F) (elementName filename : Str) (j : Json D)
    (t : Tables) : Except Tables Tables :=
  match j.items with
  | some members => materialEntries lib elementName t members
  | none => Except.error t
/-! The instanced primitives. -/

/-- The masters loop of `instancedArchive` over the values of `archives`. -/
def archiveMasters {D F : Type} (env : Env D F) (elementName : Str) (materials : StrMap) :
    List (Json D) → World F → Run F
  | [], w => Except.ok w
  | i :: rest, w =>
    match i.getString with
    | some s =>
      let w1 := w.put (Item.objectBegin s)
      let w2 := objFile env elementName s materials true w1
      archiveMasters env elementName materials rest (w2.put Item.objectEnd)
    | none => Except.error (Thrown.exception, w)

/-- The inner loop of `instancedArchive` over the instances of one master. -/
def placeInstances {D F : Type} (lib : Lib D F) (master : Str) :
    List (Str × Json D) → World F → Run F
  | [], w => Except.ok w
  | k :: rest, w =>
    let w1 := (w.put Item.attributeBegin).put (Item.identifierName k.1)
    match transformOf lib k.2 w1 with
    | Except.ok w2 =>
      placeInstances lib master rest
        ((w2.put (Item.objectInstance master)).put Item.attributeEnd)
    | Except.error e => Except.error e

/-- The outer loop of `instancedArchive` over the members of the instance
file. -/
def instanceTable {D F : Type} (lib : Lib D F) : List (Str × Json D) → World F → Run F
  | [], w => Except.ok w
  | i :: rest, w =>
    match i.2.items with
    | some instances =>
      match placeInstances lib i.1 instances w with
      | Except.ok w1 => instanceTable lib rest w1
      | Except.error e => Except.error e
    | none => Except.error (Thrown.exception, w)

set_option linter.unusedVariables false in
/-- The function `instancedArchive`. -/
def instancedArchive {D F : Type} (env : Env D F) (elementName primName : Str) (j : Json D)
    (materials : StrMap) (w : World F) : Run F :=
  let w1 := w.put (Item.comment ("begin instance archive ".toList ++ primName))
  match j.sub "archives".toList with
  | Except.error t => Except.error (t, w1)
  | Except.ok archives =>
    match archiveMasters env elementName materials archives.values w1 with
    | Except.error e => Except.error e
    | Except.ok w2 =>
      match j.atKey "jsonFile".toList with
      | Except.error t => Except.error (t, w2)
      | Except.ok jsonFile =>
        match jsonFile.asString with
        | Except.error t => Except.error (t, w2)
        | Except.ok archiveFilename =>
          match env.jsonFile archiveFilename with
          | none => Except.error (Thrown.exception, w2)
          | some archiveFileJSON =>
            let w3 := w2.put (Item.comment "begin instances ".toList)
            match archiveFileJSON.items with
            | none => Except.error (Thrown.exception, w3)
            | some table =>
              match instanceTable env.lib table w3 with
              | Except.error e => Except.error e
              | Except.ok w4 =>
                let w5 := w4.put (Item.comment "end instances ".toList)
                Except.ok
                  (w5.put (Item.comment
                    ("end instance archive ".toList ++ env.lib.dump jsonFile)))

/-- The coordinates `(*k)[i].get<float>()` of a point, written one after the
other for the indices listed. -/
def putCoords {D F : Type} (lib : Lib D F) (p : Json D) : List Nat → World F → Run F
  | [], w => Except.ok w
  | i :: rest, w =>
    match (p.index i).bind lib.toFloat with
    | some x => putCoords lib p rest (w.put (Item.coord x))
    | none => Except.error (Thrown.exception, w)

/-- A run of points written one after the other, three coordinates each. -/
def putPoints {D F : Type} (lib : Lib D F) : List (Json D) → World F → Run F
  | [], w => Except.ok w
  | p :: rest, w =>
    match putCoords lib p [0, 1, 2] w with
    | Except.ok w1 => putPoints lib rest w1
    | Except.error e => Except.error e

/-- The body of the `P` loop of `instancedCurves` for one curve: the first
point twice, every point, and the last point twice. -/
def curveP {D F : Type} (lib : Lib D F) (curve : Json D) (w : World F) : Run F :=
  match curve.values with
  | [] =>
    match curve with
    | Json.null => Except.error (Thrown.exception, w)
    | _ => Except.error (Thrown.undefined, w)
  | first :: rest =>
    let last := (first :: rest).getLast (List.cons_ne_nil first rest)
    putPoints lib ([first, first] ++ (first :: rest) ++ [last, last]) w

/-- The `P` loop of `instancedCurves` over the curves. -/
def curvesP {D F : Type} (lib : Lib D F) : List (Json D) → World F → Run F
  | [], w => Except.ok w
  | curve :: rest, w =>
    match curveP lib curve w with
    | Except.ok w1 => curvesP lib rest w1
    | Except.error e => Except.error e

/-- The widths the width loop of `instancedCurves` writes for one curve of
`size` points; the `P` loop has shown `size` to be at least one. -/
def curveWidths {D F : Type} (lib : Lib D F) (widthRoot widthTip : F) (size : Nat) : List F :=
  [widthRoot] ++
    (List.range (size - 1)).map (fun k =>
      let a := lib.div (lib.ofNat k) (lib.ofNat (size - 1))
      lib.add widthRoot (lib.mul a (lib.sub widthTip widthRoot))) ++
    [widthTip, widthTip]

/-- The shading line of `instancedCurves`: the block of the material assigned
to the primitive, its first placeholder replaced, with a warning. -/
def curvesMaterial {F : Type} (primName : Str) (materials assignments : StrMap)
    (w : World F) : World F :=
  match assignments.find primName with
  | some assigned =>
    match materials.find assigned with
    | some material =>
      match strFind material '%' with
      | some pos =>
        let w1 := w.warn
          ("Warning: illegal ptx binding found for curves material ".toList ++ assigned)
        w1.put (Item.shading (strReplace material pos 1 (assigned ++ ".ptx".toList)))
      | none => w.put (Item.shading material)
    | none => w
  | none => w

/-- The function `instancedCurves`. -/
def instancedCurves {D F : Type} (env : Env D F) (primName : Str) (j : Json D)
    (materials assignments : StrMap) (w : World F) : Run F :=
  match (j.atKey "widthTip".toList).bind (Json.asFloat env.lib) with
  | Except.error t => Except.error (t, w)
  | Except.ok widthTip =>
    match (j.atKey "widthRoot".toList).bind (Json.asFloat env.lib) with
    | Except.error t => Except.error (t, w)
    | Except.ok widthRoot =>
      match (j.atKey "jsonFile".toList).bind Json.asString with
      | Except.error t => Except.error (t, w)
      | Except.ok curveFilename =>
        match env.jsonFile curveFilename with
        | none => Except.error (Thrown.exception, w)
        | some curveFileJSON =>
          let w1 := (w.put (Item.comment ("begin curves ".toList ++ primName))).put
            Item.attributeBegin
          let w2 := curvesMaterial primName materials assignments w1
          let w3 := (w2.put Item.basis).put Item.curvesBegin
          let curves := curveFileJSON.values
          let w4 : World F :=
            { w3 with ostr := w3.ostr ++
                curves.map (fun curve => Item.count (curve.values.length + 4)) }
          match curvesP env.lib curves (w4.put Item.pBegin) with
          | Except.error e => Except.error e
          | Except.ok w5 =>
            let widths := curves.flatMap (fun curve =>
              curveWidths env.lib widthRoot widthTip curve.values.length)
            let w6 : World F :=
              { w5 with ostr := w5.ostr ++ [Item.widthBegin] ++ widths.map Item.width }
            Except.ok
              (((w6.put Item.curvesEnd).put Item.attributeEnd).put
                (Item.comment ("end curves ".toList ++ curveFilename)))

/-- One pass of the loop of `instancedPrimitives`. -/
def primitive {D F : Type} (env : Env D F) (elementName : Str) (materials assignments : StrMap)
    (i : Str × Json D) (w : World F) : Run F :=
  match i.2.find "type".toList with
  | some type =>
    if type.isStr "curve".toList then instancedCurves env i.1 i.2 materials assignments w
    else if type.isStr "archive".toList then instancedArchive env elementName i.1 i.2 materials w
    else if type.isStr "element".toList then Except.ok (w.warn "HAS ELEMENT".toList)
    else Except.ok w
  | none => Except.ok w

/-- The loop of `instancedPrimitives`. -/
def primitives {D F : Type} (env : Env D F) (elementName : Str) (materials assignments : StrMap) :
    List (Str × Json D) → World F → Run F
  | [], w => Except.ok w
  | i :: rest, w =>
    match primitive env elementName materials assignments i w with
    | Except.ok w1 => primitives env elementName materials assignments rest w1
    | Except.error e => Except.error e

/-- The function `instancedPrimitives`. -/
def instancedPrimitives {D F : Type} (env : Env D F) (elementName : Str) (j : Json D)
    (materials assignments : StrMap) (w : World F) : Run F :=
  let w1 := w.put (Item.comment "begin instancedPrimitiveJsonFiles ".toList)
  match j.items with
  | none => Except.error (Thrown.exception, w1)
  | some members =>
    match primitives env elementName materials assignments members w1 with
    | Except.error e => Except.error e
    | Except.ok w2 => Except.ok (w2.put (Item.comment "end instancedPrimitiveJsonFiles ".toList))
/-! The function `element`. -/

/-- The loop of `element` over the members of `instancedCopies`. -/
def copies {D F : Type} (env : Env D F) (elementName : Str) (materials assignments : StrMap) :
    List (Str × Json D) → World F → Run F
  | [], w => Except.ok w
  | k :: rest, w =>
    let w1 := w.put Item.attributeBegin
    match k.2.subMut "transformMatrix".toList with
    | Except.error t => Except.error (t, w1)
    | Except.ok transformMatrix =>
      match (if transformMatrix.isNull then Except.ok w1
        else transformOf env.lib transformMatrix w1) with
      | Except.error e => Except.error e
      | Except.ok w2 =>
        match k.2.find "geomObjFile".toList with
        | some _ =>
          match (k.2.atKey "geomObjFile".toList).bind Json.asString with
          | Except.error t => Except.error (t, w2)
          | Except.ok filename =>
            let w3 := objFile env k.1 filename materials false w2
            match (match k.2.find "instancedPrimitiveJsonFiles".toList with
              | some p => instancedPrimitives env k.1 p materials assignments w3
              | none => Except.ok w3) with
            | Except.error e => Except.error e
            | Except.ok w4 =>
              copies env elementName materials assignments rest (w4.put Item.attributeEnd)
        | none =>
          let w3 := (w2.put (Item.identifierName k.1)).put (Item.objectInstance elementName)
          copies env elementName materials assignments rest (w3.put Item.attributeEnd)

/-- The body of the `try` block of `element`.  An exception of the material
translator is passed on as `Thrown.exception`: it is never `out_of_range`. -/
def elementBody {D F : Type} (env : Env D F) (j : Json D) (w : World F) : Run F :=
  match (j.atKey "name".toList).bind Json.asString with
  | Except.error t => Except.error (t, w)
  | Except.ok elementName =>
    let w1 := (w.put (Item.objectBegin elementName)).put (Item.identifierObject elementName)
    match (j.atKey "matFile".toList).bind Json.asString with
    | Except.error t => Except.error (t, w1)
    | Except.ok matFilename =>
      match env.jsonFile matFilename with
      | none => Except.error (Thrown.exception, w1)
      | some matFileJSON =>
        match materialFile env.lib elementName matFilename matFileJSON
          { materials := [], assignments := [], cerr := [] } with
        | Except.error e => Except.error (Thrown.exception, { w1 with cerr := w1.cerr ++ e.cerr })
        | Except.ok t =>
          let w2 : World F := { w1 with cerr := w1.cerr ++ t.cerr }
          match (j.atKey "geomObjFile".toList).bind Json.asString with
          | Except.error th => Except.error (th, w2)
          | Except.ok filename =>
            let w3 := objFile env elementName filename t.materials false w2
            match (match j.find "instancedPrimitiveJsonFiles".toList with
              | some p => instancedPrimitives env elementName p t.materials t.assignments w3
              | none => Except.ok w3) with
            | Except.error e => Except.error e
            | Except.ok w4 =>
              let w5 := (w4.put Item.objectEnd).put Item.attributeBegin
              match (match j.find "transformMatrix".toList with
                | some transformMatrix =>
                  let w6 := w5.put (Item.identifierName elementName)
                  if transformMatrix.isNull then Except.ok w6
                  else transformOf env.lib transformMatrix w6
                | none => Except.ok w5) with
              | Except.error e => Except.error e
              | Except.ok w7 =>
                let w8 := (w7.put (Item.objectInstance elementName)).put Item.attributeEnd
                match j.find "instancedCopies".toList with
                | some instances =>
                  match instances.items with
                  | some ks => copies env elementName t.materials t.assignments ks w8
                  | none => Except.error (Thrown.exception, w8.put Item.attributeBegin)
                | none => Except.ok w8

/-- The function `element`: the handler catches `json::out_of_range` only and
writes `e.what()` to `cerr`; `Except.error` is an exception that leaves the
function, or undefined behaviour. -/
def element {D F : Type} (env : Env D F) (j : Json D) (w : World F) : Run F :=
  match elementBody env j w with
  | Except.ok w1 => Except.ok w1
  | Except.error (Thrown.outOfRange key, w1) => Except.ok (w1.warn (env.what key))
  | Except.error e => Except.error e

/-! Sample surroundings for the examples. -/

/-- The text of `e.what()` in the version 3 of the JSON library. -/
def whatText (key : Str) : Str :=
  "[json.exception.out_of_range.403] key '".toList ++ key ++ "' not found".toList

/-- The number of thousandths a run of digits with an optional sign stands
for: the conversion `%f` on whole numbers, in the fixed-point reading. -/
def readMilli (inp : Str) : Option (Int × Str) :=
  match scanInt inp with
  | some (v, rest) => some (1000 * v, rest)
  | none => none

/-- Sample surroundings over the fixed-point library: the files are given as
two tables. -/
def milliEnv (jsonFiles : List (Str × Json Int)) (objFiles : List (Str × List Str)) :
    Env Int Int where
  lib := milliLib
  readFloat := readMilli
  jsonFile name := jsonFiles.lookup name
  objLines name := (objFiles.lookup name).getD []
  what := whatText

/-- The vertex counts on a stream, in order. -/
def countsOf {F : Type} (items : List (Item F)) : List Nat :=
  items.filterMap (fun item =>
    match item with
    | Item.count n => some n
    | _ => none)

/-- The coordinates on a stream, in order. -/
def coordsOf {F : Type} (items : List (Item F)) : List F :=
  items.filterMap (fun item =>
    match item with
    | Item.coord x => some x
    | _ => none)

/-- The widths on a stream, in order. -/
def widthsOf {F : Type} (items : List (Item F)) : List F :=
  items.filterMap (fun item =>
    match item with
    | Item.width x => some x
    | _ => none)

/-- The point a JSON value stands for: its first three elements as `float`s. -/
def Json.point {D F : Type} (lib : Lib D F) (p : Json D) : Option (Float3 F) :=
  match (p.index 0).bind lib.toFloat, (p.index 1).bind lib.toFloat,
    (p.index 2).bind lib.toFloat with
  | some x, some y, some z => some { x := x, y := y, z := z }
  | _, _, _ => none

/-- The coordinates of a point in the order they are written. -/
def Float3.coords {F : Type} (p : Float3 F) : List F := [p.x, p.y, p.z]

/-- The padding of a polyline in the words of the specification: the first
point twice, the points in order, the last point twice. -/
def padded {α : Type} (c : List α) : List α :=
  match c.head?, c.getLast? with
  | some first, some last => [first, first] ++ c ++ [last, last]
  | _, _ => []

/-- The masters of the instances on a stream are defined before use: every
`ObjectInstance` names a master of the list `defined` or of an `ObjectBegin`
earlier on the stream. -/
def mastersDefined {F : Type} : List Str → List (Item F) → Bool
  | _, [] => true
  | defined, Item.objectBegin s :: rest => mastersDefined (s :: defined) rest
  | defined, Item.objectInstance m :: rest =>
    decide (m ∈ defined) && mastersDefined defined rest
  | defined, _ :: rest => mastersDefined defined rest

/-- A sample curves primitive: widths 1 at the root and 2 at the tip, the
curves in the file `c.json`. -/
def sampleCurvesPrim : Json Int :=
  Json.obj [("jsonFile".toList, Json.str "c.json".toList),
    ("widthRoot".toList, Json.num 1000), ("widthTip".toList, Json.num 2000)]

/-- A sample curve file with one polyline of three points. -/
def sampleCurveFile : Json Int :=
  Json.arr [Json.arr [Json.arr [Json.num 0, Json.num 0, Json.num 0],
    Json.arr [Json.num 1000, Json.num 0, Json.num 0],
    Json.arr [Json.num 2000, Json.num 0, Json.num 0]]]

/-- The polyline of `sampleCurveFile`. -/
def samplePolyline : List (Float3 Int) :=
  [{ x := 0, y := 0, z := 0 }, { x := 1000, y := 0, z := 0 }, { x := 2000, y := 0, z := 0 }]

/-- The surroundings of the curve examples: the curve file and nothing else. -/
def sampleCurvesEnv : Env Int Int := milliEnv [("c.json".toList, sampleCurveFile)] []

/-- The identity matrix as a JSON array of thousandths. -/
def identityMatrix : Json Int :=
  Json.arr ([1000, 0, 0, 0, 0, 1000, 0, 0, 0, 0, 1000, 0, 0, 0, 0, 1000].map Json.num)

/-- A sample archive primitive: one archive `a.obj`, the instances in the
file `inst.json`. -/
def sampleArchivePrim : Json Int :=
  Json.obj [("archives".toList, Json.arr [Json.str "a.obj".toList]),
    ("jsonFile".toList, Json.str "inst.json".toList)]

/-- An instance file that places one instance of the archive `a.obj`. -/
def sampleInstances : Json Int :=
  Json.obj [("a.obj".toList, Json.obj [("i0".toList, identityMatrix)])]

/-- An instance file that places one instance of a master `ghost.obj`, which
is not among the archives of `sampleArchivePrim`. -/
def danglingInstances : Json Int :=
  Json.obj [("ghost.obj".toList, Json.obj [("i0".toList, identityMatrix)])]

/-- A sample manifest with a name and a material file, and no `geomObjFile`. -/
def manifestWithoutGeometry : Json Int :=
  Json.obj [("matFile".toList, Json.str "m.json".toList), ("name".toList, Json.str "e".toList)]

/-- A sample material file: one material with a key outside the known
parameter set. -/
def materialsWithUnknownKey : Json Int :=
  Json.obj [("mat".toList, Json.obj [("bogus".toList, Json.num 1000)])]

/-- The world of `element` once the materials `t` are defined and the geometry
file of the element is translated, before the instanced primitives. -/
def afterGeometry {D F : Type} (env : Env D F) (name filename : Str) (t : Tables)
    (w : World F) : World F :=
  objFile env name filename t.materials false
    { ostr := w.ostr ++ [Item.objectBegin name, Item.identifierObject name]
      cerr := w.cerr ++ t.cerr
      files := w.files }

/-- The outcome of the instanced primitives of a manifest with the members
`members`, from the world `w3`: the call of `instancedPrimitives` when the
manifest has the key, else nothing. -/
def primitivesOf {D F : Type} (env : Env D F) (name : Str) (members : List (Str × Json D))
    (t : Tables) (w3 : World F) : Run F :=
  match members.lookup "instancedPrimitiveJsonFiles".toList with
  | some p => instancedPrimitives env name p t.materials t.assignments w3
  | none => Except.ok w3

/-- Sample surroundings: a material file without materials, no other file. -/
def plainEnv : Env Int Int := milliEnv [("m.json".toList, Json.obj [])] []

/-- The outcome of the instanced copies of a manifest with the members
`members`, from the world `w8` after the placement of the element: the loop
over `instancedCopies` when the manifest has the key, else nothing. -/
def copiesOf {D F : Type} (env : Env D F) (name : Str) (members : List (Str × Json D))
    (t : Tables) (w8 : World F) : Run F :=
  match members.lookup "instancedCopies".toList with
  | some instances =>
    match instances.items with
    | some ks => copies env name t.materials t.assignments ks w8
    | none => Except.error (Thrown.exception, w8.put Item.attributeBegin)
  | none => Except.ok w8

/-- A sample manifest with all required fields and a transform. -/
def manifestWithTransform (transformMatrix : Json Int) : Json Int :=
  Json.obj [("geomObjFile".toList, Json.str "g.obj".toList),
    ("matFile".toList, Json.str "m.json".toList), ("name".toList, Json.str "e".toList),
    ("transformMatrix".toList, transformMatrix)]

/-- The transform step of one pass of the loop over `instancedCopies`, from
the world `w1` after `AttributeBegin`: the transform of the copy is written
unless it is absent or null. -/
def copyTransform {D F : Type} (env : Env D F) (copy : Json D) (w1 : World F) : Run F :=
  match copy.subMut "transformMatrix".toList with
  | Except.error t => Except.error (t, w1)
  | Except.ok transformMatrix =>
    if transformMatrix.isNull then Except.ok w1
    else transformOf env.lib transformMatrix w1

/-- A sample material file: the material `red` with a bare `baseColor`. -/
def redMaterials : Json Int :=
  Json.obj [("red".toList, Json.obj [("baseColor".toList,
    Json.arr [Json.num 1000, Json.num 0, Json.num 0])])]

/-- The table of shading blocks `materialFile` builds from `redMaterials`. -/
def redTable : StrMap :=
  match materialFile milliLib "e".toList "m.json".toList redMaterials
    { materials := [], assignments := [], cerr := [] } with
  | Except.ok t => t.materials
  | Except.error _ => []

/-- A sample geometry file: five positions, six normals, the material `red`
bound, and two triangles that share the one position 3. -/
def fanLines : List Str :=
  ["g fan".toList, "usemtl red".toList, "v 0 0 0".toList, "v 1 0 0".toList, "v 0 1 0".toList,
    "v 2 0 0".toList, "v 0 2 0".toList, "vn 0 0 1".toList, "vn 0 0 1".toList,
    "vn 0 0 1".toList, "vn 0 0 1".toList, "vn 0 0 1".toList, "vn 0 0 1".toList,
    "f 1//1 2//2 3//3".toList, "f 3//4 4//5 5//6".toList]

/-- The number of maps a material declares: the keys `displacementMap` and
`colorMap` that are present with a value other than the empty string. -/
def declaredMaps {D : Type} (j : Json D) : Nat :=
  (match j.find "displacementMap".toList with
    | some v => if v.notEmptyString then 1 else 0
    | none => 0) +
  (match j.find "colorMap".toList with
    | some v => if v.notEmptyString then 1 else 0
    | none => 0)

/-- A sample material with both maps and a `baseColor`. -/
def mappedMaterial : List (Str × Json Int) :=
  [("baseColor".toList, Json.arr [Json.num 1000, Json.num 0, Json.num 0]),
    ("colorMap".toList, Json.str "color".toList),
    ("displacementMap".toList, Json.str "disp/".toList)]

/-- The two kinds of scoped blocks of a RIB stream. -/
inductive Scope where
  /-- a block `AttributeBegin` .. `AttributeEnd` -/
  | attribute
  /-- a block `ObjectBegin` .. `ObjectEnd` -/
  | object
deriving DecidableEq, Repr

/-- The scopes left open after the items of a stream, read from the scopes
`stack` (the innermost first): an opener is put on the stack, a closer takes
its own opener off, and the result is `none` where a closer meets another
scope or none. -/
def nest {F : Type} : List (Item F) → List Scope → Option (List Scope)
  | [], stack => some stack
  | item :: rest, stack =>
    match item with
    | Item.attributeBegin => nest rest (Scope.attribute :: stack)
    | Item.objectBegin _ => nest rest (Scope.object :: stack)
    | Item.attributeEnd =>
      match stack with
      | Scope.attribute :: outer => nest rest outer
      | _ => none
    | Item.objectEnd =>
      match stack with
      | Scope.object :: outer => nest rest outer
      | _ => none
    | _ => nest rest stack

/-- A piece of a stream that closes every scope it opens and no other: read
before any stream, it leaves the open scopes as they are. -/
def Balanced {F : Type} (added : List (Item F)) : Prop :=
  ∀ (tail : List (Item F)) (stack : List Scope), nest (added ++ tail) stack = nest tail stack

/-- An item that opens or closes no scope. -/
def Item.plain {F : Type} (item : Item F) : Bool :=
  match item with
  | Item.attributeBegin => false
  | Item.attributeEnd => false
  | Item.objectBegin _ => false
  | Item.objectEnd => false
  | _ => true

/-- The scope lines of an item of a mesh file: `flushfaces` writes
`AttributeBegin` first and `AttributeEnd` last in a fragment. -/
def Rib.scopes {F : Type} (r : Rib F) : List (Item F) :=
  match r with
  | Rib.comment text => [Item.comment text]
  | Rib.attribute _ => [Item.attributeBegin, Item.attributeEnd]

/-- What a part of the translator adds to the main stream is balanced. -/
def Adds {F : Type} (w w1 : World F) : Prop :=
  ∃ added, w1.ostr = w.ostr ++ added ∧ Balanced added

/-- A sample manifest with an archive primitive, a curve primitive, a
transform and one instanced copy. -/
def fullManifest : Json Int :=
  Json.obj [("geomObjFile".toList, Json.str "g.obj".toList),
    ("instancedCopies".toList,
      Json.obj [("c1".toList, Json.obj [("transformMatrix".toList, identityMatrix)])]),
    ("instancedPrimitiveJsonFiles".toList,
      Json.obj [("arch".toList,
        Json.obj [("archives".toList, Json.arr [Json.str "a.obj".toList]),
          ("jsonFile".toList, Json.str "inst.json".toList),
          ("type".toList, Json.str "archive".toList)]),
        ("hair".toList,
          Json.obj [("jsonFile".toList, Json.str "c.json".toList),
            ("type".toList, Json.str "curve".toList), ("widthRoot".toList, Json.num 1000),
            ("widthTip".toList, Json.num 2000)])]),
    ("matFile".toList, Json.str "m.json".toList), ("name".toList, Json.str "e".toList),
    ("transformMatrix".toList, identityMatrix)]

/-- The surroundings of `fullManifest`: its material file, instance file and
curve file. -/
def fullEnv : Env Int Int :=
  milliEnv [("m.json".toList, Json.obj []), ("inst.json".toList, sampleInstances),
    ("c.json".toList, sampleCurveFile)] []

/-! Theorems. -/

/-! First occurrence ranking. -/

theorem seen_snoc (xs : List Int) (v : Int) :
    seen (xs ++ [v]) = if v ∈ seen xs then seen xs else seen xs ++ [v] := by
  simp [seen, List.foldl_append]

theorem mem_seen (xs : List Int) : ∀ v, v ∈ seen xs ↔ v ∈ xs := by
  induction xs using List.reverseRecOn with
  | nil => simp [seen]
  | append_singleton xs w ih =>
    intro v
    rw [seen_snoc]
    by_cases hw : w ∈ seen xs
    · rw [if_pos hw, ih, List.mem_append, List.mem_singleton]
      constructor
      · exact Or.inl
      · rintro (h | h)
        · exact h
        · subst h; exact (ih v).1 hw
    · rw [if_neg hw]; simp [ih]

theorem nodup_seen (xs : List Int) : (seen xs).Nodup := by
  induction xs using List.reverseRecOn with
  | nil => simp [seen]
  | append_singleton xs w ih =>
    rw [seen_snoc]
    by_cases hw : w ∈ seen xs
    · rw [if_pos hw]; exact ih
    · rw [if_neg hw]
      exact List.Nodup.append ih (List.nodup_singleton w) (by simpa using hw)

theorem seen_prefix (xs ys : List Int) : seen xs <+: seen (xs ++ ys) := by
  induction ys using List.reverseRecOn with
  | nil => simp
  | append_singleton ys w ih =>
    rw [← List.append_assoc, seen_snoc]
    by_cases hw : w ∈ seen (xs ++ ys)
    · rw [if_pos hw]; exact ih
    · rw [if_neg hw]; exact ih.trans (List.prefix_append _ _)

theorem rk_append (xs ys : List Int) (v : Int) (hv : v ∈ xs) : rk (xs ++ ys) v = rk xs v := by
  obtain ⟨t, ht⟩ := seen_prefix xs ys
  unfold rk
  rw [← ht, List.indexOf_append_of_mem ((mem_seen xs v).2 hv)]

theorem rk_lt (xs : List Int) (v : Int) (hv : v ∈ xs) : rk xs v < (seen xs).length := by
  unfold rk
  exact_mod_cast List.indexOf_lt_length.2 ((mem_seen xs v).2 hv)

theorem rk_nonneg (xs : List Int) (v : Int) : 0 ≤ rk xs v := by
  unfold rk; exact Int.ofNat_nonneg _

theorem rk_inj (xs : List Int) (v w : Int) (hv : v ∈ xs) (h : rk xs v = rk xs w) : v = w := by
  unfold rk at h
  have h2 : (seen xs).indexOf v = (seen xs).indexOf w := by exact_mod_cast h
  have hv' := (mem_seen xs v).2 hv
  have hw' : w ∈ seen xs := by
    rw [← List.indexOf_lt_length, ← h2]; exact List.indexOf_lt_length.2 hv'
  exact (List.indexOf_inj hv' hw').1 h2

theorem length_seen (xs : List Int) : (seen xs).length = xs.toFinset.card := by
  rw [← List.toFinset_card_of_nodup (nodup_seen xs)]
  congr 1
  ext v
  simp [mem_seen]

/-! The remap tables. -/

theorem find_set (m : IntMap) (k v k' : Int) :
    (m.set k v).find k' = if k = k' then some v else m.find k' := by
  simp [IntMap.set, IntMap.find]

theorem vecAt_nil {α : Type} (i : Int) : vecAt ([] : List α) i = none := by
  unfold vecAt; split <;> simp

theorem vecAt_snoc {α : Type} (l : List α) (a : α) (i : Int) :
    vecAt (l ++ [a]) i = if i = (l.length : Nat) then some a else vecAt l i := by
  unfold vecAt
  by_cases h0 : 0 ≤ i
  · obtain ⟨n, rfl⟩ := Int.eq_ofNat_of_zero_le h0
    simp only [Int.toNat_ofNat, Int.ofNat_nonneg, if_true, Nat.cast_inj, List.get?_eq_getElem?]
    by_cases hn : n = l.length
    · subst hn; simp
    · rw [if_neg hn]
      rcases Nat.lt_or_gt_of_ne hn with h | h
      · rw [List.getElem?_append_left h]
      · rw [List.getElem?_eq_none (by simp; omega), List.getElem?_eq_none (by omega)]
  · have : i ≠ (l.length : Nat) := by omega
    simp [h0, this]

theorem vecAt_natCast {α : Type} (l : List α) (n : Nat) : vecAt l (n : Int) = l.get? n := by
  simp [vecAt]

theorem vertmap_frame {F : Type} (s : objstate F) (v : Int) :
    (vertmap s v).2.faceidx = s.faceidx ∧ (vertmap s v).2.Nmap = s.Nmap ∧
    (vertmap s v).2.facesize = s.facesize ∧ Frame s (vertmap s v).2 := by
  unfold vertmap Frame; split <;> simp

theorem vertmap_core {F : Type} (s : objstate F) (xs : List Int) (v : Int) (h : Core s xs) :
    (vertmap s v).1 = rk (xs ++ [v]) v ∧ Core (vertmap s v).2 (xs ++ [v]) := by
  have hp := h.pmap v
  by_cases hv : v ∈ xs
  · rw [if_pos hv] at hp
    have hs : seen (xs ++ [v]) = seen xs := by
      rw [seen_snoc, if_pos ((mem_seen xs v).2 hv)]
    have hr : ∀ w, rk (xs ++ [v]) w = rk xs w := fun w => by unfold rk; rw [hs]
    unfold vertmap; rw [hp]
    refine ⟨(hr v).symm, ?_, ?_, ?_⟩
    · rw [hs]; exact h.nverts
    · intro w
      rw [h.pmap w, hr w]
      by_cases hw : w ∈ xs
      · simp [hw]
      · have : w ≠ v := fun e => hw (e ▸ hv)
        simp [hw, this]
    · intro i; rw [hs]; exact h.prevmap i
  · rw [if_neg hv] at hp
    have hs : seen (xs ++ [v]) = seen xs ++ [v] := by
      rw [seen_snoc, if_neg (fun e => hv ((mem_seen xs v).1 e))]
    have hrv : rk (xs ++ [v]) v = ((seen xs).length : Nat) := by
      unfold rk; rw [hs]
      rw [List.indexOf_append_of_not_mem (fun e => hv ((mem_seen xs v).1 e))]
      simp
    unfold vertmap; rw [hp]
    refine ⟨by rw [hrv]; exact h.nverts, ?_, ?_, ?_⟩
    · show s.nverts + 1 = _
      rw [hs, h.nverts]; simp
    · intro w
      show (s.Pmap.set v s.nverts).find w = _
      rw [find_set]
      by_cases hw : v = w
      · subst hw; simp [hrv, h.nverts]
      · rw [if_neg hw, h.pmap w]
        by_cases hw2 : w ∈ xs
        · simp [hw2, rk_append xs [v] w hw2]
        · have : ¬ w = v := fun e => hw e.symm
          simp [hw2, this]
    · intro i
      show (s.Prevmap.set s.nverts v).find i = _
      rw [find_set, hs, vecAt_snoc, h.nverts, h.prevmap i]
      by_cases hi : i = ((seen xs).length : Nat)
      · simp [hi]
      · have : ¬ ((seen xs).length : Int) = i := fun e => hi e.symm
        simp [hi, this]

theorem Frame.refl {F : Type} (s : objstate F) : Frame s s := ⟨rfl, rfl, rfl, rfl⟩

theorem Frame.trans {F : Type} {s t u : objstate F} (h1 : Frame s t) (h2 : Frame t u) :
    Frame s u :=
  ⟨h2.1.trans h1.1, h2.2.1.trans h1.2.1, h2.2.2.1.trans h1.2.2.1, h2.2.2.2.trans h1.2.2.2⟩

theorem pushIdx_spec {F : Type} (s : objstate F) (xs : List Int) (v : Int) (h : Core s xs)
    (hi : s.faceidx = xs.map (rk xs)) :
    Core (pushIdx s v) (xs ++ [v]) ∧
    (pushIdx s v).faceidx = (xs ++ [v]).map (rk (xs ++ [v])) ∧
    (pushIdx s v).Nmap = s.Nmap ∧ (pushIdx s v).facesize = s.facesize ∧
    Frame s (pushIdx s v) := by
  obtain ⟨h1, h2⟩ := vertmap_core s xs v h
  obtain ⟨f1, f2, f3, f4⟩ := vertmap_frame s v
  refine ⟨⟨h2.nverts, h2.pmap, h2.prevmap⟩, ?_, f2, f3, f4⟩
  show (vertmap s v).2.faceidx ++ [(vertmap s v).1] = _
  rw [f1, h1, hi, List.map_append, List.map_singleton]
  congr 1
  exact List.map_congr_left (fun w hw => (rk_append xs [v] w hw).symm)

theorem pushIdx_fold {F : Type} (vs : List Int) : ∀ (s : objstate F) (xs : List Int),
    Core s xs → s.faceidx = xs.map (rk xs) →
    Core (vs.foldl pushIdx s) (xs ++ vs) ∧
    (vs.foldl pushIdx s).faceidx = (xs ++ vs).map (rk (xs ++ vs)) ∧
    (vs.foldl pushIdx s).Nmap = s.Nmap ∧ (vs.foldl pushIdx s).facesize = s.facesize ∧
    Frame s (vs.foldl pushIdx s) := by
  induction vs with
  | nil => intro s xs h hi; simpa using ⟨h, hi, Frame.refl s⟩
  | cons v vs ih =>
    intro s xs h hi
    obtain ⟨a1, a2, a3, a4, a5⟩ := pushIdx_spec s xs v h hi
    obtain ⟨b1, b2, b3, b4, b5⟩ := ih (pushIdx s v) (xs ++ [v]) a1 a2
    rw [List.append_assoc, List.singleton_append] at b1 b2
    exact ⟨b1, b2, b3.trans a3, b4.trans a4, a5.trans b5⟩

theorem Core.congr {F : Type} {s t : objstate F} {xs : List Int} (h : Core s xs)
    (h1 : t.nverts = s.nverts) (h2 : t.Pmap = s.Pmap) (h3 : t.Prevmap = s.Prevmap) :
    Core t xs :=
  ⟨h1 ▸ h.nverts, fun v => h2 ▸ h.pmap v, fun i => h3 ▸ h.prevmap i⟩

theorem setNormal_spec {F : Type} (s : objstate F) (xs : List Int) (v n : Int) (h : Core s xs)
    (hv : v ∈ xs) : setNormal s v n = { s with Nmap := (rk xs v, n) :: s.Nmap } := by
  have hp := h.pmap v
  rw [if_pos hv] at hp
  unfold setNormal vertmap
  rw [hp]
  rfl

theorem setNormal_fold {F : Type} (xs : List Int) (f : List (Int × Int)) :
    ∀ (s : objstate F), Core s xs → (∀ c ∈ f, c.1 ∈ xs) →
    f.foldl (fun t c => setNormal t c.1 c.2) s =
      { s with Nmap := (f.map (fun c => (rk xs c.1, c.2))).reverse ++ s.Nmap } := by
  induction f with
  | nil => intro s _ _; rfl
  | cons c f ih =>
    intro s h hm
    rw [List.foldl_cons, setNormal_spec s xs c.1 c.2 h (hm c (List.mem_cons_self _ _))]
    have e := ih { s with Nmap := (rk xs c.1, c.2) :: s.Nmap } (h.congr rfl rfl rfl)
      (fun d hd => hm d (List.mem_cons_of_mem _ hd))
    rw [e]
    simp

theorem addFace_spec {F : Type} (s : objstate F) (fs : List Int) (cs f : List (Int × Int))
    (h : Acc s fs cs) :
    Acc (addFace s f) (fs ++ [(f.length : Int)]) (cs ++ f) ∧ Frame s (addFace s f) := by
  have hc : Core { s with facesize := s.facesize ++ [(f.length : Int)] } (cs.map Prod.fst) :=
    h.core.congr rfl rfl rfl
  obtain ⟨a1, a2, a3, a4, a5⟩ := pushIdx_fold (f.map Prod.fst)
    { s with facesize := s.facesize ++ [(f.length : Int)] } (cs.map Prod.fst) hc h.idx
  have hm : ∀ c ∈ f, c.1 ∈ cs.map Prod.fst ++ f.map Prod.fst := fun c hcf =>
    List.mem_append_right _ (List.mem_map_of_mem Prod.fst hcf)
  have e := setNormal_fold (cs.map Prod.fst ++ f.map Prod.fst) f _ a1 hm
  unfold addFace
  simp only [e]
  refine ⟨⟨?_, ?_, ?_, ?_⟩, a5⟩
  · rw [List.map_append]; exact a1.congr rfl rfl rfl
  · rw [List.map_append]; exact a2
  · show _ ++ (List.foldl pushIdx _ _).Nmap = _
    rw [a3]
    show _ ++ s.Nmap = _
    rw [h.nmap, List.map_append, List.map_append, List.reverse_append]
    congr 2
    apply List.map_congr_left
    intro c hcc
    rw [rk_append _ _ _ (List.mem_map_of_mem Prod.fst hcc)]
  · show (List.foldl pushIdx _ _).facesize = _
    rw [a4, ← h.sizes]

/-! The loop of `parseobj` over a face run. -/

theorem addQuad_eq {F : Type} (s : objstate F) (v0 n0 v1 n1 v2 n2 v3 n3 : Int) :
    addQuad s v0 n0 v1 n1 v2 n2 v3 n3 =
      addFace s (zeroBased [(v0, n0), (v1, n1), (v2, n2), (v3, n3)]) := by
  simp only [addQuad, addFace, zeroBased, List.map, List.foldl, List.length]
  rfl

theorem addTriangle_eq {F : Type} (s : objstate F) (v0 n0 v1 n1 v2 n2 : Int) :
    addTriangle s v0 n0 v1 n1 v2 n2 = addFace s (zeroBased [(v0, n0), (v1, n1), (v2, n2)]) := by
  simp only [addTriangle, addFace, zeroBased, List.map, List.foldl, List.length]
  rfl

theorem isFaceLine_iff (line : Str) :
    isFaceLine line = true ↔ ∃ rest, cstr (chomp line) = 'f' :: rest := by
  unfold isFaceLine charAt
  cases h : cstr (chomp line) with
  | nil => simp
  | cons c rest => simp

theorem not_blank_of_face (line : Str) (h : isFaceLine line = true) : chomp line ≠ [] := by
  obtain ⟨rest, hr⟩ := (isFaceLine_iff line).1 h
  intro e
  rw [e] at hr
  simp [cstr] at hr

theorem parseLine_blank {F : Type} (readFloat : Str → Option (F × Str)) (materials : StrMap)
    (st : Streams F) (line : Str) (h : isBlank line = true) :
    parseLine readFloat materials st line = st := by
  have h' : chomp line = [] := by simpa [isBlank] using h
  simp [parseLine, h']

theorem parseLine_face {F : Type} (readFloat : Str → Option (F × Str)) (materials : StrMap)
    (st : Streams F) (line : Str) (h : isFaceLine line = true) :
    parseLine readFloat materials st line =
      match faceOf (cstr (chomp line)) with
      | some f => { st with s := addFace st.s (zeroBased f) }
      | none => { st with cerr := st.cerr ++ ["Bad face directive:".toList ++ cstr (chomp line)] } := by
  have hne := not_blank_of_face line h
  obtain ⟨rest, hr⟩ := (isFaceLine_iff line).1 h
  unfold parseLine faceOf
  simp only [hne, if_false, hr, charAt, List.getD_cons_zero]
  simp only [show ¬ ('f' ≠ 'f') by decide, show ¬ ('f' = '#') by decide,
    show ¬ ('f' = 'g') by decide, show ¬ ('f' = 'v') by decide, if_false, if_true, false_and]
  rw [if_neg (by cases rest <;> simp [List.take])]
  split
  · rw [addQuad_eq]
  · split
    · rw [addTriangle_eq]
    · rfl

theorem parseLine_other {F : Type} (readFloat : Str → Option (F × Str)) (materials : StrMap)
    (st : Streams F) (line : Str) (h1 : isBlank line = false) (h2 : isFaceLine line = false) :
    Quiet (flushfaces st.s materials).2 (parseLine readFloat materials st line).s ∧
    (parseLine readFloat materials st line).ostr =
      st.ostr ++ (flushfaces st.s materials).1 ++
        (if charAt (cstr (chomp line)) 0 = '#' then [Rib.comment (cstr (chomp line))] else []) := by
  have hne : chomp line ≠ [] := by simpa [isBlank] using h1
  have hf : charAt (cstr (chomp line)) 0 ≠ 'f' := by simpa [isFaceLine] using h2
  unfold parseLine Quiet
  simp only [hne, if_false, hf, ne_eq, not_false_eq_true, if_true]
  split_ifs <;> (try split) <;> simp_all

theorem flushfaces_frame {F : Type} (s : objstate F) (materials : StrMap) :
    Frame s (flushfaces s materials).2 := by
  unfold flushfaces Frame
  split <;> simp

theorem flushfaces_fresh {F : Type} (s : objstate F) (materials : StrMap)
    (h : s.facesize = [] → Fresh s) : Fresh (flushfaces s materials).2 := by
  unfold flushfaces
  by_cases he : s.facesize = []
  · simpa [he] using h he
  · simp [he, Fresh]

theorem readLines_append {F : Type} (readFloat : Str → Option (F × Str)) (materials : StrMap)
    (st : Streams F) (a b : List Str) :
    readLines readFloat materials st (a ++ b) =
      readLines readFloat materials (readLines readFloat materials st a) b := by
  simp [readLines, List.foldl_append]

theorem readLines_cons {F : Type} (readFloat : Str → Option (F × Str)) (materials : StrMap)
    (st : Streams F) (l : Str) (ls : List Str) :
    readLines readFloat materials st (l :: ls) =
      readLines readFloat materials (parseLine readFloat materials st l) ls := rfl

theorem not_face_of_blank (line : Str) (h : isBlank line = true) : isFaceLine line = false := by
  by_contra hf
  have hf' : isFaceLine line = true := by simpa using hf
  exact not_blank_of_face line hf' (by simpa [isBlank] using h)

theorem zeroBased_append (a b : List (Int × Int)) :
    zeroBased (a ++ b) = zeroBased a ++ zeroBased b := by
  simp [zeroBased]

theorem length_zeroBased (a : List (Int × Int)) : (zeroBased a).length = a.length := by
  simp [zeroBased]

theorem readLines_run {F : Type} (readFloat : Str → Option (F × Str)) (materials : StrMap)
    (run : List Str) : ∀ (st : Streams F) (fs : List Int) (cs : List (Int × Int)),
    faceRun run = true → Acc st.s fs cs →
    Acc (readLines readFloat materials st run).s
      (fs ++ (acceptedFaces run).map (fun f => (f.length : Int)))
      (cs ++ zeroBased (corners run)) ∧
    Frame st.s (readLines readFloat materials st run).s ∧
    (readLines readFloat materials st run).ostr = st.ostr := by
  induction run with
  | nil =>
    intro st fs cs _ h
    simpa [readLines, acceptedFaces, corners, zeroBased] using ⟨h, Frame.refl st.s⟩
  | cons l run ih =>
    intro st fs cs hr h
    have hl : isBlank l = true ∨ isFaceLine l = true := by
      have := hr; simp [faceRun] at this; exact this.1
    have hrun : faceRun run = true := by
      have := hr; simp only [faceRun, List.all_cons, Bool.and_eq_true] at this
      exact this.2
    rw [readLines_cons]
    by_cases hf : isFaceLine l = true
    · rw [parseLine_face readFloat materials st l hf]
      cases hfo : faceOf (cstr (chomp l)) with
      | none =>
        have e : acceptedFaces (l :: run) = acceptedFaces run := by
          simp [acceptedFaces, hf, hfo]
        simp only [corners, e]
        exact ih _ fs cs hrun h
      | some f =>
        have e : acceptedFaces (l :: run) = f :: acceptedFaces run := by
          simp [acceptedFaces, hf, hfo]
        obtain ⟨a1, a2⟩ := addFace_spec st.s fs cs (zeroBased f) h
        obtain ⟨b1, b2, b3⟩ := ih { st with s := addFace st.s (zeroBased f) } _ _ hrun a1
        simp only [corners, e, List.map_cons, List.flatten_cons, zeroBased_append]
        rw [length_zeroBased, List.append_assoc, List.append_assoc] at b1
        exact ⟨b1, a2.trans b2, b3⟩
    · have hb : isBlank l = true := hl.resolve_right hf
      rw [parseLine_blank readFloat materials st l hb]
      have e : acceptedFaces (l :: run) = acceptedFaces run := by
        simp [acceptedFaces, hf]
      simp only [corners, e]
      exact ih st fs cs hrun h

/-! The invariant of the loop, and the state at the start of a run. -/

theorem Fresh.acc {F : Type} {s : objstate F} (h : Fresh s) : Acc s [] [] := by
  obtain ⟨h1, h2, h3, h4, h5, h6⟩ := h
  refine ⟨⟨?_, ?_, ?_⟩, ?_, ?_, h1⟩
  · simpa [seen] using h6
  · intro v; simp [h3, IntMap.find]
  · intro i; rw [h4]; simp [IntMap.find, seen, vecAt_nil]
  · simpa using h2
  · simpa using h5

theorem Fresh.of_quiet {F : Type} {s t : objstate F} (h : Fresh s) (q : Quiet s t) : Fresh t := by
  obtain ⟨h1, h2, h3, h4, h5, h6⟩ := h
  obtain ⟨q1, q2, q3, q4, q5, q6⟩ := q
  exact ⟨q1.trans h1, q2.trans h2, q3.trans h3, q4.trans h4, q5.trans h5, q6.trans h6⟩

theorem Fresh.inv {F : Type} {s : objstate F} (h : Fresh s) : Inv s :=
  ⟨⟨[], [], h.acc⟩, fun _ => h⟩

theorem init_fresh {F : Type} (elementName : Str) :
    Fresh (objstate.init elementName : objstate F) := by
  simp [Fresh, objstate.init]

theorem parseLine_fresh {F : Type} (readFloat : Str → Option (F × Str)) (materials : StrMap)
    (st : Streams F) (line : Str) (h : Inv st.s) (h1 : isBlank line = false)
    (h2 : isFaceLine line = false) : Fresh (parseLine readFloat materials st line).s :=
  (flushfaces_fresh st.s materials h.2).of_quiet
    (parseLine_other readFloat materials st line h1 h2).1

theorem parseLine_inv {F : Type} (readFloat : Str → Option (F × Str)) (materials : StrMap)
    (st : Streams F) (line : Str) (h : Inv st.s) :
    Inv (parseLine readFloat materials st line).s := by
  by_cases hb : isBlank line = true
  · rw [parseLine_blank readFloat materials st line hb]; exact h
  · have hb' : isBlank line = false := by simpa using hb
    by_cases hf : isFaceLine line = true
    · rw [parseLine_face readFloat materials st line hf]
      cases faceOf (cstr (chomp line)) with
      | none => exact h
      | some f =>
        obtain ⟨⟨fs, cs, hacc⟩, _⟩ := h
        have a := (addFace_spec st.s fs cs (zeroBased f) hacc).1
        refine ⟨⟨_, _, a⟩, fun e => ?_⟩
        have := a.sizes
        simp only at e this
        rw [e] at this
        simp at this
    · have hf' : isFaceLine line = false := by simpa using hf
      exact (parseLine_fresh readFloat materials st line h hb' hf').inv

theorem readLines_inv {F : Type} (readFloat : Str → Option (F × Str)) (materials : StrMap)
    (lines : List Str) : ∀ (st : Streams F), Inv st.s →
    Inv (readLines readFloat materials st lines).s := by
  induction lines with
  | nil => intro st h; exact h
  | cons l ls ih =>
    intro st h
    rw [readLines_cons]
    exact ih _ (parseLine_inv readFloat materials st l h)

theorem fresh_at_boundary {F : Type} (readFloat : Str → Option (F × Str)) (materials : StrMap)
    (elementName : Str) (pre : List Str) (h : atBoundary pre = true) :
    Fresh (readLines readFloat materials (Streams.init elementName) pre).s := by
  rcases List.eq_nil_or_concat pre with rfl | ⟨p, b, rfl⟩
  · exact init_fresh elementName
  · have hb : isBlank b = false ∧ isFaceLine b = false := by
      simpa [atBoundary] using h
    rw [List.concat_eq_append, readLines_append]
    exact parseLine_fresh readFloat materials _ b
      (readLines_inv readFloat materials p _ (init_fresh elementName).inv) hb.1 hb.2

/-! What `flushfaces` writes for the accumulated run. -/

theorem foldl_max_ge (l : List Int) : ∀ (m : Int),
    m ≤ l.foldl (fun maxvert i => if i > maxvert then i else maxvert) m ∧
    ∀ i ∈ l, i ≤ l.foldl (fun maxvert i => if i > maxvert then i else maxvert) m := by
  induction l with
  | nil => intro m; simp
  | cons a l ih =>
    intro m
    rw [List.foldl_cons]
    obtain ⟨h1, h2⟩ := ih (if a > m then a else m)
    refine ⟨le_trans ?_ h1, ?_⟩
    · split_ifs <;> omega
    · intro i hi
      rcases List.mem_cons.1 hi with rfl | hi
      · refine le_trans ?_ h1
        split_ifs <;> omega
      · exact h2 i hi

theorem foldl_max_mem (l : List Int) : ∀ (m : Int),
    l.foldl (fun maxvert i => if i > maxvert then i else maxvert) m = m ∨
    l.foldl (fun maxvert i => if i > maxvert then i else maxvert) m ∈ l := by
  induction l with
  | nil => intro m; simp
  | cons a l ih =>
    intro m
    rw [List.foldl_cons]
    rcases ih (if a > m then a else m) with h | h
    · rw [h]
      split_ifs
      · right; exact List.mem_cons_self _ _
      · left; rfl
    · right; exact List.mem_cons_of_mem _ h

theorem maxvertOf_rk (xs : List Int) :
    maxvertOf (xs.map (rk xs)) = ((seen xs).length : Nat) - 1 := by
  unfold maxvertOf
  obtain ⟨h1, h2⟩ := foldl_max_ge (xs.map (rk xs)) (-1)
  have hle : ∀ i ∈ xs.map (rk xs), i ≤ ((seen xs).length : Nat) - 1 := by
    intro i hi
    obtain ⟨v, hv, rfl⟩ := List.mem_map.1 hi
    have := rk_lt xs v hv
    omega
  apply le_antisymm
  · rcases foldl_max_mem (xs.map (rk xs)) (-1) with h | h
    · rw [h]; omega
    · exact hle _ h
  · rcases Nat.eq_zero_or_pos (seen xs).length with h0 | hpos
    · rw [h0]; simpa using h1
    · have hlast : (seen xs).length - 1 < (seen xs).length := by omega
      have hmem : (seen xs)[(seen xs).length - 1] ∈ xs :=
        (mem_seen xs _).1 (List.getElem_mem _)
      have hrk : rk xs ((seen xs)[(seen xs).length - 1]) = ((seen xs).length : Nat) - 1 := by
        unfold rk
        rw [List.indexOf_getElem (nodup_seen xs)]
        omega
      rw [← hrk]
      exact h2 _ (List.mem_map_of_mem _ hmem)

theorem upTo_pred (n : Nat) : upTo ((n : Int) - 1) = (List.range n).map (fun (i : Nat) => (i : Int)) := by
  unfold upTo
  have : ((n : Int) - 1 + 1).toNat = n := by simp
  rw [this]

theorem map_upTo_seen {β : Type} (xs : List Int) (g : Int → β) :
    (upTo (((seen xs).length : Nat) - 1)).map g = (seen xs).map (fun v => g (rk xs v)) := by
  rw [upTo_pred]
  apply List.ext_getElem
  · simp
  · intro i h1 h2
    simp only [List.getElem_map, List.getElem_range]
    unfold rk
    rw [List.indexOf_getElem (nodup_seen xs)]

theorem emitP_core {F : Type} (s : objstate F) (xs : List Int) (h : Core s xs) :
    emitP s (((seen xs).length : Nat) - 1) = (seen xs).map (emitAt s.P) := by
  unfold emitP
  rw [map_upTo_seen]
  apply List.map_congr_left
  intro v hv
  have hlt : (seen xs).indexOf v < (seen xs).length := List.indexOf_lt_length.2 hv
  have e : vecAt (seen xs) (rk xs v) = some v := by
    unfold rk
    rw [vecAt_natCast, List.get?_eq_getElem?, List.getElem?_eq_getElem hlt]
    exact congrArg some (List.indexOf_get hlt)
  simp only [h.prevmap, e]

theorem emitN_core {F : Type} (s : objstate F) (xs : List Int) :
    emitN s (((seen xs).length : Nat) - 1) =
      (seen xs).map (fun v => emitAt s.N ((s.Nmap.find (rk xs v)).getD 0)) := by
  unfold emitN
  rw [map_upTo_seen]

/-- The fragment written for a run in terms of its accepted faces. -/
theorem flushfaces_acc {F : Type} (s : objstate F) (materials : StrMap) (fs : List Int)
    (cs : List (Int × Int)) (h : Acc s fs cs) (hne : fs ≠ []) :
    (flushfaces s materials).1 = [Rib.attribute
      { material := (materials.find s.currentMaterial).map
          (substitute (s.currentName ++ ".ptx".toList) 2)
        name := s.currentName
        polygons := decide (fs.head? = some 3)
        facesize := fs
        faceidx := (cs.map Prod.fst).map (rk (cs.map Prod.fst))
        P := (seen (cs.map Prod.fst)).map (emitAt s.P)
        N := if decide (fs.head? = some 3) && !s.N.isEmpty then
            some ((seen (cs.map Prod.fst)).map (fun v =>
              emitAt s.N ((s.Nmap.find (rk (cs.map Prod.fst) v)).getD 0)))
          else none
        faceindex := upTo ((fs.length : Int) - 1) }] := by
  have hs := h.sizes
  unfold flushfaces
  rw [if_pos (by rw [hs]; exact hne)]
  simp only [maxvertOf_rk, emitP_core s _ h.core, emitN_core, hs, h.idx]

/-! The rank of the tables against the ranking of the specification. -/

theorem rk_eq_card (xs : List Int) : ∀ x ∈ xs,
    (seen xs).indexOf x = ((xs.take (xs.indexOf x)).toFinset.card : Nat) := by
  induction xs using List.reverseRecOn with
  | nil => intro x hx; simp at hx
  | append_singleton xs w ih =>
    intro x hx
    by_cases hxs : x ∈ xs
    · have e1 : rk (xs ++ [w]) x = rk xs x := rk_append xs [w] x hxs
      unfold rk at e1
      have e1' : (seen (xs ++ [w])).indexOf x = (seen xs).indexOf x := by exact_mod_cast e1
      rw [e1', List.indexOf_append_of_mem hxs, ih x hxs]
      rw [List.take_append_of_le_length (List.indexOf_le_length)]
    · have hw : x = w := by
        rcases List.mem_append.1 hx with h | h
        · exact absurd h hxs
        · simpa using h
      subst hw
      have hns : x ∉ seen xs := fun e => hxs ((mem_seen xs x).1 e)
      rw [seen_snoc, if_neg hns, List.indexOf_append_of_not_mem hns,
        List.indexOf_append_of_not_mem hxs]
      simp [length_seen]

theorem indexOf_map_pred (src : List Int) (p : Int) :
    (src.map (fun q => q - 1)).indexOf (p - 1) = src.indexOf p := by
  induction src with
  | nil => simp
  | cons a src ih =>
    rw [List.map_cons]
    by_cases h : a = p
    · subst h; simp
    · have h' : a - 1 ≠ p - 1 := fun e => h (by omega)
      rw [List.indexOf_cons_ne _ h', List.indexOf_cons_ne _ h, ih]

theorem card_map_pred (l : List Int) :
    (l.map (fun q => q - 1)).toFinset.card = l.toFinset.card := by
  have e : (l.map (fun q => q - 1)).toFinset = l.toFinset.image (fun q => q - 1) := by
    ext a; simp
  rw [e]
  exact Finset.card_image_of_injective _ (fun a b h => by simpa using h)

theorem map_fst_zeroBased (cs : List (Int × Int)) :
    (zeroBased cs).map Prod.fst = (cs.map Prod.fst).map (fun q => q - 1) := by
  simp [zeroBased, Function.comp_def]

theorem rk_zeroBased (src : List Int) (p : Int) (hp : p ∈ src) :
    rk (src.map (fun q => q - 1)) (p - 1) =
      (((src.take (src.indexOf p)).toFinset.card : Nat) : Int) := by
  unfold rk
  have hm : p - 1 ∈ src.map (fun q => q - 1) := List.mem_map.2 ⟨p, hp, rfl⟩
  rw [rk_eq_card _ _ hm, indexOf_map_pred, ← List.map_take, card_map_pred]

theorem map_rk_zeroBased (src : List Int) :
    (src.map (fun q => q - 1)).map (rk (src.map (fun q => q - 1))) = firstOccurrenceRank src := by
  unfold firstOccurrenceRank
  rw [List.map_map]
  exact List.map_congr_left (fun p hp => rk_zeroBased src p hp)

/-! The state of `parseobj` at the end of a run. -/

theorem run_acc {F : Type} (readFloat : Str → Option (F × Str)) (materials : StrMap)
    (elementName : Str) (pre run : List Str) (hpre : atBoundary pre = true)
    (hrun : faceRun run = true) :
    Acc (readLines readFloat materials (Streams.init elementName) (pre ++ run)).s
      ((acceptedFaces run).map (fun f => (f.length : Int))) (zeroBased (corners run)) ∧
    Frame (readLines readFloat materials (Streams.init elementName) pre).s
      (readLines readFloat materials (Streams.init elementName) (pre ++ run)).s := by
  have hf := fresh_at_boundary readFloat materials elementName pre hpre
  have h := readLines_run readFloat materials run _ [] [] hrun hf.acc
  rw [readLines_append]
  simpa using ⟨h.1, h.2.1⟩

theorem vecAt_map_seen {β : Type} (xs : List Int) (g : Int → β) (x : Int) (hx : x ∈ xs) :
    vecAt ((seen xs).map g) (rk xs x) = some (g x) := by
  have hlt : (seen xs).indexOf x < (seen xs).length :=
    List.indexOf_lt_length.2 ((mem_seen xs x).2 hx)
  unfold rk
  rw [vecAt_natCast, List.get?_eq_getElem?, List.getElem?_map, List.getElem?_eq_getElem hlt]
  exact congrArg (fun a => some (g a)) (List.indexOf_get hlt)

theorem corners_ne_nil {run : List Str} {k : Nat} {c : Int × Int}
    (h : (corners run).get? k = some c) : acceptedFaces run ≠ [] := by
  intro e
  simp [corners, e] at h

theorem emitAt_of_vecAt {F : Type} (xs : List (Float3 F)) (i : Int) (q : Float3 F)
    (h : vecAt xs i = some q) : emitAt xs i = Emit.value q := by
  simp [emitAt, h]

theorem vecAt_of_range {α : Type} (xs : List α) (p : Int) (h1 : 1 ≤ p)
    (h2 : p ≤ (xs.length : Nat)) : ∃ q, vecAt xs (p - 1) = some q := by
  have hlt : (p - 1).toNat < xs.length := by omega
  refine ⟨xs[(p - 1).toNat], ?_⟩
  unfold vecAt
  rw [if_pos (by omega), List.get?_eq_getElem?, List.getElem?_eq_getElem hlt]

/-- C1. Remapping preserves geometry: for a run of face lines that follows a
run boundary and whose position indices all refer to declared positions, the
entry that `flushfaces` writes at slot `faceidx[k]` of the array
`"vertex point P"` is the declared position `P[p - 1]` named by the source
position index `p` of corner `k`.  The fragment of the run is what `flushfaces`
writes from the state after the run: `parseobj` appends it at the next
directive (`parseLine_other`) or at the end of the stream (`parseobj_eq`). -/
theorem remap_preserves_geometry {F : Type} (readFloat : Str → Option (F × Str))
    (materials : StrMap) (elementName : Str) (pre run : List Str)
    (hpre : atBoundary pre = true) (hrun : faceRun run = true)
    (hdecl : ∀ c ∈ corners run, 1 ≤ c.1 ∧
      c.1 ≤ ((readLines readFloat materials (Streams.init elementName) pre).s.P.length : Nat))
    (k : Nat) (p n : Int) (hk : (corners run).get? k = some (p, n)) :
    ∃ frag i q,
      (flushfaces (readLines readFloat materials (Streams.init elementName) (pre ++ run)).s
        materials).1 = [Rib.attribute frag] ∧
      frag.faceidx.get? k = some i ∧
      vecAt (readLines readFloat materials (Streams.init elementName) pre).s.P (p - 1) = some q ∧
      vecAt frag.P i = some (Emit.value q) := by
  obtain ⟨hacc, hfr⟩ := run_acc readFloat materials elementName pre run hpre hrun
  have hne : (acceptedFaces run).map (fun f => (f.length : Int)) ≠ [] := by
    simpa using corners_ne_nil hk
  have hmem : (p, n) ∈ corners run := List.get?_mem hk
  obtain ⟨q, hq⟩ := vecAt_of_range _ p (hdecl _ hmem).1 (hdecl _ hmem).2
  have hx : p - 1 ∈ (zeroBased (corners run)).map Prod.fst := by
    rw [map_fst_zeroBased]
    exact List.mem_map.2 ⟨p, List.mem_map.2 ⟨(p, n), hmem, rfl⟩, rfl⟩
  refine ⟨_, rk ((zeroBased (corners run)).map Prod.fst) (p - 1), q,
    flushfaces_acc _ materials _ _ hacc hne, ?_, hq, ?_⟩
  · simp only [List.get?_eq_getElem?, List.getElem?_map, map_fst_zeroBased] at hk ⊢
    rw [hk]; rfl
  · show vecAt ((seen _).map (emitAt _)) _ = _
    rw [vecAt_map_seen _ _ _ hx, hfr.1, emitAt_of_vecAt _ _ _ hq]

/-- C1 at the sample run: corner 4 of the run names position 2. -/
theorem remap_preserves_geometry_witness :
    atBoundary sampleDecls = true ∧ faceRun sampleRun = true ∧
    (corners sampleRun).get? 4 = some (2, 2) ∧
    ∃ frag i q,
      (flushfaces (readLines readDigits [] (Streams.init []) (sampleDecls ++ sampleRun)).s
        []).1 = [Rib.attribute frag] ∧
      frag.faceidx.get? 4 = some i ∧
      vecAt (readLines readDigits [] (Streams.init []) sampleDecls).s.P (2 - 1) = some q ∧
      vecAt frag.P i = some (Emit.value q) :=
  ⟨by decide, by decide, by decide,
    remap_preserves_geometry readDigits [] [] sampleDecls sampleRun (by decide) (by decide)
      (by decide) 4 2 2 (by decide)⟩

theorem faceOf_length (buf : Str) (f : List (Int × Int)) (h : faceOf buf = some f) :
    f.length = 3 ∨ f.length = 4 := by
  unfold faceOf at h
  split at h
  · simp at h; subst h; simp
  · split at h
    · simp at h; subst h; simp
    · simp at h

theorem acceptedFaces_length (lines : List Str) (f : List (Int × Int))
    (h : f ∈ acceptedFaces lines) : f.length = 3 ∨ f.length = 4 := by
  unfold acceptedFaces at h
  obtain ⟨l, _, hl⟩ := List.mem_filterMap.1 h
  split at hl
  · exact faceOf_length _ f hl
  · simp at hl

theorem corners_ne_of_faces {lines : List Str} (h : acceptedFaces lines ≠ []) :
    corners lines ≠ [] := by
  obtain ⟨f, fs, hf⟩ := List.exists_cons_of_ne_nil h
  have hlen := acceptedFaces_length lines f (by rw [hf]; exact List.mem_cons_self _ _)
  unfold corners
  rw [hf, List.flatten_cons]
  intro e
  have hl := congrArg List.length e
  rw [List.length_append, List.length_nil] at hl
  omega

theorem rk_surj (xs : List Int) (i : Nat) (hi : i < (seen xs).length) :
    (i : Int) ∈ xs.map (rk xs) := by
  have hmem : (seen xs)[i] ∈ xs := (mem_seen xs _).1 (List.getElem_mem _)
  have hrk : rk xs ((seen xs)[i]) = (i : Int) := by
    unfold rk
    rw [List.indexOf_getElem (nodup_seen xs)]
  rw [← hrk]
  exact List.mem_map_of_mem _ hmem

/-- C2. The face vertex index list written for a run is the first occurrence
ranking of the source position indices of the run itself: it is the ranking
`firstOccurrenceRank` of the corners of the run, whatever lines came before the
run boundary, and two corners get the same local index exactly when they name
the same source position index. -/
theorem first_occurrence_ranking {F : Type} (readFloat : Str → Option (F × Str))
    (materials : StrMap) (elementName : Str) (pre run : List Str)
    (hpre : atBoundary pre = true) (hrun : faceRun run = true)
    (hne : acceptedFaces run ≠ []) :
    ∃ frag,
      (flushfaces (readLines readFloat materials (Streams.init elementName) (pre ++ run)).s
        materials).1 = [Rib.attribute frag] ∧
      frag.faceidx = firstOccurrenceRank ((corners run).map Prod.fst) ∧
      frag.faceidx.head? = some 0 ∧
      ∀ j k ij ik cj ck, frag.faceidx.get? j = some ij → frag.faceidx.get? k = some ik →
        (corners run).get? j = some cj → (corners run).get? k = some ck →
        (ij = ik ↔ cj.1 = ck.1) := by
  obtain ⟨hacc, _⟩ := run_acc readFloat materials elementName pre run hpre hrun
  have hne' : (acceptedFaces run).map (fun f => (f.length : Int)) ≠ [] := by simpa using hne
  refine ⟨_, flushfaces_acc _ materials _ _ hacc hne', ?_, ?_, ?_⟩
  · show ((zeroBased (corners run)).map Prod.fst).map _ = _
    rw [map_fst_zeroBased, map_rk_zeroBased]
  · show (((zeroBased (corners run)).map Prod.fst).map _).head? = _
    rw [map_fst_zeroBased, map_rk_zeroBased]
    obtain ⟨c, cs, hc⟩ := List.exists_cons_of_ne_nil (corners_ne_of_faces hne)
    simp [firstOccurrenceRank, hc]
  · intro j k ij ik cj ck hj hk hcj hck
    simp only [List.get?_eq_getElem?, List.getElem?_map, map_fst_zeroBased] at hj hk hcj hck
    rw [hcj] at hj
    rw [hck] at hk
    simp only [Option.map_some', Option.some.injEq] at hj hk
    subst hj hk
    have hmem : cj.1 - 1 ∈ ((corners run).map Prod.fst).map (fun q => q - 1) :=
      List.mem_map.2 ⟨cj.1, List.mem_map.2 ⟨cj, List.getElem?_mem hcj, rfl⟩, rfl⟩
    constructor
    · intro e
      have := rk_inj _ _ _ hmem e
      omega
    · intro e; rw [e]

/-- C2 at the sample run, declared after another run was flushed. -/
theorem first_occurrence_ranking_witness :
    atBoundary (sampleDecls ++ sampleRun ++ ["g next".toList]) = true ∧
    faceRun sampleRun = true ∧ acceptedFaces sampleRun ≠ [] ∧
    ∃ frag,
      (flushfaces (readLines readDigits [] (Streams.init [])
        ((sampleDecls ++ sampleRun ++ ["g next".toList]) ++ sampleRun)).s []).1 =
          [Rib.attribute frag] ∧
      frag.faceidx = firstOccurrenceRank ((corners sampleRun).map Prod.fst) ∧
      frag.faceidx.head? = some 0 ∧
      ∀ j k ij ik cj ck, frag.faceidx.get? j = some ij → frag.faceidx.get? k = some ik →
        (corners sampleRun).get? j = some cj → (corners sampleRun).get? k = some ck →
        (ij = ik ↔ cj.1 = ck.1) :=
  ⟨by decide, by decide, by decide,
    first_occurrence_ranking readDigits [] [] (sampleDecls ++ sampleRun ++ ["g next".toList])
      sampleRun (by decide) (by decide) (by decide)⟩

/-- C3. For a run with an accepted face, the number of positions `flushfaces`
writes is the largest local index of the written index list plus one, it is
the number of distinct source position indices of the run, and every local
index from 0 to the largest occurs in the index list. -/
theorem emitted_position_count {F : Type} (readFloat : Str → Option (F × Str))
    (materials : StrMap) (elementName : Str) (pre run : List Str)
    (hpre : atBoundary pre = true) (hrun : faceRun run = true)
    (hne : acceptedFaces run ≠ []) :
    ∃ frag,
      (flushfaces (readLines readFloat materials (Streams.init elementName) (pre ++ run)).s
        materials).1 = [Rib.attribute frag] ∧
      (∃ m ∈ frag.faceidx, (∀ i ∈ frag.faceidx, i ≤ m) ∧ ((frag.P.length : Nat) : Int) = m + 1) ∧
      frag.P.length = ((corners run).map Prod.fst).toFinset.card ∧
      ∀ i : Nat, i < frag.P.length → (i : Int) ∈ frag.faceidx := by
  obtain ⟨hacc, _⟩ := run_acc readFloat materials elementName pre run hpre hrun
  have hne' : (acceptedFaces run).map (fun f => (f.length : Int)) ≠ [] := by simpa using hne
  have hlen : (seen ((zeroBased (corners run)).map Prod.fst)).length =
      ((corners run).map Prod.fst).toFinset.card := by
    rw [length_seen, map_fst_zeroBased, card_map_pred]
  have hpos : 0 < (seen ((zeroBased (corners run)).map Prod.fst)).length := by
    rw [hlen]
    obtain ⟨c, cs, hc⟩ := List.exists_cons_of_ne_nil (corners_ne_of_faces hne)
    rw [hc]
    exact Finset.card_pos.2 ⟨c.1, by simp⟩
  refine ⟨_, flushfaces_acc _ materials _ _ hacc hne', ?_, ?_, ?_⟩
  · refine ⟨(((seen ((zeroBased (corners run)).map Prod.fst)).length - 1 : Nat) : Int),
      rk_surj _ _ (by omega), ?_, ?_⟩
    · intro i hi
      obtain ⟨v, hv, rfl⟩ := List.mem_map.1 hi
      have := rk_lt _ v hv
      omega
    · show (((List.map _ (seen _)).length : Nat) : Int) = _
      rw [List.length_map]
      omega
  · show (List.map _ (seen _)).length = _
    rw [List.length_map, hlen]
  · intro i hi
    have hi' : i < (List.map (emitAt _) (seen ((zeroBased (corners run)).map Prod.fst))).length := hi
    rw [List.length_map] at hi'
    exact rk_surj _ i hi'

/-- C3 at the sample run. -/
theorem emitted_position_count_witness :
    atBoundary sampleDecls = true ∧ faceRun sampleRun = true ∧ acceptedFaces sampleRun ≠ [] ∧
    ∃ frag,
      (flushfaces (readLines readDigits [] (Streams.init []) (sampleDecls ++ sampleRun)).s
        []).1 = [Rib.attribute frag] ∧
      (∃ m ∈ frag.faceidx, (∀ i ∈ frag.faceidx, i ≤ m) ∧ ((frag.P.length : Nat) : Int) = m + 1) ∧
      frag.P.length = ((corners sampleRun).map Prod.fst).toFinset.card ∧
      ∀ i : Nat, i < frag.P.length → (i : Int) ∈ frag.faceidx :=
  ⟨by decide, by decide, by decide,
    emitted_position_count readDigits [] [] sampleDecls sampleRun (by decide) (by decide)
      (by decide)⟩

theorem normals_gate {α : Type} (b c : Bool) (x : α) :
    (if (b && c) = true then some x else none) ≠ none → b = true := by
  cases b <;> simp

theorem normals_gate_false {α : Type} (b c : Bool) (x : α) :
    b = false → (if (b && c) = true then some x else none) = none := by
  cases b <;> simp

/-- C5. For a run with an accepted face, `flushfaces` writes `PointsPolygons`
when every face of the run is a triangle, writes the Catmull-Clark
`SubdivisionMesh` when the first face of the run has more than 3 vertices, and
writes no normal array in the subdivision case. -/
theorem primitive_kind {F : Type} (readFloat : Str → Option (F × Str))
    (materials : StrMap) (elementName : Str) (pre run : List Str)
    (hpre : atBoundary pre = true) (hrun : faceRun run = true)
    (hne : acceptedFaces run ≠ []) :
    ∃ frag,
      (flushfaces (readLines readFloat materials (Streams.init elementName) (pre ++ run)).s
        materials).1 = [Rib.attribute frag] ∧
      ((∀ f ∈ acceptedFaces run, f.length = 3) → frag.polygons = true) ∧
      (∀ f, (acceptedFaces run).head? = some f → 3 < f.length → frag.polygons = false) ∧
      (frag.polygons = false → frag.N = none) ∧
      (frag.N ≠ none → frag.polygons = true) := by
  obtain ⟨hacc, _⟩ := run_acc readFloat materials elementName pre run hpre hrun
  have hne' : (acceptedFaces run).map (fun f => (f.length : Int)) ≠ [] := by simpa using hne
  obtain ⟨f0, fs, hf⟩ := List.exists_cons_of_ne_nil hne
  refine ⟨_, flushfaces_acc _ materials _ _ hacc hne', ?_, ?_, ?_, ?_⟩
  · intro h3
    have := h3 f0 (by rw [hf]; exact List.mem_cons_self _ _)
    simp [hf, this]
  · intro f hhead hlt
    rw [hf] at hhead
    simp only [List.head?_cons, Option.some.injEq] at hhead
    subst hhead
    simp only [hf, List.map_cons, List.head?_cons, Option.some.injEq, decide_eq_false_iff_not]
    omega
  · exact normals_gate_false _ _ _
  · exact normals_gate _ _ _

/-- C5 at the sample run of two triangles. -/
theorem primitive_kind_witness :
    atBoundary sampleDecls = true ∧ faceRun sampleRun = true ∧ acceptedFaces sampleRun ≠ [] ∧
    ∃ frag,
      (flushfaces (readLines readDigits [] (Streams.init []) (sampleDecls ++ sampleRun)).s
        []).1 = [Rib.attribute frag] ∧
      ((∀ f ∈ acceptedFaces sampleRun, f.length = 3) → frag.polygons = true) ∧
      (∀ f, (acceptedFaces sampleRun).head? = some f → 3 < f.length → frag.polygons = false) ∧
      (frag.polygons = false → frag.N = none) ∧
      (frag.N ≠ none → frag.polygons = true) :=
  ⟨by decide, by decide, by decide,
    primitive_kind readDigits [] [] sampleDecls sampleRun (by decide) (by decide) (by decide)⟩

theorem find_reverse_last (l : List (Int × Int)) : ∀ (k : Nat) (key val : Int),
    l.get? k = some (key, val) →
    (∀ k' c, k < k' → l.get? k' = some c → c.1 ≠ key) →
    IntMap.find l.reverse key = some val := by
  induction l using List.reverseRecOn with
  | nil => intro k key val h; simp at h
  | append_singleton l d ih =>
    intro k key val hk hlast
    rw [List.reverse_append, List.reverse_singleton, List.singleton_append]
    simp only [List.get?_eq_getElem?] at hk hlast ih
    by_cases hkl : k < l.length
    · have hd : d.1 ≠ key := hlast l.length d hkl (by simp)
      rw [List.getElem?_append_left hkl] at hk
      unfold IntMap.find
      rw [if_neg hd]
      apply ih k key val hk
      intro k' c hlt hc
      have hk' : k' < l.length := by
        by_contra hge
        rw [List.getElem?_eq_none (by omega)] at hc
        simp at hc
      exact hlast k' c hlt (by rw [List.getElem?_append_left hk']; exact hc)
    · have hkeq : k = l.length := by
        by_contra hne
        rw [List.getElem?_eq_none (by simp; omega)] at hk
        simp at hk
      subst hkeq
      simp at hk
      subst hk
      simp [IntMap.find]

/-- C9. Last write wins: in the polygon case with normals declared, the normal
written at the slot of a local vertex is `N[n - 1]`, where `n` is the source
normal index of the last corner of the run, in input order, that names the
position mapped to that local vertex. -/
theorem last_write_wins_normals {F : Type} (readFloat : Str → Option (F × Str))
    (materials : StrMap) (elementName : Str) (pre run : List Str)
    (hpre : atBoundary pre = true) (hrun : faceRun run = true)
    (hpoly : (acceptedFaces run).head?.map List.length = some 3)
    (hN : (readLines readFloat materials (Streams.init elementName) pre).s.N ≠ [])
    (k : Nat) (p n : Int) (hk : (corners run).get? k = some (p, n))
    (hlater : ∀ c ∈ (corners run).drop (k + 1), c.1 ≠ p) :
    ∃ frag ns i,
      (flushfaces (readLines readFloat materials (Streams.init elementName) (pre ++ run)).s
        materials).1 = [Rib.attribute frag] ∧
      frag.polygons = true ∧ frag.N = some ns ∧ ns.length = frag.P.length ∧
      frag.faceidx.get? k = some i ∧
      vecAt ns i = some
        (emitAt (readLines readFloat materials (Streams.init elementName) pre).s.N (n - 1)) := by
  obtain ⟨hacc, hfr⟩ := run_acc readFloat materials elementName pre run hpre hrun
  have hne : (acceptedFaces run).map (fun f => (f.length : Int)) ≠ [] := by
    simpa using corners_ne_nil hk
  have hlast : ∀ k' c, k < k' → (corners run).get? k' = some c → c.1 ≠ p := by
    intro k' c hlt hc
    apply hlater c
    have e : ((corners run).drop (k + 1))[k' - (k + 1)]? = some c := by
      rw [List.getElem?_drop, ← List.get?_eq_getElem?, ← hc]
      congr 1
      omega
    exact List.getElem?_mem e
  have hhead : decide (((acceptedFaces run).map (fun f => (f.length : Int))).head? = some 3)
      = true := by
    cases hf0 : (acceptedFaces run).head? with
    | none => rw [hf0] at hpoly; simp at hpoly
    | some f0 =>
      rw [hf0] at hpoly
      simp only [Option.map_some', Option.some.injEq] at hpoly
      simp [List.head?_map, hf0, hpoly]
  have hNe : (!(readLines readFloat materials (Streams.init elementName)
      (pre ++ run)).s.N.isEmpty) = true := by
    rw [hfr.2.1]
    cases hP : (readLines readFloat materials (Streams.init elementName) pre).s.N with
    | nil => exact absurd hP hN
    | cons a l => rfl
  have hmem : (p, n) ∈ corners run := List.get?_mem hk
  have hx : p - 1 ∈ (zeroBased (corners run)).map Prod.fst := by
    rw [map_fst_zeroBased]
    exact List.mem_map.2 ⟨p, List.mem_map.2 ⟨(p, n), hmem, rfl⟩, rfl⟩
  have hfind : (readLines readFloat materials (Streams.init elementName) (pre ++ run)).s.Nmap.find
      (rk ((zeroBased (corners run)).map Prod.fst) (p - 1)) = some (n - 1) := by
    rw [hacc.nmap]
    apply find_reverse_last _ k
    · simp only [List.get?_eq_getElem?, List.getElem?_map, zeroBased] at hk ⊢
      rw [hk]; rfl
    · intro k' c hlt hc
      simp only [List.get?_eq_getElem?, List.getElem?_map, zeroBased] at hc hlast
      cases hc' : (corners run)[k']? with
      | none => rw [hc'] at hc; simp at hc
      | some d =>
        rw [hc'] at hc
        simp only [Option.map_some', Option.some.injEq] at hc
        subst hc
        intro e
        have hd : d.1 - 1 ∈ (zeroBased (corners run)).map Prod.fst := by
          rw [map_fst_zeroBased]
          exact List.mem_map.2 ⟨d.1, List.mem_map.2 ⟨d, List.getElem?_mem hc', rfl⟩, rfl⟩
        have := rk_inj _ _ _ hd e
        exact hlast k' d hlt hc' (by omega)
  refine ⟨_,
    (seen ((zeroBased (corners run)).map Prod.fst)).map (fun v =>
      emitAt (readLines readFloat materials (Streams.init elementName) (pre ++ run)).s.N
        (((readLines readFloat materials (Streams.init elementName) (pre ++ run)).s.Nmap.find
          (rk ((zeroBased (corners run)).map Prod.fst) v)).getD 0)),
    rk ((zeroBased (corners run)).map Prod.fst) (p - 1),
    flushfaces_acc _ materials _ _ hacc hne, hhead, ?_, ?_, ?_, ?_⟩
  · show (if (decide _ && _) = true then some _ else none) = some _
    rw [hhead, hNe]
    rfl
  · simp
  · simp only [List.get?_eq_getElem?, List.getElem?_map, map_fst_zeroBased] at hk ⊢
    rw [hk]; rfl
  · rw [vecAt_map_seen _ _ _ hx, hfind, hfr.2.1]
    rfl

/-- C9 at the sample run: corner 4 is the last to name position 2, with
normal 2, after corner 1 named it with normal 1. -/
theorem last_write_wins_normals_witness :
    atBoundary sampleDecls = true ∧ faceRun sampleRun = true ∧
    (corners sampleRun).get? 1 = some (2, 1) ∧ (corners sampleRun).get? 4 = some (2, 2) ∧
    ∃ frag ns i,
      (flushfaces (readLines readDigits [] (Streams.init []) (sampleDecls ++ sampleRun)).s
        []).1 = [Rib.attribute frag] ∧
      frag.polygons = true ∧ frag.N = some ns ∧ ns.length = frag.P.length ∧
      frag.faceidx.get? 4 = some i ∧
      vecAt ns i = some
        (emitAt (readLines readDigits [] (Streams.init []) sampleDecls).s.N (2 - 1)) :=
  ⟨by decide, by decide, by decide, by decide,
    last_write_wins_normals readDigits [] [] sampleDecls sampleRun (by decide) (by decide)
      (by decide) (by decide) 4 2 2 (by decide) (by decide)⟩

/-! One fragment for each maximal run. -/

theorem fragments_append {F : Type} (a b : List (Rib F)) :
    fragments (a ++ b) = fragments a ++ fragments b := by
  simp [fragments, List.filterMap_append]

theorem acceptedFaces_append (a b : List Str) :
    acceptedFaces (a ++ b) = acceptedFaces a ++ acceptedFaces b := by
  simp [acceptedFaces, List.filterMap_append]

theorem corners_append (a b : List Str) : corners (a ++ b) = corners a ++ corners b := by
  simp [corners, acceptedFaces_append]

theorem faceRun_append (a b : List Str) :
    faceRun (a ++ b) = (faceRun a && faceRun b) := by
  simp [faceRun, List.all_append]

theorem flushfaces_empty {F : Type} (s : objstate F) (materials : StrMap)
    (h : s.facesize = []) : flushfaces s materials = ([], s) := by
  simp [flushfaces, h]

/-- The fragments of a flush, for the pending run `cur`. -/
theorem flush_runFaces {F : Type} (s : objstate F) (materials : StrMap) (cur : List Str)
    (h : Acc s ((acceptedFaces cur).map (fun f => (f.length : Int))) (zeroBased (corners cur))) :
    (fragments (flushfaces s materials).1).map (fun frag => (frag.facesize, frag.faceidx)) =
      (([cur].map acceptedFaces).filter (fun faces => !faces.isEmpty)).map runFaces := by
  cases hf : acceptedFaces cur with
  | nil =>
    have hs : s.facesize = [] := by rw [h.sizes, hf]; rfl
    rw [flushfaces_empty s materials hs]
    simp [fragments, hf]
  | cons f fs =>
    have hne : (acceptedFaces cur).map (fun f => (f.length : Int)) ≠ [] := by simp [hf]
    rw [flushfaces_acc s materials _ _ h hne]
    simp only [fragments, List.filterMap_cons, List.filterMap_nil, List.map_cons, List.map_nil,
      hf, List.filter_cons, List.isEmpty_cons, Bool.not_false, if_true, List.filter_nil,
      runFaces, map_fst_zeroBased, map_rk_zeroBased, corners]

theorem parseobj_eq {F : Type} (readFloat : Str → Option (F × Str)) (elementName : Str)
    (materials : StrMap) (lines : List Str) :
    (parseobj readFloat elementName materials lines).ostr =
      (readLines readFloat materials (Streams.init elementName) lines).ostr ++
        (flushfaces (readLines readFloat materials (Streams.init elementName) lines).s
          materials).1 := rfl

/-- The fragments of the loop and of the last flush, from a state with the
pending run `cur`. -/
theorem readLines_fragments {F : Type} (readFloat : Str → Option (F × Str))
    (materials : StrMap) (lines : List Str) : ∀ (st : Streams F) (cur : List Str),
    Inv st.s →
    Acc st.s ((acceptedFaces cur).map (fun f => (f.length : Int))) (zeroBased (corners cur)) →
    (fragments ((readLines readFloat materials st lines).ostr ++
        (flushfaces (readLines readFloat materials st lines).s materials).1)).map
          (fun frag => (frag.facesize, frag.faceidx)) =
      (fragments st.ostr).map (fun frag => (frag.facesize, frag.faceidx)) ++
        (((faceRunsFrom cur lines).map acceptedFaces).filter
          (fun faces => !faces.isEmpty)).map runFaces := by
  induction lines with
  | nil =>
    intro st cur _ hacc
    rw [fragments_append, List.map_append]
    congr 1
    exact flush_runFaces st.s materials cur hacc
  | cons l ls ih =>
    intro st cur hinv hacc
    rw [readLines_cons]
    by_cases hl : (isBlank l || isFaceLine l) = true
    · have hrun : faceRun [l] = true := by simpa [faceRun] using hl
      obtain ⟨a1, _, a3⟩ := readLines_run readFloat materials [l] st _ _ hrun hacc
      have e1 : readLines readFloat materials st [l] = parseLine readFloat materials st l := rfl
      rw [e1] at a1 a3
      rw [← List.map_append, ← acceptedFaces_append, ← zeroBased_append, ← corners_append] at a1
      rw [ih _ (cur ++ [l]) (parseLine_inv readFloat materials st l hinv) a1, a3]
      simp only [faceRunsFrom, hl, if_true]
    · have hb : isBlank l = false := by
        cases h : isBlank l
        · rfl
        · simp [h] at hl
      have hf : isFaceLine l = false := by
        cases h : isFaceLine l
        · rfl
        · simp [h] at hl
      have hfresh := parseLine_fresh readFloat materials st l hinv hb hf
      have ho := (parseLine_other readFloat materials st l hb hf).2
      have hacc' : Acc (parseLine readFloat materials st l).s
          ((acceptedFaces []).map (fun f => (f.length : Int))) (zeroBased (corners [])) := by
        simpa [acceptedFaces, corners, zeroBased] using hfresh.acc
      rw [ih _ [] hfresh.inv hacc', ho]
      have hc : fragments (if charAt (cstr (chomp l)) 0 = '#' then
          [Rib.comment (cstr (chomp l))] else ([] : List (Rib F))) = [] := by
        split <;> simp [fragments]
      rw [fragments_append, fragments_append, hc, List.append_nil, List.map_append,
        flush_runFaces st.s materials cur hacc]
      simp only [faceRunsFrom, hl, Bool.false_eq_true, if_false, List.map_cons, List.map_nil,
        List.filter_cons, List.filter_nil, List.append_assoc]
      split <;> simp

theorem flatten_filter_nonempty {α : Type} (L : List (List α)) :
    (L.filter (fun a => !a.isEmpty)).flatten = L.flatten := by
  induction L with
  | nil => rfl
  | cons a L ih =>
    cases a with
    | nil => simpa [List.filter_cons] using ih
    | cons x a => simp [List.filter_cons, ih]

theorem faceRunsFrom_flatten (lines : List Str) : ∀ (cur : List Str),
    ((faceRunsFrom cur lines).map acceptedFaces).flatten =
      acceptedFaces cur ++ acceptedFaces lines := by
  induction lines with
  | nil => intro cur; simp [faceRunsFrom, acceptedFaces]
  | cons l ls ih =>
    intro cur
    have e : acceptedFaces (l :: ls) = acceptedFaces [l] ++ acceptedFaces ls :=
      acceptedFaces_append [l] ls
    by_cases hl : (isBlank l || isFaceLine l) = true
    · simp only [faceRunsFrom, hl, if_true]
      rw [ih, acceptedFaces_append, e, List.append_assoc]
    · have hf : isFaceLine l = false := by
        cases h : isFaceLine l
        · rfl
        · simp [h] at hl
      simp only [faceRunsFrom, hl, Bool.false_eq_true, if_false, List.map_cons,
        List.flatten_cons]
      rw [ih, e]
      simp [acceptedFaces, hf]

/-- C4. `parseobj` writes one block `AttributeBegin` .. `AttributeEnd` for each
maximal run of face directives that holds an accepted face and none for a run
without one, runs being cut by every other directive and by the end of the
stream; the faces of the blocks, taken in order, are the accepted faces of the
stream in input order. -/
theorem one_fragment_per_run {F : Type} (readFloat : Str → Option (F × Str))
    (elementName : Str) (materials : StrMap) (lines : List Str) :
    (fragments (parseobj readFloat elementName materials lines).ostr).map
        (fun frag => (frag.facesize, frag.faceidx)) =
      (((faceRuns lines).map acceptedFaces).filter (fun faces => !faces.isEmpty)).map runFaces ∧
    ((fragments (parseobj readFloat elementName materials lines).ostr).map
        (fun frag => frag.facesize)).flatten =
      (acceptedFaces lines).map (fun f => (f.length : Int)) := by
  have hinit : Fresh (Streams.init elementName : Streams F).s := init_fresh elementName
  have hacc : Acc (Streams.init elementName : Streams F).s
      ((acceptedFaces []).map (fun f => (f.length : Int))) (zeroBased (corners [])) := by
    simpa [acceptedFaces, corners, zeroBased] using hinit.acc
  have h := readLines_fragments readFloat materials lines (Streams.init elementName) []
    hinit.inv hacc
  rw [← parseobj_eq] at h
  have h0 : fragments (Streams.init elementName : Streams F).ostr = [] := rfl
  rw [h0, List.map_nil, List.nil_append] at h
  refine ⟨h, ?_⟩
  have h2 := congrArg (fun L => (L.map Prod.fst).flatten) h
  simp only [List.map_map] at h2
  have e1 : (Prod.fst ∘ fun (frag : Fragment F) => (frag.facesize, frag.faceidx)) =
      fun frag => frag.facesize := rfl
  have e2 : (Prod.fst ∘ runFaces) = fun faces => faces.map (fun f => (f.length : Int)) := rfl
  rw [e1, e2] at h2
  rw [h2, ← List.map_flatten, flatten_filter_nonempty]
  rw [faceRunsFrom_flatten]
  simp [acceptedFaces]

/-! Malformed and unrecognised lines. -/

theorem charAt_of_usemtl (buf : Str) (e : buf.take 7 = "usemtl ".toList) :
    charAt buf 0 = 'u' := by
  cases buf with
  | nil => exact absurd e (by decide)
  | cons c r =>
    have h : (c :: r).take 7 = c :: r.take 6 := rfl
    have e' : "usemtl ".toList = 'u' :: "semtl ".toList := rfl
    rw [h, e'] at e
    exact (List.cons.inj e).1 ▸ rfl

/-- C6, the code at the failing input: a face line of five `p//n` pairs is
taken as a quadrilateral of its first four corners and nothing is reported. -/
theorem five_corner_face_accepted :
    isFaceLine "f 1//1 2//1 3//1 4//1 5//1".toList = true ∧
    (parseobj readDigits [] []
      (sampleDecls ++ ["v 13 14 15".toList, "f 1//1 2//1 3//1 4//1 5//1".toList])).cerr = [] ∧
    (fragments (parseobj readDigits [] []
      (sampleDecls ++ ["v 13 14 15".toList, "f 1//1 2//1 3//1 4//1 5//1".toList])).ostr).map
        (fun frag => (frag.polygons, frag.facesize, frag.faceidx)) =
      [(false, [4], [0, 1, 2, 3])] := by
  decide

/-- C7, counterexample: the line `s off` starts no recognised directive, and
`parseobj` drops it without a diagnostic. -/
theorem unknown_directive_unreported :
    isBlank "s off".toList = false ∧
    charAt (cstr (chomp "s off".toList)) 0 ∉ ['#', 'g', 'v', 'f'] ∧
    (cstr (chomp "s off".toList)).take 7 ≠ "usemtl ".toList ∧
    (parseobj readDigits [] [] (sampleDecls ++ ["s off".toList])).cerr = [] ∧
    (parseobj readDigits [] [] (sampleDecls ++ ["s off".toList])).ostr = [] := by
  decide

/-- C7 as amended. A line that is not blank, begins with `v` or `f` and fails
the scan of its directive (three numbers after `vn` or `v`, three or four pairs
`p//n` after `f`) is reported on the diagnostic channel and dropped: no
position, normal or face is added, a `v` line only flushes the pending run as
every other directive does, which leaves `P` and `N` as they are, and the loop
goes on with the next line. -/
theorem bad_directive_reported {F : Type} (readFloat : Str → Option (F × Str))
    (materials : StrMap) (st : Streams F) (line : Str) (rest : List Str)
    (hb : isBlank line = false) :
    (charAt (cstr (chomp line)) 0 = 'v' → charAt (cstr (chomp line)) 1 = 'n' →
      (sscanf (scanFloat readFloat) "vn %f %f %f".toList (cstr (chomp line))).length ≠ 3 →
      parseLine readFloat materials st line =
        { s := (flushfaces st.s materials).2, ostr := st.ostr ++ (flushfaces st.s materials).1,
          cerr := st.cerr ++ ["Bad normal directive:".toList ++ cstr (chomp line)] }) ∧
    (charAt (cstr (chomp line)) 0 = 'v' → charAt (cstr (chomp line)) 1 ≠ 'n' →
      (sscanf (scanFloat readFloat) "v %f %f %f".toList (cstr (chomp line))).length ≠ 3 →
      parseLine readFloat materials st line =
        { s := (flushfaces st.s materials).2, ostr := st.ostr ++ (flushfaces st.s materials).1,
          cerr := st.cerr ++ ["Bad point directive:".toList ++ cstr (chomp line)] }) ∧
    (charAt (cstr (chomp line)) 0 = 'f' → faceOf (cstr (chomp line)) = none →
      parseLine readFloat materials st line =
        { s := st.s, ostr := st.ostr,
          cerr := st.cerr ++ ["Bad face directive:".toList ++ cstr (chomp line)] }) ∧
    (flushfaces st.s materials).2.P = st.s.P ∧ (flushfaces st.s materials).2.N = st.s.N ∧
    readLines readFloat materials st (line :: rest) =
      readLines readFloat materials (parseLine readFloat materials st line) rest := by
  have hne : chomp line ≠ [] := by simpa [isBlank] using hb
  refine ⟨?_, ?_, ?_, (flushfaces_frame st.s materials).1, (flushfaces_frame st.s materials).2.1,
    rfl⟩
  · intro h0 h1 hlen
    have htake : (cstr (chomp line)).take 7 ≠ "usemtl ".toList := by
      intro e
      have hu := charAt_of_usemtl _ e
      rw [h0] at hu
      exact absurd hu (by decide)
    unfold parseLine
    simp only [hne, if_false, h0, h1, htake, show ('v' ≠ 'f') by decide,
      show ¬ ('v' = '#') by decide, show ¬ ('v' = 'g') by decide, if_true, and_self]
    split
    · rename_i x y z hxyz
      rw [hxyz] at hlen
      simp at hlen
    · rfl
  · intro h0 h1 hlen
    have htake : (cstr (chomp line)).take 7 ≠ "usemtl ".toList := by
      intro e
      have hu := charAt_of_usemtl _ e
      rw [h0] at hu
      exact absurd hu (by decide)
    unfold parseLine
    simp only [hne, if_false, h0, h1, htake, show ('v' ≠ 'f') by decide,
      show ¬ ('v' = '#') by decide, show ¬ ('v' = 'g') by decide, if_true, and_false]
    split
    · rename_i x y z hxyz
      rw [hxyz] at hlen
      simp at hlen
    · rfl
  · intro h0 hface
    have hf : isFaceLine line = true := by simpa [isFaceLine] using h0
    rw [parseLine_face readFloat materials st line hf, hface]

/-- C7 as amended, at a face line of two pairs and at a normal line of two
numbers. -/
theorem bad_directive_reported_witness :
    isBlank "f 1//1 2//2".toList = false ∧
    (parseLine readDigits [] (Streams.init []) "f 1//1 2//2".toList).cerr =
      ["Bad face directive:f 1//1 2//2".toList] ∧
    (parseLine readDigits [] (Streams.init []) "vn 1 2".toList).cerr =
      ["Bad normal directive:vn 1 2".toList] :=
  ⟨by decide,
    congrArg Streams.cerr
      ((bad_directive_reported readDigits [] (Streams.init []) "f 1//1 2//2".toList []
        (by decide)).2.2.1 (by decide) (by decide)),
    congrArg Streams.cerr
      ((bad_directive_reported readDigits [] (Streams.init []) "vn 1 2".toList []
        (by decide)).1 (by decide) (by decide) (by decide))⟩

/-! The substitution of the placeholder tokens. -/

theorem replaceTokens_zero (ptxfile : Str) (block : Str) :
    replaceTokens ptxfile 0 block = block := by
  cases block <;> rfl

theorem replaceTokens_of_not_mem (ptxfile : Str) (a : Str) (h : '%' ∉ a) :
    ∀ n, replaceTokens ptxfile n a = a := by
  induction a with
  | nil => intro n; cases n <;> rfl
  | cons c a ih =>
    intro n
    have hc : c ≠ '%' := fun e => h (e ▸ List.mem_cons_self _ _)
    have ha : '%' ∉ a := fun e => h (List.mem_cons_of_mem _ e)
    cases n with
    | zero => rfl
    | succ n =>
      show (if c = '%' then _ else c :: replaceTokens ptxfile (n + 1) a) = _
      rw [if_neg hc, ih ha]

theorem replaceTokens_append (ptxfile : Str) (a b : Str) (h : '%' ∉ a) :
    ∀ n, replaceTokens ptxfile n (a ++ b) = a ++ replaceTokens ptxfile n b := by
  induction a with
  | nil => intro n; rfl
  | cons c a ih =>
    intro n
    have hc : c ≠ '%' := fun e => h (e ▸ List.mem_cons_self _ _)
    have ha : '%' ∉ a := fun e => h (List.mem_cons_of_mem _ e)
    cases n with
    | zero => rw [replaceTokens_zero, replaceTokens_zero]
    | succ n =>
      show (if c = '%' then _ else c :: replaceTokens ptxfile (n + 1) (a ++ b)) = _
      rw [if_neg hc, ih ha]
      rfl

theorem split_at_indexOf (c : Char) (s : Str) (h : c ∈ s) :
    s = s.take (s.indexOf c) ++ c :: s.drop (s.indexOf c + 1) ∧
    c ∉ s.take (s.indexOf c) := by
  induction s with
  | nil => simp at h
  | cons d s ih =>
    by_cases hd : d = c
    · subst hd; simp
    · have hs : c ∈ s := by
        rcases List.mem_cons.1 h with e | e
        · exact absurd e.symm hd
        · exact e
      obtain ⟨i1, i2⟩ := ih hs
      rw [List.indexOf_cons_ne _ hd]
      refine ⟨?_, ?_⟩
      · show d :: s = d :: (s.take (s.indexOf c) ++ c :: s.drop (s.indexOf c + 1))
        rw [← i1]
      · show c ∉ d :: s.take (s.indexOf c)
        intro e
        rcases List.mem_cons.1 e with e | e
        · exact hd e.symm
        · exact i2 e

/-- For a file name without `%`, the loop of `flushfaces` is the substitution
of the specification. -/
theorem substitute_eq_replaceTokens (ptxfile : Str) (h : '%' ∉ ptxfile) :
    ∀ (n : Nat) (block : Str), substitute ptxfile n block = replaceTokens ptxfile n block := by
  intro n
  induction n with
  | zero => intro block; rw [replaceTokens_zero]; rfl
  | succ n ih =>
    intro block
    unfold substitute strFind
    by_cases hm : '%' ∈ block
    · rw [if_pos (List.indexOf_lt_length.2 hm)]
      obtain ⟨e, hpre⟩ := split_at_indexOf '%' block hm
      have hrep : strReplace block (block.indexOf '%') 1 ptxfile =
          (block.take (block.indexOf '%') ++ ptxfile) ++ block.drop (block.indexOf '%' + 1) := rfl
      have hnot : '%' ∉ block.take (block.indexOf '%') ++ ptxfile := by
        intro e'
        rcases List.mem_append.1 e' with e' | e'
        · exact hpre e'
        · exact h e'
      show substitute ptxfile n (strReplace block (block.indexOf '%') 1 ptxfile) = _
      rw [hrep, ih, replaceTokens_append _ _ _ hnot]
      conv_rhs => rw [e, replaceTokens_append _ _ _ hpre]
      simp [replaceTokens]
    · rw [if_neg (fun e => hm (List.indexOf_lt_length.1 e))]
      exact (replaceTokens_of_not_mem ptxfile block hm (n + 1)).symm

/-- C8, the code at the failing input: with the geometry name `a%`, the second
pass of the loop replaces the `%` of the name just inserted, not the second
placeholder of the block, which is left in the text. -/
theorem placeholder_in_name_rescanned :
    (fragments (parseobj readDigits [] [("m".toList, "A%B%C".toList)]
      ["g a%".toList, "usemtl m".toList, "v 1 2 3".toList, "v 4 5 6".toList, "v 7 8 9".toList,
        "f 1//1 2//1 3//1".toList]).ostr).map
        (fun frag => frag.material) = [some "Aaa%.ptx.ptxB%C".toList] ∧
    replaceTokens ("a%".toList ++ ".ptx".toList) 2 "A%B%C".toList = "Aa%.ptxBa%.ptxC".toList := by
  decide

/-! The material translator. -/

/-- C10. For a material whose only key is `baseColor = [r, g, b]`, `material`
returns the one declaration `Bxdf "PxrSurface" "<name>"` followed by the one
parameter `"color diffuseColor" [r g b]`, the three channels as the JSON
library writes them, reports nothing and leaves the assignment table as it
was. -/
theorem baseColor_only {D F : Type} (lib : Lib D F) (elementName name : Str) (r g b : D)
    (assignments : StrMap) :
    material lib elementName name
        (Json.obj [("baseColor".toList, Json.arr [Json.num r, Json.num g, Json.num b])])
        assignments =
      Except.ok
        { ostr := "    Bxdf \"PxrSurface\" \"".toList ++ name ++ "\"".toList ++
            (" \"color diffuseColor\" [".toList ++ lib.dump (Json.num r) ++ " ".toList ++
              lib.dump (Json.num g) ++ " ".toList ++ lib.dump (Json.num b) ++ "]".toList)
          assignments := assignments
          cerr := [] } := by
  rfl

/-! The passes of `material` only add to the state. -/

theorem MatOut.app_empty (st : MatOut) : st.app MatOut.empty = st := by
  simp [MatOut.app, MatOut.empty]

theorem MatOut.empty_app (d : MatOut) : MatOut.empty.app d = d := by
  simp [MatOut.app, MatOut.empty]

theorem MatOut.app_assoc (a b c : MatOut) : (a.app b).app c = a.app (b.app c) := by
  simp [MatOut.app]

theorem colorSource_after {D F : Type} (lib : Lib D F) (name : Str) (j : Json D)
    (ptxColor : Bool) (param : String) (st : MatOut) :
    colorSource lib name j ptxColor param st =
      st.after (colorSource lib name j ptxColor param MatOut.empty) := by
  unfold colorSource
  split
  · simp [MatOut.after, MatOut.app, MatOut.empty]
  · split
    · split <;> simp [MatOut.after, MatOut.app, MatOut.empty]
    · simp [MatOut.after, MatOut.app, MatOut.empty]

theorem MatOut.after_after (st d : MatOut) (r : Except MatOut MatOut) :
    st.after (d.after r) = (st.app d).after r := by
  cases r <;> simp [MatOut.after, MatOut.app_assoc]

theorem colorSource_append {D F : Type} (lib : Lib D F) (name : Str) (j : Json D)
    (ptxColor : Bool) (param : String) (st : MatOut) (text : Str) :
    colorSource lib name j ptxColor param { st with ostr := st.ostr ++ text } =
      st.after (colorSource lib name j ptxColor param
        { MatOut.empty with ostr := MatOut.empty.ostr ++ text }) := by
  rw [colorSource_after lib name j ptxColor param { st with ostr := st.ostr ++ text },
    colorSource_after lib name j ptxColor param
      { MatOut.empty with ostr := MatOut.empty.ostr ++ text }, MatOut.after_after]
  simp [MatOut.app, MatOut.empty]

theorem colorSource_eq {D F : Type} (lib : Lib D F) (name : Str) (j : Json D)
    (ptxColor : Bool) (param : String) (st : MatOut) :
    colorSource lib name j ptxColor param st =
      match colorText lib name j ptxColor param with
      | some text => Except.ok { st with ostr := st.ostr ++ text }
      | none => Except.error st := by
  unfold colorSource colorText
  split
  · rfl
  · split
    · split <;> simp_all
    · simp

theorem foldl_set_append (name : Str) (s : List Str) : ∀ (a : StrMap),
    s.foldl (fun a k => StrMap.set a k name) a =
      s.foldl (fun a k => StrMap.set a k name) [] ++ a := by
  induction s with
  | nil => intro a; rfl
  | cons k s ih =>
    intro a
    rw [List.foldl_cons, List.foldl_cons, ih (StrMap.set a k name), ih (StrMap.set [] k name)]
    simp [StrMap.set]

/-- A pass of the loop of `material` only adds to the state: it is the pass on
the empty state, moved behind the state it starts from. -/
theorem materialKey_after {D F : Type} (lib : Lib D F) (name : Str) (j : Json D)
    (ptxColor : Bool) (st : MatOut) (kv : Str × Json D) :
    materialKey lib name j ptxColor st kv =
      st.after (materialKey lib name j ptxColor MatOut.empty kv) := by
  unfold materialKey
  simp only [colorSource_eq]
  by_cases h0 : kv.1 = "colorMap".toList ∨ kv.1 = "displacementMap".toList
  · simp only [if_pos h0]
    clear h0
    simp [MatOut.after, MatOut.app, MatOut.empty]
  simp only [if_neg h0]
  clear h0
  by_cases h1 : kv.1 = "assignment".toList
  · simp only [if_pos h1]
    clear h1
    cases kv.2.getStrings with
    | none => simp [MatOut.after, MatOut.app, MatOut.empty]
    | some s =>
      simp only [MatOut.after, MatOut.app, MatOut.empty]
      rw [foldl_set_append name s st.assignments]
      simp
  simp only [if_neg h1]
  clear h1
  by_cases h2 : kv.1 = "type".toList
  · simp only [if_pos h2]
    clear h2
    simp [MatOut.after, MatOut.app, MatOut.empty]
  simp only [if_neg h2]
  clear h2
  by_cases h3 : kv.1 = "baseColor".toList
  · simp only [if_pos h3]
    clear h3
    (repeat' split) <;>
      simp_all [MatOut.after, MatOut.app, MatOut.empty, MatOut.after_after]
  simp only [if_neg h3]
  clear h3
  by_cases h4 : kv.1 = "diffTrans".toList
  · simp only [if_pos h4]
    clear h4
    (repeat' split) <;>
      simp_all [MatOut.after, MatOut.app, MatOut.empty, MatOut.after_after]
  simp only [if_neg h4]
  clear h4
  by_cases h5 : kv.1 = "flatness".toList
  · simp only [if_pos h5]
    clear h5
    (repeat' split) <;>
      simp_all [MatOut.after, MatOut.app, MatOut.empty, MatOut.after_after]
  simp only [if_neg h5]
  clear h5
  by_cases h6 : kv.1 = "roughness".toList
  · simp only [if_pos h6]
    clear h6
    (repeat' split) <;>
      simp_all [MatOut.after, MatOut.app, MatOut.empty, MatOut.after_after]
  simp only [if_neg h6]
  clear h6
  by_cases h7 : kv.1 = "ior".toList
  · simp only [if_pos h7]
    clear h7
    simp [MatOut.after, MatOut.app, MatOut.empty]
  simp only [if_neg h7]
  clear h7
  by_cases h8 : kv.1 = "sheen".toList
  · simp only [if_pos h8]
    clear h8
    (repeat' split) <;>
      simp_all [MatOut.after, MatOut.app, MatOut.empty, MatOut.after_after]
  simp only [if_neg h8]
  clear h8
  by_cases h9 : kv.1 = "sheenTint".toList
  · simp only [if_pos h9]
    clear h9
    (repeat' split) <;>
      simp_all [MatOut.after, MatOut.app, MatOut.empty, MatOut.after_after]
  simp only [if_neg h9]
  clear h9
  by_cases h10 : kv.1 = "alpha".toList
  · simp only [if_pos h10]
    clear h10
    simp [MatOut.after, MatOut.app, MatOut.empty]
  simp only [if_neg h10]
  clear h10
  by_cases h11 : kv.1 = "specTrans".toList ∨ kv.1 = "scatterDistance".toList
  · simp only [if_pos h11]
    clear h11
    simp [MatOut.after, MatOut.app, MatOut.empty]
  simp only [if_neg h11]
  clear h11
  by_cases h12 : kv.1 = "refractive".toList
  · simp only [if_pos h12]
    clear h12
    generalize lib.toFloat kv.2 = t0
    generalize j.find _ = fi
    generalize j.find _ = fr
    cases t0 with
    | none => simp [MatOut.after, MatOut.app, MatOut.empty]
    | some x =>
      cases fi with
      | none =>
        cases fr with
        | none => simp [MatOut.after, MatOut.app, MatOut.empty]
        | some v =>
          simp only []
          cases lib.toFloat v <;> simp [MatOut.after, MatOut.app, MatOut.empty]
      | some u =>
        simp only []
        cases lib.toFloat u with
        | none => simp [MatOut.after, MatOut.app, MatOut.empty]
        | some y =>
          cases fr with
          | none => simp [MatOut.after, MatOut.app, MatOut.empty]
          | some v =>
            simp only []
            cases lib.toFloat v <;> simp [MatOut.after, MatOut.app, MatOut.empty]
  simp only [if_neg h12]
  clear h12
  by_cases h13 : kv.1 = "specularTint".toList
  · simp only [if_pos h13]
    clear h13
    (repeat' split) <;>
      simp_all [MatOut.after, MatOut.app, MatOut.empty, MatOut.after_after]
  simp only [if_neg h13]
  clear h13
  by_cases h14 : kv.1 = "metallic".toList
  · simp only [if_pos h14]
    clear h14
    simp [MatOut.after, MatOut.app, MatOut.empty]
  simp only [if_neg h14]
  clear h14
  by_cases h15 : kv.1 = "clearcoat".toList ∨ kv.1 = "clearcoatGloss".toList
  · simp only [if_pos h15]
    clear h15
    simp [MatOut.after, MatOut.app, MatOut.empty]
  simp only [if_neg h15]
  clear h15
  by_cases h16 : kv.1 = "anisotropic".toList
  · simp only [if_pos h16]
    clear h16
    (repeat' split) <;>
      simp_all [MatOut.after, MatOut.app, MatOut.empty, MatOut.after_after]
  simp only [if_neg h16]
  clear h16
  simp [MatOut.after, MatOut.app, MatOut.empty]

theorem materialKeys_nil {D F : Type} (lib : Lib D F) (name : Str) (j : Json D)
    (ptxColor : Bool) (st : MatOut) :
    materialKeys lib name j ptxColor st [] = Except.ok st := by
  rw [materialKeys]

theorem materialKeys_cons {D F : Type} (lib : Lib D F) (name : Str) (j : Json D)
    (ptxColor : Bool) (st : MatOut) (kv : Str × Json D) (rest : List (Str × Json D)) :
    materialKeys lib name j ptxColor st (kv :: rest) =
      match materialKey lib name j ptxColor st kv with
      | Except.ok st1 => materialKeys lib name j ptxColor st1 rest
      | Except.error e => Except.error e := by
  rw [materialKeys]

theorem materialKeys_after {D F : Type} (lib : Lib D F) (name : Str) (j : Json D)
    (ptxColor : Bool) (members : List (Str × Json D)) : ∀ (st : MatOut),
    materialKeys lib name j ptxColor st members =
      st.after (materialKeys lib name j ptxColor MatOut.empty members) := by
  induction members with
  | nil => intro st; simp [materialKeys_nil, MatOut.after, MatOut.app_empty]
  | cons kv rest ih =>
    intro st
    rw [materialKeys_cons, materialKeys_cons, materialKey_after lib name j ptxColor st kv]
    cases materialKey lib name j ptxColor MatOut.empty kv with
    | error e => simp [MatOut.after]
    | ok d =>
      show materialKeys lib name j ptxColor (st.app d) rest =
        st.after (materialKeys lib name j ptxColor d rest)
      rw [ih (st.app d), ih d, MatOut.after_after]

theorem materialKeys_append {D F : Type} (lib : Lib D F) (name : Str) (j : Json D)
    (ptxColor : Bool) (a b : List (Str × Json D)) : ∀ (st : MatOut),
    materialKeys lib name j ptxColor st (a ++ b) =
      match materialKeys lib name j ptxColor st a with
      | Except.ok st1 => materialKeys lib name j ptxColor st1 b
      | Except.error e => Except.error e := by
  induction a with
  | nil => intro st; simp [materialKeys_nil]
  | cons kv a ih =>
    intro st
    rw [List.cons_append, materialKeys_cons, materialKeys_cons]
    cases materialKey lib name j ptxColor st kv with
    | error e => rfl
    | ok st1 => exact ih st1

/-- A pass of the loop reads the material only through the lookups of
`baseColor`, `ior` and `roughness`. -/
theorem materialKey_congr {D F : Type} (lib : Lib D F) (name : Str) (j j' : Json D)
    (ptxColor : Bool) (st : MatOut) (kv : Str × Json D)
    (h1 : j.find "baseColor".toList = j'.find "baseColor".toList)
    (h2 : j.find "ior".toList = j'.find "ior".toList)
    (h3 : j.find "roughness".toList = j'.find "roughness".toList) :
    materialKey lib name j ptxColor st kv = materialKey lib name j' ptxColor st kv := by
  unfold materialKey colorSource
  rw [h1, h2, h3]

theorem materialKeys_congr {D F : Type} (lib : Lib D F) (name : Str) (j j' : Json D)
    (ptxColor : Bool) (members : List (Str × Json D))
    (h1 : j.find "baseColor".toList = j'.find "baseColor".toList)
    (h2 : j.find "ior".toList = j'.find "ior".toList)
    (h3 : j.find "roughness".toList = j'.find "roughness".toList) : ∀ (st : MatOut),
    materialKeys lib name j ptxColor st members =
      materialKeys lib name j' ptxColor st members := by
  induction members with
  | nil => intro st; rfl
  | cons kv rest ih =>
    intro st
    rw [materialKeys_cons, materialKeys_cons,
      materialKey_congr lib name j j' ptxColor st kv h1 h2 h3]
    cases materialKey lib name j' ptxColor st kv with
    | error e => rfl
    | ok st1 => exact ih st1

theorem lookup_remove {β : Type} (key k : Str) (v : β) (hk : k ≠ key)
    (pre post : List (Str × β)) :
    (pre ++ (k, v) :: post).lookup key = (pre ++ post).lookup key := by
  induction pre with
  | nil =>
    have : (key == k) = false := by simpa using fun e => hk e.symm
    simp [List.lookup, this]
  | cons p pre ih =>
    obtain ⟨a, b⟩ := p
    rw [List.cons_append, List.cons_append, List.lookup_cons, List.lookup_cons, ih]

theorem find_remove {D : Type} (key k : Str) (v : Json D) (hk : k ≠ key)
    (pre post : List (Str × Json D)) :
    (Json.obj (pre ++ (k, v) :: post)).find key = (Json.obj (pre ++ post)).find key := by
  simp only [Json.find]
  exact lookup_remove key k v hk pre post

theorem materialKey_unknown {D F : Type} (lib : Lib D F) (name : Str) (j : Json D)
    (ptxColor : Bool) (st : MatOut) (k : Str) (v : Json D) (hk : k ∉ knownKeys) :
    materialKey lib name j ptxColor st (k, v) =
      Except.ok { st with cerr := st.cerr ++ ["Warning: unknown material key ".toList ++ k] } := by
  simp only [knownKeys, List.map, List.mem_cons, List.mem_singleton, not_or, List.not_mem_nil,
    not_false_eq_true, and_true] at hk
  obtain ⟨a1, a2, a3, a4, a5, a6, a7, a8, a9, a10, a11, a12, a13, a14, a15, a16, a17, a18, a19,
    a20⟩ := hk
  unfold materialKey
  simp only [a1, a2, a3, a4, a5, a6, a7, a8, a9, a10, a11, a12, a13, a14, a15, a16, a17, a18, a19,
    a20, or_self, if_false]

/-! The function `material` on an object. -/

theorem material_obj {D F : Type} (lib : Lib D F) (elementName name : Str)
    (members : List (Str × Json D)) (assignments : StrMap) :
    material lib elementName name (Json.obj members) assignments =
      match materialHead name (Json.obj members) assignments with
      | Except.error e => Except.error e
      | Except.ok (st, ptxColor) => materialKeys lib name (Json.obj members) ptxColor st members := by
  unfold material materialHead
  simp only [Json.items]
  generalize displacementPart name (Json.obj members)
    { ostr := [], assignments := assignments, cerr := [] } = r1
  cases r1 with
  | error e => rfl
  | ok st1 =>
    simp only []
    generalize colorMapPart name (Json.obj members) st1 = r2
    cases r2 with
    | error e => rfl
    | ok p => rfl

theorem materialHead_congr {D : Type} (name : Str) (j j' : Json D) (assignments : StrMap)
    (h1 : j.find "displacementMap".toList = j'.find "displacementMap".toList)
    (h2 : j.find "colorMap".toList = j'.find "colorMap".toList) :
    materialHead name j assignments = materialHead name j' assignments := by
  unfold materialHead displacementPart colorMapPart
  rw [h1, h2]

theorem not_known_ne {k : Str} (hk : k ∉ knownKeys) (key : Str) (h : key ∈ knownKeys) :
    k ≠ key := fun e => hk (e ▸ h)

/-- C12. A key outside the known parameter set adds nothing to the shading
block and one diagnostic: where `material` returns for the material without
the key, it returns for the material with the key the same block and the same
assignment table, and the diagnostics of the other keys with the one message
for this key put in at its place. -/
theorem unknown_key_only_warns {D F : Type} (lib : Lib D F) (elementName name : Str)
    (pre post : List (Str × Json D)) (k : Str) (v : Json D) (assignments : StrMap)
    (r' : MatOut) (hk : k ∉ knownKeys)
    (h : material lib elementName name (Json.obj (pre ++ post)) assignments = Except.ok r') :
    ∃ c1 c2, r'.cerr = c1 ++ c2 ∧
      material lib elementName name (Json.obj (pre ++ (k, v) :: post)) assignments =
        Except.ok
          { ostr := r'.ostr, assignments := r'.assignments,
            cerr := c1 ++ ["Warning: unknown material key ".toList ++ k] ++ c2 } := by
  have hfind : ∀ key ∈ knownKeys,
      (Json.obj (pre ++ (k, v) :: post)).find key = (Json.obj (pre ++ post)).find key :=
    fun key hkey => find_remove key k v (not_known_ne hk key hkey) pre post
  rw [material_obj] at h ⊢
  rw [materialHead_congr name _ (Json.obj (pre ++ post)) assignments
    (hfind _ (by decide)) (hfind _ (by decide))]
  cases hh : materialHead name (Json.obj (pre ++ post)) assignments with
  | error e => rw [hh] at h; simp at h
  | ok p =>
    obtain ⟨st, ptxColor⟩ := p
    rw [hh] at h
    simp only [] at h ⊢
    rw [materialKeys_congr lib name _ (Json.obj (pre ++ post)) ptxColor _
      (hfind _ (by decide)) (hfind _ (by decide)) (hfind _ (by decide))]
    rw [materialKeys_append] at h ⊢
    cases hp : materialKeys lib name (Json.obj (pre ++ post)) ptxColor st pre with
    | error e => rw [hp] at h; simp at h
    | ok s1 =>
      rw [hp] at h
      simp only [] at h ⊢
      rw [materialKeys_cons, materialKey_unknown lib name _ ptxColor s1 k v hk]
      simp only []
      rw [materialKeys_after] at h ⊢
      cases hq : materialKeys lib name (Json.obj (pre ++ post)) ptxColor MatOut.empty post with
      | error e => rw [hq] at h; simp [MatOut.after] at h
      | ok d2 =>
        rw [hq] at h
        simp only [MatOut.after, Except.ok.injEq] at h
        subst h
        exact ⟨s1.cerr, d2.cerr, rfl, by simp [MatOut.after, MatOut.app]⟩

/-- C12 at a material with `baseColor` and the unknown key `foobar`. -/
theorem unknown_key_only_warns_witness :
    "foobar".toList ∉ knownKeys ∧
    ∃ c1 c2, ([] : List Str) = c1 ++ c2 ∧
      material ratLib [] "m".toList
        (Json.obj ([("baseColor".toList, Json.arr [Json.num 1, Json.num 1, Json.num 1])] ++
          ("foobar".toList, Json.num 1) :: [])) [] =
        Except.ok
          { ostr := "    Bxdf \"PxrSurface\" \"".toList ++ "m".toList ++ "\"".toList ++
              (" \"color diffuseColor\" [".toList ++ ratLib.dump (Json.num 1) ++ " ".toList ++
                ratLib.dump (Json.num 1) ++ " ".toList ++ ratLib.dump (Json.num 1) ++ "]".toList)
            assignments := []
            cerr := c1 ++ ["Warning: unknown material key ".toList ++ "foobar".toList] ++ c2 } :=
  ⟨by decide,
    unknown_key_only_warns ratLib [] "m".toList
      [("baseColor".toList, Json.arr [Json.num 1, Json.num 1, Json.num 1])] []
      "foobar".toList (Json.num 1) []
      { ostr := "    Bxdf \"PxrSurface\" \"".toList ++ "m".toList ++ "\"".toList ++
          (" \"color diffuseColor\" [".toList ++ ratLib.dump (Json.num 1) ++ " ".toList ++
            ratLib.dump (Json.num 1) ++ " ".toList ++ ratLib.dump (Json.num 1) ++ "]".toList)
        assignments := []
        cerr := [] }
      (by decide) rfl⟩

/-! The numerical rules of `material`, read in exact arithmetic. -/

/-- A pass of the loop for a key other than `assignment` binds no name. -/
theorem materialKey_assignments {D F : Type} (lib : Lib D F) (name : Str) (j : Json D)
    (ptxColor : Bool) (kv : Str × Json D) (d : MatOut)
    (hkey : kv.1 ≠ "assignment".toList)
    (hr : materialKey lib name j ptxColor MatOut.empty kv = Except.ok d) :
    d.assignments = [] := by
  unfold materialKey at hr
  simp only [colorSource_eq, if_neg hkey] at hr
  clear hkey
  revert hr
  by_cases h0 : kv.1 = "colorMap".toList ∨ kv.1 = "displacementMap".toList
  · simp only [if_pos h0]
    clear h0
    intro hr
    simp only [Except.ok.injEq] at hr
    subst hr
    rfl
  simp only [if_neg h0]
  clear h0
  by_cases h1 : kv.1 = "type".toList
  · simp only [if_pos h1]
    clear h1
    intro hr
    simp only [Except.ok.injEq] at hr
    subst hr
    rfl
  simp only [if_neg h1]
  clear h1
  by_cases h2 : kv.1 = "baseColor".toList
  · simp only [if_pos h2]
    clear h2
    intro hr
    (repeat' split at hr) <;> first
      | (simp only [Except.ok.injEq] at hr; subst hr; rfl)
      | (simp at hr)
  simp only [if_neg h2]
  clear h2
  by_cases h3 : kv.1 = "diffTrans".toList
  · simp only [if_pos h3]
    clear h3
    intro hr
    (repeat' split at hr) <;> first
      | (simp only [Except.ok.injEq] at hr; subst hr; rfl)
      | (simp at hr)
  simp only [if_neg h3]
  clear h3
  by_cases h4 : kv.1 = "flatness".toList
  · simp only [if_pos h4]
    clear h4
    intro hr
    (repeat' split at hr) <;> first
      | (simp only [Except.ok.injEq] at hr; subst hr; rfl)
      | (simp at hr)
  simp only [if_neg h4]
  clear h4
  by_cases h5 : kv.1 = "roughness".toList
  · simp only [if_pos h5]
    clear h5
    intro hr
    (repeat' split at hr) <;> first
      | (simp only [Except.ok.injEq] at hr; subst hr; rfl)
      | (simp at hr)
  simp only [if_neg h5]
  clear h5
  by_cases h6 : kv.1 = "ior".toList
  · simp only [if_pos h6]
    clear h6
    intro hr
    simp only [Except.ok.injEq] at hr
    subst hr
    rfl
  simp only [if_neg h6]
  clear h6
  by_cases h7 : kv.1 = "sheen".toList
  · simp only [if_pos h7]
    clear h7
    intro hr
    (repeat' split at hr) <;> first
      | (simp only [Except.ok.injEq] at hr; subst hr; rfl)
      | (simp at hr)
  simp only [if_neg h7]
  clear h7
  by_cases h8 : kv.1 = "sheenTint".toList
  · simp only [if_pos h8]
    clear h8
    intro hr
    (repeat' split at hr) <;> first
      | (simp only [Except.ok.injEq] at hr; subst hr; rfl)
      | (simp at hr)
  simp only [if_neg h8]
  clear h8
  by_cases h9 : kv.1 = "alpha".toList
  · simp only [if_pos h9]
    clear h9
    intro hr
    simp only [Except.ok.injEq] at hr
    subst hr
    rfl
  simp only [if_neg h9]
  clear h9
  by_cases h10 : kv.1 = "specTrans".toList ∨ kv.1 = "scatterDistance".toList
  · simp only [if_pos h10]
    clear h10
    intro hr
    simp only [Except.ok.injEq] at hr
    subst hr
    rfl
  simp only [if_neg h10]
  clear h10
  by_cases h11 : kv.1 = "refractive".toList
  · simp only [if_pos h11]
    clear h11
    generalize lib.toFloat kv.2 = t0
    generalize j.find _ = fi
    generalize j.find _ = fr
    intro hr
    cases t0 with
    | none => simp at hr
    | some x =>
      cases fi with
      | none =>
        cases fr with
        | none => simp only [Except.ok.injEq] at hr; subst hr; rfl
        | some v =>
          simp only [] at hr
          cases hv : lib.toFloat v with
          | none => rw [hv] at hr; simp at hr
          | some y => rw [hv] at hr; simp only [Except.ok.injEq] at hr; subst hr; rfl
      | some u =>
        simp only [] at hr
        cases hu : lib.toFloat u with
        | none => rw [hu] at hr; simp at hr
        | some y =>
          rw [hu] at hr
          cases fr with
          | none => simp only [Except.ok.injEq] at hr; subst hr; rfl
          | some v =>
            simp only [] at hr
            cases hv : lib.toFloat v with
            | none => rw [hv] at hr; simp at hr
            | some z => rw [hv] at hr; simp only [Except.ok.injEq] at hr; subst hr; rfl
  simp only [if_neg h11]
  clear h11
  by_cases h12 : kv.1 = "specularTint".toList
  · simp only [if_pos h12]
    clear h12
    intro hr
    (repeat' split at hr) <;> first
      | (simp only [Except.ok.injEq] at hr; subst hr; rfl)
      | (simp at hr)
  simp only [if_neg h12]
  clear h12
  by_cases h13 : kv.1 = "metallic".toList
  · simp only [if_pos h13]
    clear h13
    intro hr
    simp only [Except.ok.injEq] at hr
    subst hr
    rfl
  simp only [if_neg h13]
  clear h13
  by_cases h14 : kv.1 = "clearcoat".toList ∨ kv.1 = "clearcoatGloss".toList
  · simp only [if_pos h14]
    clear h14
    intro hr
    simp only [Except.ok.injEq] at hr
    subst hr
    rfl
  simp only [if_neg h14]
  clear h14
  by_cases h15 : kv.1 = "anisotropic".toList
  · simp only [if_pos h15]
    clear h15
    intro hr
    (repeat' split at hr) <;> first
      | (simp only [Except.ok.injEq] at hr; subst hr; rfl)
      | (simp at hr)
  simp only [if_neg h15]
  clear h15
  intro hr
  simp only [Except.ok.injEq] at hr; subst hr; rfl

theorem materialKeys_assignments {D F : Type} (lib : Lib D F) (name : Str) (j : Json D)
    (ptxColor : Bool) (members : List (Str × Json D)) : ∀ (d : MatOut),
    (∀ kv ∈ members, kv.1 ≠ "assignment".toList) →
    materialKeys lib name j ptxColor MatOut.empty members = Except.ok d →
    d.assignments = [] := by
  induction members with
  | nil =>
    intro d _ h
    rw [materialKeys_nil] at h
    simp only [Except.ok.injEq] at h
    subst h
    rfl
  | cons kv rest ih =>
    intro d hm h
    rw [materialKeys_cons] at h
    cases h1 : materialKey lib name j ptxColor MatOut.empty kv with
    | error e => rw [h1] at h; simp at h
    | ok d1 =>
      rw [h1] at h
      simp only [] at h
      rw [materialKeys_after] at h
      cases h2 : materialKeys lib name j ptxColor MatOut.empty rest with
      | error e => rw [h2] at h; simp [MatOut.after] at h
      | ok d2 =>
        rw [h2] at h
        simp only [MatOut.after, Except.ok.injEq] at h
        subst h
        have a1 := materialKey_assignments lib name j ptxColor kv d1
          (hm kv (List.mem_cons_self _ _)) h1
        have a2 := ih d2 (fun x hx => hm x (List.mem_cons_of_mem _ hx)) h2
        simp [MatOut.app, a1, a2]

theorem displacementPart_assignments {D : Type} (name : Str) (j : Json D) (st st1 : MatOut)
    (h : displacementPart name j st = Except.ok st1) : st1.assignments = st.assignments := by
  unfold displacementPart at h
  (repeat' split at h) <;> first
    | (simp only [Except.ok.injEq] at h; subst h; rfl)
    | (simp at h)

theorem colorMapPart_assignments {D : Type} (name : Str) (j : Json D) (st st1 : MatOut)
    (ptxColor : Bool) (h : colorMapPart name j st = Except.ok (st1, ptxColor)) :
    st1.assignments = st.assignments := by
  unfold colorMapPart at h
  (repeat' split at h) <;> first
    | (simp only [Except.ok.injEq, Prod.mk.injEq] at h; obtain ⟨h, _⟩ := h; subst h; rfl)
    | (simp at h)

theorem materialHead_assignments {D : Type} (name : Str) (j : Json D) (assignments : StrMap)
    (st : MatOut) (ptxColor : Bool)
    (h : materialHead name j assignments = Except.ok (st, ptxColor)) :
    st.assignments = assignments := by
  unfold materialHead at h
  cases h1 : displacementPart name j { ostr := [], assignments := assignments, cerr := [] } with
  | error e => rw [h1] at h; simp at h
  | ok st1 =>
    rw [h1] at h
    simp only [] at h
    cases h2 : colorMapPart name j st1 with
    | error e => rw [h2] at h; simp at h
    | ok p =>
      obtain ⟨st2, pc⟩ := p
      rw [h2] at h
      simp only [Except.ok.injEq, Prod.mk.injEq] at h
      obtain ⟨h, _⟩ := h
      subst h
      show st2.assignments = assignments
      rw [colorMapPart_assignments name j st1 st2 pc h2,
        displacementPart_assignments name j _ st1 h1]

theorem materialKey_assignment {D F : Type} (lib : Lib D F) (name : Str) (j : Json D)
    (ptxColor : Bool) (st : MatOut) (value : Json D) :
    materialKey lib name j ptxColor st ("assignment".toList, value) =
      match value.getStrings with
      | some s =>
        Except.ok
          { st with assignments := s.foldl (fun a k => StrMap.set a k name) st.assignments }
      | none => Except.error st := by
  unfold materialKey
  simp only []
  rw [if_neg (by decide), if_pos trivial]

theorem find_foldl_set (name : Str) (names : List Str) (n : Str) : ∀ (a : StrMap),
    StrMap.find (names.foldl (fun a k => StrMap.set a k name) a) n =
      if n ∈ names then some name else StrMap.find a n := by
  induction names with
  | nil => intro a; simp
  | cons k names ih =>
    intro a
    rw [List.foldl_cons, ih]
    by_cases h1 : n ∈ names
    · simp [h1]
    · by_cases h2 : k = n
      · subst h2; simp [h1, StrMap.set, StrMap.find]
      · have h3 : ¬ n = k := fun e => h2 e.symm
        simp [h1, h2, h3, StrMap.set, StrMap.find]

/-- C13. For a material with an assignment list and no second `assignment`
key, where `material` returns: the assignment table maps every listed name to
the name of this material, the entry of every other name is as before, and the
key adds no text: the material without the key gives the same block and the same
diagnostics, with the table left as it was. -/
theorem assignment_recorded {D F : Type} (lib : Lib D F) (elementName name : Str)
    (pre post : List (Str × Json D)) (value : Json D) (names : List Str)
    (assignments : StrMap) (r : MatOut)
    (hs : value.getStrings = some names)
    (hone : ∀ kv ∈ pre ++ post, kv.1 ≠ "assignment".toList)
    (h : material lib elementName name
      (Json.obj (pre ++ ("assignment".toList, value) :: post)) assignments = Except.ok r) :
    (∀ n ∈ names, r.assignments.find n = some name) ∧
    (∀ n, n ∉ names → r.assignments.find n = assignments.find n) ∧
    material lib elementName name (Json.obj (pre ++ post)) assignments =
      Except.ok { ostr := r.ostr, assignments := assignments, cerr := r.cerr } := by
  have hfind : ∀ key, "assignment".toList ≠ key →
      (Json.obj (pre ++ ("assignment".toList, value) :: post)).find key =
        (Json.obj (pre ++ post)).find key :=
    fun key hkey => find_remove key _ value hkey pre post
  have hpre : ∀ kv ∈ pre, kv.1 ≠ "assignment".toList :=
    fun kv hkv => hone kv (List.mem_append_left _ hkv)
  have hpost : ∀ kv ∈ post, kv.1 ≠ "assignment".toList :=
    fun kv hkv => hone kv (List.mem_append_right _ hkv)
  rw [material_obj] at h ⊢
  rw [materialHead_congr name _ (Json.obj (pre ++ post)) assignments
    (hfind _ (by decide)) (hfind _ (by decide))] at h
  cases hh : materialHead name (Json.obj (pre ++ post)) assignments with
  | error e => rw [hh] at h; simp at h
  | ok p =>
    obtain ⟨st, ptxColor⟩ := p
    have hst := materialHead_assignments name _ assignments st ptxColor hh
    rw [hh] at h
    simp only [] at h ⊢
    rw [materialKeys_congr lib name _ (Json.obj (pre ++ post)) ptxColor _
      (hfind _ (by decide)) (hfind _ (by decide)) (hfind _ (by decide))] at h
    rw [materialKeys_append, materialKeys_after] at h ⊢
    cases hp : materialKeys lib name (Json.obj (pre ++ post)) ptxColor MatOut.empty pre with
    | error e => rw [hp] at h; simp [MatOut.after] at h
    | ok d1 =>
      have a1 := materialKeys_assignments lib name _ ptxColor pre d1 hpre hp
      rw [hp] at h
      simp only [MatOut.after] at h ⊢
      rw [materialKeys_cons, materialKey_assignment, hs] at h
      simp only [] at h
      rw [materialKeys_after] at h ⊢
      cases hq : materialKeys lib name (Json.obj (pre ++ post)) ptxColor MatOut.empty post with
      | error e => rw [hq] at h; simp [MatOut.after] at h
      | ok d2 =>
        have a2 := materialKeys_assignments lib name _ ptxColor post d2 hpost hq
        rw [hq] at h
        simp only [MatOut.after, Except.ok.injEq] at h
        subst h
        simp only [MatOut.app, a1, a2, List.nil_append, hst]
        refine ⟨fun n hn => ?_, fun n hn => ?_, by simp [MatOut.after, MatOut.app, a2]⟩
        · rw [find_foldl_set, if_pos hn]
        · rw [find_foldl_set, if_neg hn]

/-- C13 at a material that is assigned to two curves. -/
theorem assignment_recorded_witness :
    material ratLib [] "m".toList
        (Json.obj ([] ++ ("assignment".toList,
          Json.arr [Json.str "palm".toList, Json.str "fern".toList]) :: [])) [] =
      Except.ok
        { ostr := "    Bxdf \"PxrSurface\" \"".toList ++ "m".toList ++ "\"".toList
          assignments := [("fern".toList, "m".toList), ("palm".toList, "m".toList)]
          cerr := [] } ∧
    material ratLib [] "m".toList (Json.obj ([] ++ [])) [] =
      Except.ok
        { ostr := "    Bxdf \"PxrSurface\" \"".toList ++ "m".toList ++ "\"".toList
          assignments := []
          cerr := [] } :=
  ⟨rfl,
    (assignment_recorded ratLib [] "m".toList [] []
      (Json.arr [Json.str "palm".toList, Json.str "fern".toList])
      ["palm".toList, "fern".toList] []
      { ostr := "    Bxdf \"PxrSurface\" \"".toList ++ "m".toList ++ "\"".toList
        assignments := [("fern".toList, "m".toList), ("palm".toList, "m".toList)]
        cerr := [] }
      rfl (by simp) rfl).2.2⟩

/-! The text of one key inside the block. -/

theorem countsOf_append {F : Type} (a b : List (Item F)) :
    countsOf (a ++ b) = countsOf a ++ countsOf b := by
  simp [countsOf]

theorem coordsOf_append {F : Type} (a b : List (Item F)) :
    coordsOf (a ++ b) = coordsOf a ++ coordsOf b := by
  simp [coordsOf]

theorem widthsOf_append {F : Type} (a b : List (Item F)) :
    widthsOf (a ++ b) = widthsOf a ++ widthsOf b := by
  simp [widthsOf]

theorem putPoint_ok {D F : Type} (lib : Lib D F) (p : Json D) (pt : Float3 F) (w : World F)
    (h : Json.point lib p = some pt) :
    putCoords lib p [0, 1, 2] w =
      Except.ok { w with ostr := w.ostr ++ pt.coords.map Item.coord } := by
  unfold Json.point at h
  cases h0 : (p.index 0).bind lib.toFloat with
  | none => rw [h0] at h; simp at h
  | some x =>
    cases h1 : (p.index 1).bind lib.toFloat with
    | none => rw [h0, h1] at h; simp at h
    | some y =>
      cases h2 : (p.index 2).bind lib.toFloat with
      | none => rw [h0, h1, h2] at h; simp at h
      | some z =>
        rw [h0, h1, h2] at h
        simp only [Option.some.injEq] at h
        subst h
        simp [putCoords, h0, h1, h2, World.put, Float3.coords]

theorem putPoints_ok {D F : Type} (lib : Lib D F) (ps : List (Json D)) (pts : List (Float3 F))
    (w : World F) (h : ps.map (Json.point lib) = pts.map some) :
    putPoints lib ps w =
      Except.ok { w with ostr := w.ostr ++ (pts.flatMap Float3.coords).map Item.coord } := by
  induction ps generalizing pts w with
  | nil =>
    cases pts with
    | nil => simp [putPoints]
    | cons a b => simp at h
  | cons p rest ih =>
    cases pts with
    | nil => simp at h
    | cons pt pts =>
      simp only [List.map_cons, List.cons.injEq] at h
      rw [putPoints, putPoint_ok lib p pt w h.1]
      simp only []
      rw [ih pts _ h.2]
      simp [List.flatMap_cons]

theorem padded_cons {α : Type} (first : α) (rest : List α) :
    padded (first :: rest) =
      [first, first] ++ (first :: rest) ++
        [(first :: rest).getLast (List.cons_ne_nil first rest),
          (first :: rest).getLast (List.cons_ne_nil first rest)] := by
  unfold padded
  rw [List.getLast?_eq_getLast _ (List.cons_ne_nil first rest)]
  rfl

theorem padded_length {α : Type} (c : List α) (h : c ≠ []) : (padded c).length = c.length + 4 := by
  cases c with
  | nil => exact absurd rfl h
  | cons first rest => rw [padded_cons]; simp

theorem curveP_ok {D F : Type} (lib : Lib D F) (curve : Json D) (c : List (Float3 F))
    (w : World F) (hne : c ≠ []) (h : curve.values.map (Json.point lib) = c.map some) :
    curveP lib curve w =
      Except.ok
        { w with ostr := w.ostr ++ ((padded c).flatMap Float3.coords).map Item.coord } := by
  unfold curveP
  cases hv : curve.values with
  | nil =>
    rw [hv] at h
    cases c with
    | nil => exact absurd rfl hne
    | cons a b => simp at h
  | cons first rest =>
    cases c with
    | nil => exact absurd rfl hne
    | cons pt pts =>
      simp only []
      apply putPoints_ok
      rw [hv] at h
      rw [padded_cons]
      simp only [List.map_append, h]
      have hl : Json.point lib ((first :: rest).getLast (List.cons_ne_nil first rest)) =
          some ((pt :: pts).getLast (List.cons_ne_nil pt pts)) := by
        have e := congrArg List.getLast? h
        rw [List.getLast?_map, List.getLast?_map,
          List.getLast?_eq_getLast _ (List.cons_ne_nil first rest),
          List.getLast?_eq_getLast _ (List.cons_ne_nil pt pts)] at e
        simpa using e
      have hf : Json.point lib first = some pt := by
        simp only [List.map_cons, List.cons.injEq] at h
        exact h.1
      simp [hl, hf]

theorem curvesP_ok {D F : Type} (lib : Lib D F) (file : List (Json D))
    (curves : List (List (Float3 F))) (w : World F) (hne : ∀ c ∈ curves, c ≠ [])
    (h : file.map (fun curve => curve.values.map (Json.point lib)) =
      curves.map (fun c => c.map some)) :
    curvesP lib file w =
      Except.ok
        { w with ostr := w.ostr ++
            ((curves.flatMap padded).flatMap Float3.coords).map Item.coord } := by
  induction file generalizing curves w with
  | nil =>
    cases curves with
    | nil => simp [curvesP]
    | cons a b => simp at h
  | cons curve rest ih =>
    cases curves with
    | nil => simp at h
    | cons c cs =>
      simp only [List.map_cons, List.cons.injEq] at h
      rw [curvesP, curveP_ok lib curve c w (hne c (List.mem_cons_self _ _)) h.1]
      simp only []
      rw [ih cs _ (fun c hc => hne c (List.mem_cons_of_mem _ hc)) h.2]
      simp [List.flatMap_cons]

/-- The part of the main stream `instancedCurves` writes after the shading line, for a curve
file whose curves are the polylines `curves`. -/
theorem instancedCurves_ok {D F : Type} (env : Env D F) (primName : Str) (j : Json D)
    (materials assignments : StrMap) (w : World F) (tipValue rootValue : Json D)
    (widthTip widthRoot : F) (curveFilename : Str) (file : Json D)
    (curves : List (List (Float3 F)))
    (htip : j.atKey "widthTip".toList = Except.ok tipValue)
    (htipf : env.lib.toFloat tipValue = some widthTip)
    (hroot : j.atKey "widthRoot".toList = Except.ok rootValue)
    (hrootf : env.lib.toFloat rootValue = some widthRoot)
    (hname : j.atKey "jsonFile".toList = Except.ok (Json.str curveFilename))
    (hfile : env.jsonFile curveFilename = some file)
    (hne : ∀ c ∈ curves, c ≠ [])
    (hcurves : file.values.map (fun curve => curve.values.map (Json.point env.lib)) =
      curves.map (fun c => c.map some)) :
    ∃ w2 : World F,
      w2 = curvesMaterial primName materials assignments
        ((w.put (Item.comment ("begin curves ".toList ++ primName))).put Item.attributeBegin) ∧
      instancedCurves env primName j materials assignments w =
        Except.ok
          { w2 with ostr := w2.ostr ++ ([Item.basis, Item.curvesBegin] ++
              curves.map (fun c => Item.count (c.length + 4)) ++ [Item.pBegin] ++
              ((curves.flatMap padded).flatMap Float3.coords).map Item.coord ++
              [Item.widthBegin] ++
              (curves.flatMap (fun c =>
                curveWidths env.lib widthRoot widthTip c.length)).map Item.width ++
              [Item.curvesEnd, Item.attributeEnd,
                Item.comment ("end curves ".toList ++ curveFilename)]) } := by
  refine ⟨_, rfl, ?_⟩
  have hlen : ∀ (fs : List (Json D)) (cs : List (List (Float3 F))),
      fs.map (fun curve => curve.values.map (Json.point env.lib)) =
        cs.map (fun c => c.map some) →
      fs.map (fun curve => curve.values.length) = cs.map List.length := by
    intro fs
    induction fs with
    | nil =>
      intro cs h
      cases cs with
      | nil => rfl
      | cons a b => simp at h
    | cons f rest ih =>
      intro cs h
      cases cs with
      | nil => simp at h
      | cons c cs =>
        simp only [List.map_cons, List.cons.injEq] at h
        have e := congrArg List.length h.1
        simp only [List.length_map] at e
        simp only [List.map_cons, e, ih cs h.2]
  have hl := hlen _ _ hcurves
  have hcount : file.values.map (fun curve => (Item.count (curve.values.length + 4) : Item F)) =
      curves.map (fun c => Item.count (c.length + 4)) := by
    have e := congrArg (List.map (fun n => (Item.count (n + 4) : Item F))) hl
    simpa [List.map_map, Function.comp] using e
  have hwidth : file.values.flatMap (fun curve =>
        curveWidths env.lib widthRoot widthTip curve.values.length) =
      curves.flatMap (fun c => curveWidths env.lib widthRoot widthTip c.length) := by
    have e := congrArg (fun l => List.flatMap l (curveWidths env.lib widthRoot widthTip)) hl
    simpa [List.flatMap, List.map_map, Function.comp] using e
  unfold instancedCurves
  simp only [htip, hroot, hname, Except.bind, Json.asFloat, htipf, hrootf, Json.asString,
    Json.getString, hfile, hcount, hwidth]
  rw [curvesP_ok env.lib file.values curves _ hne hcurves]
  simp [World.put]

theorem curvesMaterial_ostr {F : Type} (primName : Str) (materials assignments : StrMap)
    (w : World F) :
    ∃ s, (curvesMaterial primName materials assignments w).ostr = w.ostr ++ s ∧
      countsOf s = [] ∧ coordsOf s = [] ∧ widthsOf s = [] := by
  unfold curvesMaterial
  cases assignments.find primName with
  | none => exact ⟨[], by simp, rfl, rfl, rfl⟩
  | some assigned =>
    simp only []
    cases materials.find assigned with
    | none => exact ⟨[], by simp, rfl, rfl, rfl⟩
    | some material =>
      simp only []
      cases strFind material '%' with
      | none => exact ⟨[Item.shading material], rfl, rfl, rfl, rfl⟩
      | some pos => exact ⟨[Item.shading _], rfl, rfl, rfl, rfl⟩

theorem countsOf_map_count {F : Type} (ns : List Nat) :
    countsOf (ns.map (fun n => (Item.count n : Item F))) = ns := by
  induction ns with
  | nil => rfl
  | cons n rest ih =>
    rw [List.map_cons]
    exact congrArg (List.cons n) ih

theorem coordsOf_map_coord {F : Type} (xs : List F) : coordsOf (xs.map Item.coord) = xs := by
  induction xs with
  | nil => rfl
  | cons n rest ih =>
    rw [List.map_cons]
    exact congrArg (List.cons n) ih

theorem widthsOf_map_width {F : Type} (xs : List F) : widthsOf (xs.map Item.width) = xs := by
  induction xs with
  | nil => rfl
  | cons n rest ih =>
    rw [List.map_cons]
    exact congrArg (List.cons n) ih

theorem countsOf_map_coord {F : Type} (xs : List F) : countsOf (xs.map Item.coord) = [] := by
  induction xs with
  | nil => rfl
  | cons n rest ih => rw [List.map_cons]; exact ih

theorem countsOf_map_width {F : Type} (xs : List F) : countsOf (xs.map Item.width) = [] := by
  induction xs with
  | nil => rfl
  | cons n rest ih => rw [List.map_cons]; exact ih

theorem coordsOf_map_count {F : Type} (ns : List Nat) :
    coordsOf (ns.map (fun n => (Item.count n : Item F))) = [] := by
  induction ns with
  | nil => rfl
  | cons n rest ih => rw [List.map_cons]; exact ih

theorem coordsOf_map_width {F : Type} (xs : List F) : coordsOf (xs.map Item.width) = [] := by
  induction xs with
  | nil => rfl
  | cons n rest ih => rw [List.map_cons]; exact ih

theorem widthsOf_map_count {F : Type} (ns : List Nat) :
    widthsOf (ns.map (fun n => (Item.count n : Item F))) = [] := by
  induction ns with
  | nil => rfl
  | cons n rest ih => rw [List.map_cons]; exact ih

theorem widthsOf_map_coord {F : Type} (xs : List F) : widthsOf (xs.map Item.coord) = [] := by
  induction xs with
  | nil => rfl
  | cons n rest ih => rw [List.map_cons]; exact ih

/-- What `instancedCurves` adds to the main stream for a curve file whose curves are the
polylines `curves`: the counts, the coordinates and the widths on it. -/
theorem instancedCurves_stream {D F : Type} (env : Env D F) (primName : Str) (j : Json D)
    (materials assignments : StrMap) (w : World F) (tipValue rootValue : Json D)
    (widthTip widthRoot : F) (curveFilename : Str) (file : Json D)
    (curves : List (List (Float3 F)))
    (htip : j.atKey "widthTip".toList = Except.ok tipValue)
    (htipf : env.lib.toFloat tipValue = some widthTip)
    (hroot : j.atKey "widthRoot".toList = Except.ok rootValue)
    (hrootf : env.lib.toFloat rootValue = some widthRoot)
    (hname : j.atKey "jsonFile".toList = Except.ok (Json.str curveFilename))
    (hfile : env.jsonFile curveFilename = some file)
    (hne : ∀ c ∈ curves, c ≠ [])
    (hcurves : file.values.map (fun curve => curve.values.map (Json.point env.lib)) =
      curves.map (fun c => c.map some)) :
    ∃ w1 added, instancedCurves env primName j materials assignments w = Except.ok w1 ∧
      w1.ostr = w.ostr ++ added ∧
      countsOf added = curves.map (fun c => c.length + 4) ∧
      coordsOf added = (curves.flatMap padded).flatMap Float3.coords ∧
      widthsOf added =
        curves.flatMap (fun c => curveWidths env.lib widthRoot widthTip c.length) := by
  obtain ⟨w2, hw2, hrun⟩ := instancedCurves_ok env primName j materials assignments w tipValue
    rootValue widthTip widthRoot curveFilename file curves htip htipf hroot hrootf hname hfile
    hne hcurves
  obtain ⟨s, hs, hs1, hs2, hs3⟩ := curvesMaterial_ostr primName materials assignments
    ((w.put (Item.comment ("begin curves ".toList ++ primName))).put Item.attributeBegin)
  rw [← hw2] at hs
  have hcm : (curves.map (fun c => (Item.count (c.length + 4) : Item F))) =
      (curves.map (fun c => c.length + 4)).map (fun n => (Item.count n : Item F)) := by
    simp [List.map_map, Function.comp]
  refine ⟨_, [Item.comment ("begin curves ".toList ++ primName), Item.attributeBegin] ++ s ++
    ([Item.basis, Item.curvesBegin] ++
      curves.map (fun c => Item.count (c.length + 4)) ++ [Item.pBegin] ++
      ((curves.flatMap padded).flatMap Float3.coords).map Item.coord ++
      [Item.widthBegin] ++
      (curves.flatMap (fun c =>
        curveWidths env.lib widthRoot widthTip c.length)).map Item.width ++
      [Item.curvesEnd, Item.attributeEnd,
        Item.comment ("end curves ".toList ++ curveFilename)]), hrun, ?_, ?_, ?_, ?_⟩
  · simp only [hs, World.put, List.append_assoc, List.cons_append, List.nil_append]
  · rw [hcm]
    simp only [countsOf_append, hs1, countsOf_map_count, countsOf_map_coord, countsOf_map_width]
    simp [countsOf]
  · rw [hcm]
    simp only [coordsOf_append, hs2, coordsOf_map_count, coordsOf_map_coord, coordsOf_map_width]
    simp [coordsOf]
  · rw [hcm]
    simp only [widthsOf_append, hs3, widthsOf_map_count, widthsOf_map_coord, widthsOf_map_width]
    simp [widthsOf]

/-! C16: the padding of a polyline. -/

/-- C16. For a curve file whose curves are the polylines `curves`, none of them empty,
`instancedCurves` returns, the vertex count it writes for a polyline of `n` points is `n + 4`,
and the coordinates it writes are those of the first point twice, the `n` points in order
and the last point twice, `n + 4` points for each polyline. -/
theorem curve_padding {D F : Type} (env : Env D F) (primName : Str) (j : Json D)
    (materials assignments : StrMap) (w : World F) (tipValue rootValue : Json D)
    (widthTip widthRoot : F) (curveFilename : Str) (file : Json D)
    (curves : List (List (Float3 F)))
    (htip : j.atKey "widthTip".toList = Except.ok tipValue)
    (htipf : env.lib.toFloat tipValue = some widthTip)
    (hroot : j.atKey "widthRoot".toList = Except.ok rootValue)
    (hrootf : env.lib.toFloat rootValue = some widthRoot)
    (hname : j.atKey "jsonFile".toList = Except.ok (Json.str curveFilename))
    (hfile : env.jsonFile curveFilename = some file)
    (hne : ∀ c ∈ curves, c ≠ [])
    (hcurves : file.values.map (fun curve => curve.values.map (Json.point env.lib)) =
      curves.map (fun c => c.map some)) :
    ∃ w1 added, instancedCurves env primName j materials assignments w = Except.ok w1 ∧
      w1.ostr = w.ostr ++ added ∧
      countsOf added = curves.map (fun c => c.length + 4) ∧
      coordsOf added = (curves.flatMap padded).flatMap Float3.coords ∧
      ∀ c ∈ curves, (padded c).length = c.length + 4 ∧
        ∃ first last, c.head? = some first ∧ c.getLast? = some last ∧
          padded c = [first, first] ++ c ++ [last, last] := by
  obtain ⟨w1, added, hrun, hostr, hcounts, hcoords, _⟩ := instancedCurves_stream env primName j
    materials assignments w tipValue rootValue widthTip widthRoot curveFilename file curves htip
    htipf hroot hrootf hname hfile hne hcurves
  refine ⟨w1, added, hrun, hostr, hcounts, hcoords, ?_⟩
  intro c hc
  refine ⟨padded_length c (hne c hc), ?_⟩
  cases c with
  | nil => exact absurd rfl (hne _ hc)
  | cons first rest =>
    exact ⟨first, (first :: rest).getLast (List.cons_ne_nil first rest), rfl,
      List.getLast?_eq_getLast _ _, padded_cons first rest⟩

/-- C16 on the sample curve file: the polyline of three points is written as seven points
and the count written is 7. -/
theorem curve_padding_witness :
    ∃ w1 added,
      instancedCurves sampleCurvesEnv "hair".toList sampleCurvesPrim [] [] World.init =
        Except.ok w1 ∧
      w1.ostr = World.init.ostr ++ added ∧
      countsOf added = [samplePolyline].map (fun c => c.length + 4) ∧
      coordsOf added = ([samplePolyline].flatMap padded).flatMap Float3.coords ∧
      ∀ c ∈ [samplePolyline], (padded c).length = c.length + 4 ∧
        ∃ first last, c.head? = some first ∧ c.getLast? = some last ∧
          padded c = [first, first] ++ c ++ [last, last] :=
  curve_padding sampleCurvesEnv "hair".toList sampleCurvesPrim [] [] World.init
    (Json.num 2000) (Json.num 1000) 2000 1000 "c.json".toList sampleCurveFile [samplePolyline]
    rfl rfl rfl rfl rfl rfl (by decide) rfl

/-! C17: the number of widths. -/

/-- C17, counterexample: for the sample curve file, one polyline of three points, the count
written is 7 and 21 coordinates are written, but the width array has five entries. -/
theorem three_point_polyline_five_widths :
    ∃ w1,
      instancedCurves sampleCurvesEnv "hair".toList sampleCurvesPrim [] [] World.init =
        Except.ok w1 ∧
      countsOf w1.ostr = [7] ∧ (coordsOf w1.ostr).length = 21 ∧
      widthsOf w1.ostr = [1000, 1000, 1500, 2000, 2000] :=
  ⟨_, rfl, rfl, rfl, rfl⟩

theorem curveWidths_length {D F : Type} (lib : Lib D F) (widthRoot widthTip : F) (n : Nat)
    (h : 1 ≤ n) : (curveWidths lib widthRoot widthTip n).length = n + 2 := by
  simp [curveWidths]
  omega

theorem curveWidths_total {D F : Type} (lib : Lib D F) (widthRoot widthTip : F)
    (curves : List (List (Float3 F))) (hpos : ∀ c ∈ curves, 1 ≤ c.length) :
    (curves.flatMap (fun c => curveWidths lib widthRoot widthTip c.length)).length =
      (curves.map (fun c => c.length + 2)).sum := by
  induction curves with
  | nil => rfl
  | cons c cs ih =>
    rw [List.flatMap_cons, List.length_append, List.map_cons, List.sum_cons,
      curveWidths_length _ _ _ _ (hpos c (List.mem_cons_self _ _)),
      ih (fun c hc => hpos c (List.mem_cons_of_mem _ hc))]

/-- C17, amended: the width array `instancedCurves` writes has `n + 2` entries for a
polyline of `n` points, two less than the `n + 4` points written for it. -/
theorem width_count {D F : Type} (env : Env D F) (primName : Str) (j : Json D)
    (materials assignments : StrMap) (w : World F) (tipValue rootValue : Json D)
    (widthTip widthRoot : F) (curveFilename : Str) (file : Json D)
    (curves : List (List (Float3 F)))
    (htip : j.atKey "widthTip".toList = Except.ok tipValue)
    (htipf : env.lib.toFloat tipValue = some widthTip)
    (hroot : j.atKey "widthRoot".toList = Except.ok rootValue)
    (hrootf : env.lib.toFloat rootValue = some widthRoot)
    (hname : j.atKey "jsonFile".toList = Except.ok (Json.str curveFilename))
    (hfile : env.jsonFile curveFilename = some file)
    (hne : ∀ c ∈ curves, c ≠ [])
    (hcurves : file.values.map (fun curve => curve.values.map (Json.point env.lib)) =
      curves.map (fun c => c.map some)) :
    ∃ w1 added, instancedCurves env primName j materials assignments w = Except.ok w1 ∧
      w1.ostr = w.ostr ++ added ∧
      widthsOf added =
        curves.flatMap (fun c => curveWidths env.lib widthRoot widthTip c.length) ∧
      (∀ c ∈ curves, (curveWidths env.lib widthRoot widthTip c.length).length = c.length + 2 ∧
        (padded c).length = c.length + 4) ∧
      (widthsOf added).length = (curves.map (fun c => c.length + 2)).sum := by
  obtain ⟨w1, added, hrun, hostr, _, _, hwidths⟩ := instancedCurves_stream env primName j
    materials assignments w tipValue rootValue widthTip widthRoot curveFilename file curves htip
    htipf hroot hrootf hname hfile hne hcurves
  have hpos : ∀ c ∈ curves, 1 ≤ c.length := by
    intro c hc
    have := hne c hc
    cases c with
    | nil => exact absurd rfl this
    | cons a b => simp
  refine ⟨w1, added, hrun, hostr, hwidths, ?_, ?_⟩
  · intro c hc
    exact ⟨curveWidths_length _ _ _ _ (hpos c hc), padded_length c (hne c hc)⟩
  · rw [hwidths]
    exact curveWidths_total _ _ _ curves hpos

/-- C17, amended, on the sample curve file: five widths for the polyline of three points. -/
theorem width_count_witness :
    ∃ w1 added,
      instancedCurves sampleCurvesEnv "hair".toList sampleCurvesPrim [] [] World.init =
        Except.ok w1 ∧
      w1.ostr = World.init.ostr ++ added ∧
      widthsOf added =
        [samplePolyline].flatMap (fun c =>
          curveWidths sampleCurvesEnv.lib 1000 2000 c.length) ∧
      (∀ c ∈ [samplePolyline],
        (curveWidths sampleCurvesEnv.lib 1000 2000 c.length).length = c.length + 2 ∧
        (padded c).length = c.length + 4) ∧
      (widthsOf added).length = ([samplePolyline].map (fun c => c.length + 2)).sum :=
  width_count sampleCurvesEnv "hair".toList sampleCurvesPrim [] [] World.init
    (Json.num 2000) (Json.num 1000) 2000 1000 "c.json".toList sampleCurveFile [samplePolyline]
    rfl rfl rfl rfl rfl rfl (by decide) rfl

/-! C18: the widths along a polyline. -/

/-- C19, counterexample: with an instance file that names the master `ghost.obj`, not among
the archives, `instancedArchive` returns normally, places the instance all the same and
writes nothing to `cerr`; no `ObjectBegin` of that name is on the stream. -/
theorem dangling_master_placed :
    ∃ w1,
      instancedArchive (milliEnv [("inst.json".toList, danglingInstances)] []) "e".toList
        "prim".toList sampleArchivePrim [] World.init = Except.ok w1 ∧
      w1.ostr =
        [Item.comment "begin instance archive prim".toList,
          Item.objectBegin "a.obj".toList, Item.readArchive "a.rib".toList, Item.objectEnd,
          Item.comment "begin instances ".toList,
          Item.attributeBegin, Item.identifierName "i0".toList,
          Item.concatTransform [1000, 0, 0, 0, 0, 1000, 0, 0, 0, 0, 1000, 0, 0, 0, 0, 1000],
          Item.objectInstance "ghost.obj".toList, Item.attributeEnd,
          Item.comment "end instances ".toList,
          Item.comment "end instance archive \"inst.json\"".toList] ∧
      w1.cerr = [] ∧ mastersDefined [] w1.ostr = false :=
  ⟨_, rfl, rfl, rfl, rfl⟩

theorem objFile_master_ostr {D F : Type} (env : Env D F) (elementName filename : Str)
    (materials : StrMap) (w : World F) :
    (objFile env elementName filename materials true w).ostr =
      w.ostr ++ [Item.readArchive (ribName filename)] := by
  simp [objFile, World.put]

theorem mastersDefined_objectBegin {F : Type} (d : List Str) (s : Str) (rest : List (Item F)) :
    mastersDefined d (Item.objectBegin s :: rest) = mastersDefined (s :: d) rest := rfl

theorem mastersDefined_objectInstance {F : Type} (d : List Str) (m : Str)
    (rest : List (Item F)) :
    mastersDefined d (Item.objectInstance m :: rest) =
      (decide (m ∈ d) && mastersDefined d rest) := rfl

theorem mastersDefined_comment {F : Type} (d : List Str) (t : Str) (rest : List (Item F)) :
    mastersDefined d (Item.comment t :: rest) = mastersDefined d rest := rfl

theorem mastersDefined_readArchive {F : Type} (d : List Str) (t : Str) (rest : List (Item F)) :
    mastersDefined d (Item.readArchive t :: rest) = mastersDefined d rest := rfl

theorem mastersDefined_objectEnd {F : Type} (d : List Str) (rest : List (Item F)) :
    mastersDefined d (Item.objectEnd :: rest) = mastersDefined d rest := rfl

theorem mastersDefined_attributeBegin {F : Type} (d : List Str) (rest : List (Item F)) :
    mastersDefined d (Item.attributeBegin :: rest) = mastersDefined d rest := rfl

theorem mastersDefined_attributeEnd {F : Type} (d : List Str) (rest : List (Item F)) :
    mastersDefined d (Item.attributeEnd :: rest) = mastersDefined d rest := rfl

theorem mastersDefined_identifierName {F : Type} (d : List Str) (t : Str)
    (rest : List (Item F)) :
    mastersDefined d (Item.identifierName t :: rest) = mastersDefined d rest := rfl

theorem mastersDefined_concatTransform {F : Type} (d : List Str) (m : List F)
    (rest : List (Item F)) :
    mastersDefined d (Item.concatTransform m :: rest) = mastersDefined d rest := rfl

/-- The masters loop writes one definition for each archive: after what it adds, every
archive is defined. -/
theorem archiveMasters_defined {D F : Type} (env : Env D F) (elementName : Str)
    (materials : StrMap) (archives : List (Json D)) (w w1 : World F)
    (h : archiveMasters env elementName materials archives w = Except.ok w1) :
    ∃ (added : List (Item F)) (names : List Str), w1.ostr = w.ostr ++ added ∧
      archives.map Json.getString = names.map some ∧
      ∀ (defined : List Str) (tail : List (Item F)),
        mastersDefined defined (added ++ tail) = mastersDefined (names.reverse ++ defined) tail := by
  induction archives generalizing w with
  | nil =>
    simp only [archiveMasters, Except.ok.injEq] at h
    subst h
    exact ⟨[], [], by simp, rfl, fun _ _ => rfl⟩
  | cons i rest ih =>
    rw [archiveMasters] at h
    cases hs : i.getString with
    | none => rw [hs] at h; simp at h
    | some s =>
      rw [hs] at h
      simp only [] at h
      obtain ⟨added, names, hostr, hnames, hdef⟩ := ih _ h
      refine ⟨[Item.objectBegin s, Item.readArchive (ribName s), Item.objectEnd] ++ added,
        s :: names, ?_, ?_, ?_⟩
      · rw [hostr]
        simp [World.put, objFile_master_ostr]
      · simp [hs, hnames]
      · intro defined tail
        simp only [List.cons_append, List.nil_append, mastersDefined_objectBegin,
          mastersDefined_readArchive, mastersDefined_objectEnd, hdef, List.reverse_cons,
          List.append_assoc]

/-- The instances of one master: what is added needs the master only. -/
theorem placeInstances_defined {D F : Type} (lib : Lib D F) (master : Str)
    (ks : List (Str × Json D)) (w w1 : World F)
    (h : placeInstances lib master ks w = Except.ok w1) :
    ∃ added, w1.ostr = w.ostr ++ added ∧
      ∀ (defined : List Str) (tail : List (Item F)), master ∈ defined →
        mastersDefined defined (added ++ tail) = mastersDefined defined tail := by
  induction ks generalizing w with
  | nil =>
    simp only [placeInstances, Except.ok.injEq] at h
    subst h
    exact ⟨[], by simp, fun _ _ _ => rfl⟩
  | cons k rest ih =>
    rw [placeInstances] at h
    simp only [transformOf] at h
    cases hm : k.2.getFloats lib with
    | none => rw [hm] at h; simp at h
    | some matrix =>
      rw [hm] at h
      simp only [outputTransform] at h
      by_cases h16 : 16 ≤ matrix.length
      · rw [if_pos h16] at h
        simp only [] at h
        obtain ⟨added, hostr, hdef⟩ := ih _ h
        refine ⟨[Item.attributeBegin, Item.identifierName k.1,
          Item.concatTransform (matrix.take 16), Item.objectInstance master,
          Item.attributeEnd] ++ added, ?_, ?_⟩
        · rw [hostr]
          simp [World.put]
        · intro defined tail hmem
          simp only [List.cons_append, List.nil_append, mastersDefined_attributeBegin,
            mastersDefined_identifierName, mastersDefined_concatTransform,
            mastersDefined_objectInstance, mastersDefined_attributeEnd, hmem, decide_True,
            Bool.true_and]
          exact hdef defined tail hmem
      · rw [if_neg h16] at h
        simp at h

/-- The instance table: what is added needs the masters it names only. -/
theorem instanceTable_defined {D F : Type} (lib : Lib D F) (table : List (Str × Json D))
    (w w1 : World F) (h : instanceTable lib table w = Except.ok w1) :
    ∃ added, w1.ostr = w.ostr ++ added ∧
      ∀ (defined : List Str) (tail : List (Item F)), (∀ i ∈ table, i.1 ∈ defined) →
        mastersDefined defined (added ++ tail) = mastersDefined defined tail := by
  induction table generalizing w with
  | nil =>
    simp only [instanceTable, Except.ok.injEq] at h
    subst h
    exact ⟨[], by simp, fun _ _ _ => rfl⟩
  | cons i rest ih =>
    rw [instanceTable] at h
    cases hi : i.2.items with
    | none => rw [hi] at h; simp at h
    | some instances =>
      rw [hi] at h
      simp only [] at h
      cases hp : placeInstances lib i.1 instances w with
      | error e => rw [hp] at h; simp at h
      | ok w2 =>
        rw [hp] at h
        simp only [] at h
        obtain ⟨a1, ho1, hd1⟩ := placeInstances_defined lib i.1 instances w w2 hp
        obtain ⟨a2, ho2, hd2⟩ := ih _ h
        refine ⟨a1 ++ a2, by rw [ho2, ho1, List.append_assoc], ?_⟩
        intro defined tail hall
        rw [List.append_assoc, hd1 defined _ (hall i (List.mem_cons_self _ _)),
          hd2 defined tail (fun x hx => hall x (List.mem_cons_of_mem _ hx))]

/-- C19, amended: when every master the instance file names is one of the archives of the
primitive, every `ObjectInstance` that `instancedArchive` writes names a master whose
`ObjectBegin` it wrote earlier: the definitions of all archives precede all instances.
The function itself makes no check of the instance file. -/
theorem archive_masters_defined {D F : Type} (env : Env D F) (elementName primName : Str)
    (j : Json D) (materials : StrMap) (w w1 : World F) (archives : Json D)
    (archiveFilename : Str) (archiveFileJSON : Json D) (table : List (Str × Json D))
    (harch : j.sub "archives".toList = Except.ok archives)
    (hname : j.atKey "jsonFile".toList = Except.ok (Json.str archiveFilename))
    (hfile : env.jsonFile archiveFilename = some archiveFileJSON)
    (htable : archiveFileJSON.items = some table)
    (hsub : ∀ i ∈ table, Json.str i.1 ∈ archives.values)
    (h : instancedArchive env elementName primName j materials w = Except.ok w1) :
    ∃ added, w1.ostr = w.ostr ++ added ∧ mastersDefined [] added = true := by
  unfold instancedArchive at h
  simp only [harch, hname, Json.asString, Json.getString, hfile, htable] at h
  cases hm : archiveMasters env elementName materials archives.values
      (w.put (Item.comment ("begin instance archive ".toList ++ primName))) with
  | error e => rw [hm] at h; simp at h
  | ok w2 =>
    rw [hm] at h
    simp only [] at h
    cases ht : instanceTable env.lib table (w2.put (Item.comment "begin instances ".toList)) with
    | error e => rw [ht] at h; simp at h
    | ok w4 =>
      rw [ht] at h
      simp only [Except.ok.injEq] at h
      subst h
      obtain ⟨a1, names, ho1, hnames, hd1⟩ := archiveMasters_defined env elementName materials
        archives.values _ w2 hm
      obtain ⟨a2, ho2, hd2⟩ := instanceTable_defined env.lib table _ w4 ht
      have hall : ∀ i ∈ table, i.1 ∈ names.reverse ++ [] := by
        intro i hi
        have h1 := List.mem_map_of_mem Json.getString (hsub i hi)
        rw [hnames] at h1
        simpa [Json.getString] using h1
      refine ⟨[Item.comment ("begin instance archive ".toList ++ primName)] ++ a1 ++
        [Item.comment "begin instances ".toList] ++ a2 ++
        [Item.comment "end instances ".toList,
          Item.comment ("end instance archive ".toList ++
            env.lib.dump (Json.str archiveFilename))], ?_, ?_⟩
      · simp [World.put, ho2, ho1]
      · simp only [List.cons_append, List.nil_append, List.append_assoc,
          mastersDefined_comment, hd1]
        rw [hd2 _ _ hall]
        rfl

/-- C19, amended, on the sample primitive with an instance file that places an instance
of the archive `a.obj`. -/
theorem archive_masters_defined_witness :
    ∃ w1,
      instancedArchive (milliEnv [("inst.json".toList, sampleInstances)] []) "e".toList
        "prim".toList sampleArchivePrim [] World.init = Except.ok w1 ∧
      ∃ added, w1.ostr = (World.init : World Int).ostr ++ added ∧
        mastersDefined [] added = true :=
  ⟨_, rfl,
    archive_masters_defined (milliEnv [("inst.json".toList, sampleInstances)] []) "e".toList
      "prim".toList sampleArchivePrim [] World.init _
      (Json.arr [Json.str "a.obj".toList]) "inst.json".toList sampleInstances
      [("a.obj".toList, Json.obj [("i0".toList, identityMatrix)])]
      rfl rfl rfl rfl
      (by intro i hi; simp only [List.mem_singleton] at hi; subst hi; exact List.mem_cons_self _ _)
      rfl⟩

/-! C20: a manifest without a required field. -/

/-- C20, counterexample: for a manifest without `geomObjFile` whose material file has a
material with an unknown key, `element` returns with two lines on `cerr`, the warning of the
material translator and the text of the exception; and when the material file cannot be
parsed, the exception is not `out_of_range` and leaves `element`. -/
theorem missing_geometry_two_diagnostics :
    element (milliEnv [("m.json".toList, materialsWithUnknownKey)] [])
        manifestWithoutGeometry World.init =
      Except.ok
        { ostr := [Item.objectBegin "e".toList, Item.identifierObject "e".toList]
          cerr := ["Warning: unknown material key bogus".toList,
            "[json.exception.out_of_range.403] key 'geomObjFile' not found".toList]
          files := [] } ∧
    element (milliEnv [] []) manifestWithoutGeometry World.init =
      Except.error (Thrown.exception,
        { ostr := [Item.objectBegin "e".toList, Item.identifierObject "e".toList]
          cerr := []
          files := [] }) :=
  ⟨rfl, rfl⟩

/-- C20, amended: for a manifest that is an object, `element` returns normally in each of
these cases, with the text of the `out_of_range` exception as the last line on `cerr`:
without `name`, nothing is written to the main stream; with a string `name` and without
`matFile`, only `ObjectBegin` and the identifier are written; with string `name` and
`matFile`, a material file that is parsed and translated without an exception, and without
`geomObjFile`, the same two lines are written and the warnings of the material translator
come before the text of the exception.  No `ObjectEnd` and no `ObjectInstance` is
written. -/
theorem missing_field_aborts_element {D F : Type} (env : Env D F)
    (members : List (Str × Json D)) (w : World F) (name matFilename : Str)
    (matFileJSON : Json D) (t : Tables) :
    (members.lookup "name".toList = none →
      element env (Json.obj members) w = Except.ok (w.warn (env.what "name".toList))) ∧
    (members.lookup "name".toList = some (Json.str name) →
      members.lookup "matFile".toList = none →
      element env (Json.obj members) w =
        Except.ok
          { ostr := w.ostr ++ [Item.objectBegin name, Item.identifierObject name]
            cerr := w.cerr ++ [env.what "matFile".toList]
            files := w.files }) ∧
    (members.lookup "name".toList = some (Json.str name) →
      members.lookup "matFile".toList = some (Json.str matFilename) →
      env.jsonFile matFilename = some matFileJSON →
      materialFile env.lib name matFilename matFileJSON
        { materials := [], assignments := [], cerr := [] } = Except.ok t →
      members.lookup "geomObjFile".toList = none →
      element env (Json.obj members) w =
        Except.ok
          { ostr := w.ostr ++ [Item.objectBegin name, Item.identifierObject name]
            cerr := w.cerr ++ t.cerr ++ [env.what "geomObjFile".toList]
            files := w.files }) := by
  refine ⟨?_, ?_, ?_⟩
  · intro h1
    unfold element elementBody
    simp only [Json.atKey, h1, Except.bind]
  · intro h1 h2
    unfold element elementBody
    simp only [Json.atKey, h1, h2, Except.bind, Json.asString, Json.getString]
    simp [World.put, World.warn]
  · intro h1 h2 h3 h4 h5
    unfold element elementBody
    simp only [Json.atKey, h1, h2, h3, h4, h5, Except.bind, Json.asString, Json.getString]
    simp [World.put, World.warn]

/-- C20, amended, on three sample manifests: without `name`, without `matFile`, and without
`geomObjFile`. -/
theorem missing_field_aborts_element_witness :
    element (milliEnv [("m.json".toList, materialsWithUnknownKey)] [])
        (Json.obj [("matFile".toList, Json.str "m.json".toList)]) World.init =
      Except.ok (World.init.warn (whatText "name".toList)) ∧
    element (milliEnv [("m.json".toList, materialsWithUnknownKey)] [])
        (Json.obj [("name".toList, Json.str "e".toList)]) World.init =
      Except.ok
        { ostr := [] ++ [Item.objectBegin "e".toList, Item.identifierObject "e".toList]
          cerr := [] ++ [whatText "matFile".toList]
          files := [] } ∧
    element (milliEnv [("m.json".toList, materialsWithUnknownKey)] [])
        manifestWithoutGeometry World.init =
      Except.ok
        { ostr := [] ++ [Item.objectBegin "e".toList, Item.identifierObject "e".toList]
          cerr := [] ++ ["Warning: unknown material key bogus".toList] ++
            [whatText "geomObjFile".toList]
          files := [] } :=
  ⟨(missing_field_aborts_element (milliEnv [("m.json".toList, materialsWithUnknownKey)] [])
      [("matFile".toList, Json.str "m.json".toList)] World.init [] [] Json.null
      { materials := [], assignments := [], cerr := [] }).1 rfl,
    (missing_field_aborts_element (milliEnv [("m.json".toList, materialsWithUnknownKey)] [])
      [("name".toList, Json.str "e".toList)] World.init "e".toList [] Json.null
      { materials := [], assignments := [], cerr := [] }).2.1 rfl rfl,
    (missing_field_aborts_element (milliEnv [("m.json".toList, materialsWithUnknownKey)] [])
      [("matFile".toList, Json.str "m.json".toList), ("name".toList, Json.str "e".toList)]
      World.init "e".toList "m.json".toList materialsWithUnknownKey
      { materials := [("mat".toList, "    Bxdf \"PxrSurface\" \"mat\"".toList)],
        assignments := [],
        cerr := ["Warning: unknown material key bogus".toList] }).2.2 rfl rfl rfl rfl rfl⟩

/-! C21: which failures the handler of `element` catches. -/

/-- The body of `element` after its instanced primitives, for a manifest with the required
fields. -/
theorem elementBody_primitives_ok {D F : Type} (env : Env D F)
    (members : List (Str × Json D)) (w : World F) (name matFilename : Str)
    (matFileJSON : Json D) (t : Tables) (filename : Str) (w4 : World F)
    (h1 : members.lookup "name".toList = some (Json.str name))
    (h2 : members.lookup "matFile".toList = some (Json.str matFilename))
    (h3 : env.jsonFile matFilename = some matFileJSON)
    (h4 : materialFile env.lib name matFilename matFileJSON
      { materials := [], assignments := [], cerr := [] } = Except.ok t)
    (h5 : members.lookup "geomObjFile".toList = some (Json.str filename))
    (h6 : primitivesOf env name members t (afterGeometry env name filename t w) =
      Except.ok w4) :
    elementBody env (Json.obj members) w =
      match (match members.lookup "transformMatrix".toList with
        | some transformMatrix =>
          if transformMatrix.isNull then
            Except.ok (((w4.put Item.objectEnd).put Item.attributeBegin).put
              (Item.identifierName name))
          else
            transformOf env.lib transformMatrix
              (((w4.put Item.objectEnd).put Item.attributeBegin).put
                (Item.identifierName name))
        | none => Except.ok ((w4.put Item.objectEnd).put Item.attributeBegin)) with
      | Except.error e => Except.error e
      | Except.ok w7 =>
        copiesOf env name members t
          ((w7.put (Item.objectInstance name)).put Item.attributeEnd) := by
  unfold elementBody
  simp only [Json.atKey, h1, h2, h3, h4, h5, Except.bind, Json.asString, Json.getString,
    Json.find]
  unfold primitivesOf afterGeometry at h6
  simp only [World.put, List.append_assoc, List.cons_append, List.nil_append] at h6 ⊢
  rw [h6]
  simp only [copiesOf, World.put, List.append_assoc, List.cons_append, List.nil_append]

theorem element_of_body_ok {D F : Type} (env : Env D F) (j : Json D) (w w1 : World F)
    (h : elementBody env j w = Except.ok w1) : element env j w = Except.ok w1 := by
  unfold element
  rw [h]

/-- C22. For a manifest with the required fields whose geometry and instanced primitives
are translated, leaving the world `w4`, `element` closes the object definition and writes one
placement block: `AttributeBegin`, then nothing when `transformMatrix` is absent, the
identifier alone when it is null, the identifier and one `ConcatTransform` when it is a
matrix of 16 numbers, then one `ObjectInstance` of the name of the element and
`AttributeEnd`; the instanced copies follow, and without them `element` returns there. -/
theorem element_placement {D F : Type} (env : Env D F)
    (members : List (Str × Json D)) (w : World F) (name matFilename : Str)
    (matFileJSON : Json D) (t : Tables) (filename : Str) (w4 : World F)
    (h1 : members.lookup "name".toList = some (Json.str name))
    (h2 : members.lookup "matFile".toList = some (Json.str matFilename))
    (h3 : env.jsonFile matFilename = some matFileJSON)
    (h4 : materialFile env.lib name matFilename matFileJSON
      { materials := [], assignments := [], cerr := [] } = Except.ok t)
    (h5 : members.lookup "geomObjFile".toList = some (Json.str filename))
    (h6 : primitivesOf env name members t (afterGeometry env name filename t w) =
      Except.ok w4) :
    (members.lookup "transformMatrix".toList = none →
      elementBody env (Json.obj members) w =
        copiesOf env name members t
          { w4 with ostr := w4.ostr ++ [Item.objectEnd, Item.attributeBegin,
              Item.objectInstance name, Item.attributeEnd] } ∧
      (members.lookup "instancedCopies".toList = none →
        element env (Json.obj members) w =
          Except.ok
            { w4 with ostr := w4.ostr ++ [Item.objectEnd, Item.attributeBegin,
                Item.objectInstance name, Item.attributeEnd] })) ∧
    (members.lookup "transformMatrix".toList = some Json.null →
      elementBody env (Json.obj members) w =
        copiesOf env name members t
          { w4 with ostr := w4.ostr ++ [Item.objectEnd, Item.attributeBegin,
              Item.identifierName name, Item.objectInstance name, Item.attributeEnd] } ∧
      (members.lookup "instancedCopies".toList = none →
        element env (Json.obj members) w =
          Except.ok
            { w4 with ostr := w4.ostr ++ [Item.objectEnd, Item.attributeBegin,
                Item.identifierName name, Item.objectInstance name, Item.attributeEnd] })) ∧
    (∀ transformMatrix matrix,
      members.lookup "transformMatrix".toList = some transformMatrix →
      transformMatrix.isNull = false → transformMatrix.getFloats env.lib = some matrix →
      16 ≤ matrix.length →
      elementBody env (Json.obj members) w =
        copiesOf env name members t
          { w4 with ostr := w4.ostr ++ [Item.objectEnd, Item.attributeBegin,
              Item.identifierName name, Item.concatTransform (matrix.take 16),
              Item.objectInstance name, Item.attributeEnd] } ∧
      (members.lookup "instancedCopies".toList = none →
        element env (Json.obj members) w =
          Except.ok
            { w4 with ostr := w4.ostr ++ [Item.objectEnd, Item.attributeBegin,
                Item.identifierName name, Item.concatTransform (matrix.take 16),
                Item.objectInstance name, Item.attributeEnd] })) := by
  have hb := elementBody_primitives_ok env members w name matFilename matFileJSON t filename w4
    h1 h2 h3 h4 h5 h6
  have hfin : ∀ w8 : World F, elementBody env (Json.obj members) w =
      copiesOf env name members t w8 →
      members.lookup "instancedCopies".toList = none →
      element env (Json.obj members) w = Except.ok w8 := by
    intro w8 he hc
    apply element_of_body_ok
    rw [he]
    unfold copiesOf
    rw [hc]
  refine ⟨fun hm => ?_, fun hm => ?_, fun transformMatrix matrix hm hnn hfl hlen => ?_⟩
  · have he : elementBody env (Json.obj members) w =
        copiesOf env name members t
          { w4 with ostr := w4.ostr ++ [Item.objectEnd, Item.attributeBegin,
              Item.objectInstance name, Item.attributeEnd] } := by
      rw [hb, hm]
      simp [World.put]
    exact ⟨he, hfin _ he⟩
  · have he : elementBody env (Json.obj members) w =
        copiesOf env name members t
          { w4 with ostr := w4.ostr ++ [Item.objectEnd, Item.attributeBegin,
              Item.identifierName name, Item.objectInstance name, Item.attributeEnd] } := by
      rw [hb, hm]
      simp [World.put, Json.isNull]
    exact ⟨he, hfin _ he⟩
  · have he : elementBody env (Json.obj members) w =
        copiesOf env name members t
          { w4 with ostr := w4.ostr ++ [Item.objectEnd, Item.attributeBegin,
              Item.identifierName name, Item.concatTransform (matrix.take 16),
              Item.objectInstance name, Item.attributeEnd] } := by
      rw [hb, hm]
      simp [World.put, hnn, transformOf, hfl, outputTransform, hlen]
    exact ⟨he, hfin _ he⟩

/-- C22 on the sample manifest with the identity matrix as transform. -/
theorem element_placement_witness :
    element plainEnv (manifestWithTransform identityMatrix) World.init =
      Except.ok
        { afterGeometry plainEnv "e".toList "g.obj".toList
            { materials := [], assignments := [], cerr := [] } World.init with
          ostr := (afterGeometry plainEnv "e".toList "g.obj".toList
              { materials := [], assignments := [], cerr := [] } World.init).ostr ++
            [Item.objectEnd, Item.attributeBegin, Item.identifierName "e".toList,
              Item.concatTransform
                (List.take 16
                  [1000, 0, 0, 0, 0, 1000, 0, 0, 0, 0, 1000, 0, 0, 0, 0, 1000]),
              Item.objectInstance "e".toList, Item.attributeEnd] } :=
  ((element_placement plainEnv
    [("geomObjFile".toList, Json.str "g.obj".toList),
      ("matFile".toList, Json.str "m.json".toList), ("name".toList, Json.str "e".toList),
      ("transformMatrix".toList, identityMatrix)]
    World.init "e".toList "m.json".toList (Json.obj [])
    { materials := [], assignments := [], cerr := [] } "g.obj".toList _
    rfl rfl rfl rfl rfl rfl).2.2 identityMatrix
      [1000, 0, 0, 0, 0, 1000, 0, 0, 0, 0, 1000, 0, 0, 0, 0, 1000] rfl rfl rfl
      (by decide)).2 rfl

/-! C23: the block of an instanced copy. -/

theorem copies_append {D F : Type} (env : Env D F) (elementName : Str)
    (materials assignments : StrMap) (pre post : List (Str × Json D)) (w : World F) :
    copies env elementName materials assignments (pre ++ post) w =
      match copies env elementName materials assignments pre w with
      | Except.ok w1 => copies env elementName materials assignments post w1
      | Except.error e => Except.error e := by
  induction pre generalizing w with
  | nil => rfl
  | cons k rest ih =>
    rw [List.cons_append, copies, copies]
    cases k.2.subMut "transformMatrix".toList with
    | error t => rfl
    | ok transformMatrix =>
      simp only []
      cases (if transformMatrix.isNull = true then Except.ok (w.put Item.attributeBegin)
        else transformOf env.lib transformMatrix (w.put Item.attributeBegin)) with
      | error e => rfl
      | ok w2 =>
        simp only []
        cases k.2.find "geomObjFile".toList with
        | none => exact ih _
        | some g =>
          simp only []
          cases (k.2.atKey "geomObjFile".toList).bind Json.asString with
          | error t => rfl
          | ok filename =>
            simp only []
            cases (match k.2.find "instancedPrimitiveJsonFiles".toList with
              | some p => instancedPrimitives env k.1 p materials assignments
                  (objFile env k.1 filename materials false w2)
              | none => Except.ok (objFile env k.1 filename materials false w2)) with
            | error e => rfl
            | ok w4 => exact ih _

theorem copyTransform_ok {D F : Type} (env : Env D F) (copy : Json D) (w1 w2 : World F)
    (h : copyTransform env copy w1 = Except.ok w2) :
    w2 = w1 ∨ ∃ matrix, w2 = w1.put (Item.concatTransform matrix) := by
  unfold copyTransform at h
  cases hs : copy.subMut "transformMatrix".toList with
  | error t => rw [hs] at h; simp at h
  | ok transformMatrix =>
    rw [hs] at h
    simp only [] at h
    by_cases hn : transformMatrix.isNull = true
    · rw [if_pos hn] at h
      simp only [Except.ok.injEq] at h
      exact Or.inl h.symm
    · rw [if_neg hn] at h
      unfold transformOf at h
      cases hf : transformMatrix.getFloats env.lib with
      | none => rw [hf] at h; simp at h
      | some matrix =>
        rw [hf] at h
        simp only [outputTransform] at h
        by_cases h16 : 16 ≤ matrix.length
        · rw [if_pos h16] at h
          simp only [Except.ok.injEq] at h
          exact Or.inr ⟨_, h.symm⟩
        · rw [if_neg h16] at h
          simp at h

theorem copies_step {D F : Type} (env : Env D F) (elementName : Str)
    (materials assignments : StrMap) (k : Str × Json D) (rest : List (Str × Json D))
    (w w2 : World F) (hT : copyTransform env k.2 (w.put Item.attributeBegin) = Except.ok w2) :
    copies env elementName materials assignments (k :: rest) w =
      match k.2.find "geomObjFile".toList with
      | some _ =>
        match (k.2.atKey "geomObjFile".toList).bind Json.asString with
        | Except.error t => Except.error (t, w2)
        | Except.ok filename =>
          match (match k.2.find "instancedPrimitiveJsonFiles".toList with
            | some p => instancedPrimitives env k.1 p materials assignments
                (objFile env k.1 filename materials false w2)
            | none => Except.ok (objFile env k.1 filename materials false w2)) with
          | Except.error e => Except.error e
          | Except.ok w4 =>
            copies env elementName materials assignments rest (w4.put Item.attributeEnd)
      | none =>
        copies env elementName materials assignments rest
          (((w2.put (Item.identifierName k.1)).put (Item.objectInstance elementName)).put
            Item.attributeEnd) := by
  rw [copies]
  unfold copyTransform at hT
  cases hs : k.2.subMut "transformMatrix".toList with
  | error t => rw [hs] at hT; simp at hT
  | ok transformMatrix =>
    rw [hs] at hT
    simp only [] at hT ⊢
    rw [hT]

/-- C23. One pass of the loop of `element` over `instancedCopies`, for the copy
`instanceName` after the copies `pre`, writes one block: `AttributeBegin`, the transform of
the copy when it has one, then either the identifier of the copy and one `ObjectInstance` of
the name of the element, when the copy has no `geomObjFile`, or the translation of that
geometry file under the name of the copy followed by its instanced primitives, with no
`ObjectInstance` of the element written by the pass, and then `AttributeEnd`; the loop goes
on with the copies `post`. -/
theorem instanced_copy_block {D F : Type} (env : Env D F) (elementName : Str)
    (materials assignments : StrMap) (pre post : List (Str × Json D)) (instanceName : Str)
    (copy : Json D) (w w1 w2 : World F)
    (hpre : copies env elementName materials assignments pre w = Except.ok w1)
    (hT : copyTransform env copy (w1.put Item.attributeBegin) = Except.ok w2) :
    (∃ transform, w2 = { w1 with ostr := w1.ostr ++ Item.attributeBegin :: transform } ∧
      (transform = [] ∨ ∃ matrix, transform = [Item.concatTransform matrix])) ∧
    (copy.find "geomObjFile".toList = none →
      copies env elementName materials assignments (pre ++ (instanceName, copy) :: post) w =
        copies env elementName materials assignments post
          { w2 with ostr := w2.ostr ++ [Item.identifierName instanceName,
              Item.objectInstance elementName, Item.attributeEnd] }) ∧
    (∀ filename, copy.find "geomObjFile".toList = some (Json.str filename) →
      (objFile env instanceName filename materials false w2).ostr =
        w2.ostr ++ [Item.comment ("begin objFile ".toList ++ filename),
          Item.readArchive (ribName filename),
          Item.comment ("end objFile ".toList ++ filename)] ∧
      (copy.find "instancedPrimitiveJsonFiles".toList = none →
        copies env elementName materials assignments (pre ++ (instanceName, copy) :: post) w =
          copies env elementName materials assignments post
            ((objFile env instanceName filename materials false w2).put Item.attributeEnd)) ∧
      (∀ p w4, copy.find "instancedPrimitiveJsonFiles".toList = some p →
        instancedPrimitives env instanceName p materials assignments
          (objFile env instanceName filename materials false w2) = Except.ok w4 →
        copies env elementName materials assignments (pre ++ (instanceName, copy) :: post) w =
          copies env elementName materials assignments post (w4.put Item.attributeEnd))) := by
  have hstep := copies_step env elementName materials assignments (instanceName, copy) post w1
    w2 hT
  have happ : copies env elementName materials assignments
      (pre ++ (instanceName, copy) :: post) w =
      copies env elementName materials assignments ((instanceName, copy) :: post) w1 := by
    rw [copies_append, hpre]
  refine ⟨?_, ?_, ?_⟩
  · rcases copyTransform_ok env copy _ w2 hT with h | ⟨matrix, h⟩
    · exact ⟨[], by rw [h]; simp [World.put], Or.inl rfl⟩
    · exact ⟨[Item.concatTransform matrix], by rw [h]; simp [World.put], Or.inr ⟨matrix, rfl⟩⟩
  · intro hg
    rw [happ, hstep]
    simp only [hg]
    simp [World.put]
  · intro filename hg
    have hat : (copy.atKey "geomObjFile".toList).bind Json.asString = Except.ok filename := by
      cases copy with
      | obj members =>
        simp only [Json.find] at hg
        simp only [Json.atKey, hg, Except.bind, Json.asString, Json.getString]
      | null => simp [Json.find] at hg
      | bool b => simp [Json.find] at hg
      | num d => simp [Json.find] at hg
      | str s => simp [Json.find] at hg
      | arr items => simp [Json.find] at hg
    refine ⟨by simp [objFile, World.put], ?_, ?_⟩
    · intro hp
      rw [happ, hstep]
      simp only [hg, hat, hp]
    · intro p w4 hp hw4
      rw [happ, hstep]
      simp only [hg, hat, hp, hw4]

/-- C23 on a sample copy without geometry of its own: one block with the transform, the
identifier of the copy and one `ObjectInstance` of the element `e`. -/
theorem instanced_copy_block_witness :
    copies plainEnv "e".toList [] []
        ([] ++ ("c1".toList, Json.obj [("transformMatrix".toList, identityMatrix)]) :: [])
        World.init =
      copies plainEnv "e".toList [] [] []
        { ostr := [Item.attributeBegin,
            Item.concatTransform [1000, 0, 0, 0, 0, 1000, 0, 0, 0, 0, 1000, 0, 0, 0, 0, 1000],
            Item.identifierName "c1".toList, Item.objectInstance "e".toList,
            Item.attributeEnd]
          cerr := []
          files := [] } :=
  (instanced_copy_block plainEnv "e".toList [] [] [] [] "c1".toList
    (Json.obj [("transformMatrix".toList, identityMatrix)]) World.init World.init
    { ostr := [Item.attributeBegin,
        Item.concatTransform [1000, 0, 0, 0, 0, 1000, 0, 0, 0, 0, 1000, 0, 0, 0, 0, 1000]]
      cerr := []
      files := [] } rfl rfl).2.1 rfl

/-! Properties of every fragment `parseobj` writes. -/

theorem parseLine_ostr_cases {F : Type} (readFloat : Str → Option (F × Str))
    (materials : StrMap) (st : Streams F) (line : Str) :
    fragments (parseLine readFloat materials st line).ostr = fragments st.ostr ∨
    fragments (parseLine readFloat materials st line).ostr =
      fragments st.ostr ++ fragments (flushfaces st.s materials).1 := by
  by_cases hb : isBlank line = true
  · left
    rw [parseLine_blank readFloat materials st line hb]
  · by_cases hf : isFaceLine line = true
    · left
      rw [parseLine_face readFloat materials st line hf]
      cases faceOf (cstr (chomp line)) <;> rfl
    · right
      rw [(parseLine_other readFloat materials st line (by simpa using hb)
        (by simpa using hf)).2]
      rw [fragments_append, fragments_append]
      split <;> simp [fragments]

/-- A property that holds of what every flush writes from a state of the loop holds of every
fragment of the stream. -/
theorem readLines_forall {F : Type} (readFloat : Str → Option (F × Str)) (materials : StrMap)
    (Q : Fragment F → Prop)
    (hQ : ∀ s : objstate F, Inv s → ∀ frag ∈ fragments (flushfaces s materials).1, Q frag)
    (lines : List Str) : ∀ (st : Streams F), Inv st.s →
    (∀ frag ∈ fragments st.ostr, Q frag) →
    ∀ frag ∈ fragments (readLines readFloat materials st lines).ostr, Q frag := by
  induction lines with
  | nil => intro st _ h; exact h
  | cons l ls ih =>
    intro st hinv h
    rw [readLines_cons]
    apply ih _ (parseLine_inv readFloat materials st l hinv)
    intro frag hfrag
    rcases parseLine_ostr_cases readFloat materials st l with e | e
    · rw [e] at hfrag
      exact h frag hfrag
    · rw [e] at hfrag
      rcases List.mem_append.mp hfrag with hm | hm
      · exact h frag hm
      · exact hQ st.s hinv frag hm

theorem parseobj_forall {F : Type} (readFloat : Str → Option (F × Str)) (materials : StrMap)
    (Q : Fragment F → Prop)
    (hQ : ∀ s : objstate F, Inv s → ∀ frag ∈ fragments (flushfaces s materials).1, Q frag)
    (elementName : Str) (lines : List Str) :
    ∀ frag ∈ fragments (parseobj readFloat elementName materials lines).ostr, Q frag := by
  intro frag hfrag
  rw [parseobj_eq, fragments_append] at hfrag
  have hinit : Inv (Streams.init elementName : Streams F).s := (init_fresh elementName).inv
  rcases List.mem_append.mp hfrag with hm | hm
  · exact readLines_forall readFloat materials Q hQ lines _ hinit
      (fun f hf => absurd hf (List.not_mem_nil _)) frag hm
  · exact hQ _ (readLines_inv readFloat materials lines _ hinit) frag hm

/-- The fragments of `parseobj` are those of the maximal runs with an accepted face. -/
theorem parseobj_runs {F : Type} (readFloat : Str → Option (F × Str))
    (elementName : Str) (materials : StrMap) (lines : List Str) :
    (fragments (parseobj readFloat elementName materials lines).ostr).map
        (fun frag => (frag.facesize, frag.faceidx)) =
      (((faceRuns lines).map acceptedFaces).filter (fun faces => !faces.isEmpty)).map
        runFaces := by
  have hinit : Fresh (Streams.init elementName : Streams F).s := init_fresh elementName
  have hacc : Acc (Streams.init elementName : Streams F).s
      ((acceptedFaces []).map (fun f => (f.length : Int))) (zeroBased (corners [])) := by
    simpa [acceptedFaces, corners, zeroBased] using hinit.acc
  have h := readLines_fragments readFloat materials lines (Streams.init elementName) []
    hinit.inv hacc
  rw [← parseobj_eq] at h
  have h0 : fragments (Streams.init elementName : Streams F).ostr = [] := rfl
  rw [h0, List.map_nil, List.nil_append] at h
  exact h

/-! C24: the face index attribute. -/

theorem upTo_eq_range (n : Nat) :
    upTo ((n : Int) - 1) = (List.range n).map (fun (i : Nat) => (i : Int)) := by
  unfold upTo
  have : ((n : Int) - 1 + 1).toNat = n := by omega
  rw [this]

theorem flushfaces_faceindex {F : Type} (s : objstate F) (materials : StrMap) :
    ∀ frag ∈ fragments (flushfaces s materials).1,
      frag.facesize ≠ [] ∧
      frag.faceindex = (List.range frag.facesize.length).map (fun (i : Nat) => (i : Int)) := by
  intro frag hfrag
  unfold flushfaces at hfrag
  by_cases h : s.facesize ≠ []
  · rw [if_pos h] at hfrag
    simp only [fragments, List.filterMap_cons, List.filterMap_nil, List.mem_singleton] at hfrag
    subst hfrag
    exact ⟨h, upTo_eq_range _⟩
  · rw [if_neg h] at hfrag
    exact absurd hfrag (List.not_mem_nil _)

/-- C24. Every fragment `parseobj` writes has at least one face and its `__faceindex` array
is `0, 1, .., F - 1` for its `F` face sizes; the arrays of the fragments are, in order, those
of the maximal runs with an accepted face, each numbered from 0. -/
theorem faceindex_numbering {F : Type} (readFloat : Str → Option (F × Str))
    (elementName : Str) (materials : StrMap) (lines : List Str) :
    (∀ frag ∈ fragments (parseobj readFloat elementName materials lines).ostr,
      frag.facesize ≠ [] ∧
      frag.faceindex = (List.range frag.facesize.length).map (fun (i : Nat) => (i : Int))) ∧
    (fragments (parseobj readFloat elementName materials lines).ostr).map
        (fun frag => frag.faceindex) =
      (((faceRuns lines).map acceptedFaces).filter (fun faces => !faces.isEmpty)).map
        (fun faces => (List.range faces.length).map (fun (i : Nat) => (i : Int))) := by
  have hall := parseobj_forall readFloat materials
    (fun frag => frag.facesize ≠ [] ∧
      frag.faceindex = (List.range frag.facesize.length).map (fun (i : Nat) => (i : Int)))
    (fun s _ => flushfaces_faceindex s materials) elementName lines
  refine ⟨hall, ?_⟩
  have hruns := parseobj_runs readFloat elementName materials lines
  have h1 : (fragments (parseobj readFloat elementName materials lines).ostr).map
      (fun frag => frag.faceindex) =
      (fragments (parseobj readFloat elementName materials lines).ostr).map
        (fun frag => (List.range (frag.facesize, frag.faceidx).1.length).map
          (fun (i : Nat) => (i : Int))) := by
    apply List.map_congr_left
    intro frag hfrag
    exact (hall frag hfrag).2
  rw [h1]
  have h2 := congrArg (List.map (fun (p : List Int × List Int) =>
    (List.range p.1.length).map (fun (i : Nat) => (i : Int)))) hruns
  simp only [List.map_map] at h2
  have e1 : ((fun (p : List Int × List Int) =>
      (List.range p.1.length).map (fun (i : Nat) => (i : Int))) ∘
      fun (frag : Fragment F) => (frag.facesize, frag.faceidx)) =
      fun frag => (List.range (frag.facesize, frag.faceidx).1.length).map
        (fun (i : Nat) => (i : Int)) := rfl
  have e2 : ((fun (p : List Int × List Int) =>
      (List.range p.1.length).map (fun (i : Nat) => (i : Int))) ∘ runFaces) =
      fun faces => (List.range faces.length).map (fun (i : Nat) => (i : Int)) := by
    funext faces
    simp [runFaces]
  rw [e1, e2] at h2
  exact h2

/-! C25: two triangles and one material, end to end. -/

/-- C25, counterexample: for the sample geometry file, two triangles that share one position
with one normal for each corner and the material `red` with a bare `baseColor`, the one
fragment written has five positions, not four; its index list has six entries, its shading
block is the one diffuse color block and its face index array is `[0, 1]`. -/
theorem one_shared_vertex_five_positions :
    redTable =
      [("red".toList,
        "    Bxdf \"PxrSurface\" \"red\" \"color diffuseColor\" [1 0 0]".toList)] ∧
    ∃ frag, (parseobj readMilli "e".toList redTable fanLines).ostr = [Rib.attribute frag] ∧
      frag.polygons = true ∧ frag.P.length = 5 ∧ frag.faceidx = [0, 1, 2, 2, 3, 4] ∧
      frag.material =
        some "    Bxdf \"PxrSurface\" \"red\" \"color diffuseColor\" [1 0 0]".toList ∧
      frag.faceindex = [0, 1] :=
  ⟨rfl, _, rfl, rfl, rfl, rfl, rfl, rfl⟩

theorem substitute_of_not_mem (ptxfile block : Str) (h : '%' ∉ block) (n : Nat) :
    substitute ptxfile n block = block := by
  cases n with
  | zero => rfl
  | succ n =>
    unfold substitute strFind
    have : ¬ block.indexOf '%' < block.length := by
      rw [List.indexOf_lt_length]
      exact h
    rw [if_neg this]

/-- Lines without a face directive leave no fragment on the stream and no run pending. -/
theorem readLines_no_faces {F : Type} (readFloat : Str → Option (F × Str))
    (materials : StrMap) (lines : List Str) : ∀ (st : Streams F), Fresh st.s →
    fragments st.ostr = [] → (∀ l ∈ lines, isFaceLine l = false) →
    fragments (readLines readFloat materials st lines).ostr = [] := by
  induction lines with
  | nil => intro st _ h _; exact h
  | cons l ls ih =>
    intro st hfresh h hno
    rw [readLines_cons]
    have hl := hno l (List.mem_cons_self _ _)
    by_cases hb : isBlank l = true
    · rw [parseLine_blank readFloat materials st l hb]
      exact ih st hfresh h (fun x hx => hno x (List.mem_cons_of_mem _ hx))
    · have hb2 : isBlank l = false := by simpa using hb
      apply ih _ (parseLine_fresh readFloat materials st l hfresh.inv hb2 hl) _
        (fun x hx => hno x (List.mem_cons_of_mem _ hx))
      rw [(parseLine_other readFloat materials st l hb2 hl).2,
        flushfaces_empty st.s materials hfresh.1, fragments_append, fragments_append, h]
      split <;> rfl

theorem seen_shared (a1 a2 a3 b2 b3 : Int) (h : [a1, a2, a3, b2, b3].Nodup) :
    seen [a1 - 1, a2 - 1, a3 - 1, a3 - 1, b2 - 1, b3 - 1] =
      [a1 - 1, a2 - 1, a3 - 1, b2 - 1, b3 - 1] := by
  simp only [List.nodup_cons, List.mem_cons, List.mem_singleton, not_or, List.not_mem_nil,
    not_false_eq_true, List.nodup_nil, and_true] at h
  obtain ⟨⟨h12, h13, h14, h15⟩, ⟨h23, h24, h25⟩, ⟨h34, h35⟩, h45⟩ := h
  have e : ∀ x y : Int, x ≠ y → ¬ (y - 1 = x - 1) := fun x y hxy hh => hxy (by omega)
  have e2 : ∀ x y : Int, x ≠ y → ¬ (x - 1 = y - 1) := fun x y hxy hh => hxy (by omega)
  simp [seen, List.foldl, e _ _ h12, e _ _ h13, e _ _ h14, e _ _ h15, e _ _ h23, e _ _ h24,
    e _ _ h25, e _ _ h34, e _ _ h35, e _ _ h45, e2 _ _ h12, e2 _ _ h13, e2 _ _ h14, e2 _ _ h15,
    e2 _ _ h23, e2 _ _ h24, e2 _ _ h25, e2 _ _ h34, e2 _ _ h35, e2 _ _ h45]

theorem rk_shared (a1 a2 a3 b2 b3 : Int) (h : [a1, a2, a3, b2, b3].Nodup) :
    [a1 - 1, a2 - 1, a3 - 1, a3 - 1, b2 - 1, b3 - 1].map
        (rk [a1 - 1, a2 - 1, a3 - 1, a3 - 1, b2 - 1, b3 - 1]) = [0, 1, 2, 2, 3, 4] := by
  have hs := seen_shared a1 a2 a3 b2 b3 h
  simp only [List.nodup_cons, List.mem_cons, List.mem_singleton, not_or, List.not_mem_nil,
    not_false_eq_true, List.nodup_nil, and_true] at h
  obtain ⟨⟨h12, h13, h14, h15⟩, ⟨h23, h24, h25⟩, ⟨h34, h35⟩, h45⟩ := h
  have e : ∀ x y : Int, x ≠ y → ¬ (y - 1 = x - 1) := fun x y hxy hh => hxy (by omega)
  have e2 : ∀ x y : Int, x ≠ y → ¬ (x - 1 = y - 1) := fun x y hxy hh => hxy (by omega)
  simp [rk, hs, List.indexOf_cons, e _ _ h12, e _ _ h13, e _ _ h14, e _ _ h15, e _ _ h23,
    e _ _ h24, e _ _ h25, e _ _ h34, e _ _ h35, e _ _ h45, e2 _ _ h12, e2 _ _ h13, e2 _ _ h14,
    e2 _ _ h15, e2 _ _ h23, e2 _ _ h24, e2 _ _ h25, e2 _ _ h34, e2 _ _ h35, e2 _ _ h45]

/-- Two lists of distinct position indices with `k` indices in common reference
`A.length + B.length - k` zero-based positions. -/
theorem card_zeroBased_union (A B : List Int) (hA : A.Nodup) (hB : B.Nodup) :
    ((A ++ B).map (fun a => a - 1)).toFinset.card +
      (A.filter (fun a => decide (a ∈ B))).length = A.length + B.length := by
  have himg : ((A ++ B).map (fun a => a - 1)).toFinset =
      (A.toFinset ∪ B.toFinset).image (fun a => a - 1) := by
    ext v
    simp only [List.mem_toFinset, List.mem_map, List.mem_append, Finset.mem_image,
      Finset.mem_union]
  have hinj : Function.Injective (fun a : Int => a - 1) := fun x y h => by
    simp only at h
    omega
  have hinter : (A.filter (fun a => decide (a ∈ B))).length =
      (A.toFinset ∩ B.toFinset).card := by
    rw [← List.toFinset_card_of_nodup (hA.filter _)]
    congr 1
    ext v
    simp [List.mem_filter]
  rw [himg, Finset.card_image_of_injective _ hinj, hinter,
    Finset.card_union_add_card_inter, List.toFinset_card_of_nodup hA,
    List.toFinset_card_of_nodup hB]

/-- Two triangles whose one shared position is the last corner of the first and the first
corner of the second have five distinct position indices. -/
theorem shared_last_first (a1 a2 a3 b2 b3 : Int) (hA : [a1, a2, a3].Nodup)
    (hB : [a3, b2, b3].Nodup)
    (hshare : ([a1, a2, a3].filter (fun a => decide (a ∈ [a3, b2, b3]))).length = 1) :
    [a1, a2, a3, b2, b3].Nodup := by
  simp only [List.nodup_cons, List.mem_cons, List.mem_singleton, not_or, List.not_mem_nil,
    not_false_eq_true, List.nodup_nil, and_true] at hA hB ⊢
  obtain ⟨⟨h12, h13⟩, h23⟩ := hA
  obtain ⟨⟨h32, h33⟩, hb⟩ := hB
  have key : (a1 ≠ b2 ∧ a1 ≠ b3) ∧ a2 ≠ b2 ∧ a2 ≠ b3 := by
    by_cases e1 : a1 = a3 ∨ a1 = b2 ∨ a1 = b3
    · exfalso
      by_cases e2 : a2 = a3 ∨ a2 = b2 ∨ a2 = b3
      · simp [List.filter_cons, e1, e2] at hshare
      · simp [List.filter_cons, e1, e2] at hshare
    · by_cases e2 : a2 = a3 ∨ a2 = b2 ∨ a2 = b3
      · exfalso
        simp [List.filter_cons, e1, e2] at hshare
      · simp only [not_or] at e1 e2
        exact ⟨⟨e1.2.1, e1.2.2⟩, e2.2.1, e2.2.2⟩
  exact ⟨⟨h12, h13, key.1.1, key.1.2⟩, ⟨h23, key.2.1, key.2.2⟩, ⟨h32, h33⟩, hb⟩

/-- C25, amended: a geometry file made of lines `pre` without a face directive, which bind
the material `mname`, followed by a run with two accepted triangles, each with three
distinct position indices and exactly one position index of the first also a corner of the
second, translated with the table `material` builds for a bare `baseColor`, yields one
fragment: a polygon mesh with face sizes `[3, 3]`, five positions, six face-vertex indices,
the one shading block with the declaration and the diffuse color, and the face index array
`[0, 1]`; when the shared position is the last corner of the first triangle and the first
corner of the second, the six indices are `0 1 2 2 3 4`. -/
theorem two_triangles_end_to_end {D F : Type} (lib : Lib D F)
    (readFloat : Str → Option (F × Str)) (elementName mname : Str) (r g b : D) (out : MatOut)
    (pre run : List Str) (a1 a2 a3 b1 b2 b3 n1 n2 n3 n4 n5 n6 : Int)
    (hmat : material lib elementName mname
      (Json.obj [("baseColor".toList, Json.arr [Json.num r, Json.num g, Json.num b])]) [] =
        Except.ok out)
    (hpct : '%' ∉ mname ∧ '%' ∉ lib.dump (Json.num r) ∧ '%' ∉ lib.dump (Json.num g) ∧
      '%' ∉ lib.dump (Json.num b))
    (hpre : atBoundary pre = true)
    (hnoface : ∀ l ∈ pre, isFaceLine l = false)
    (hbound : (readLines readFloat [(mname, out.ostr)] (Streams.init elementName)
      pre).s.currentMaterial = mname)
    (hrun : faceRun run = true)
    (hfaces : acceptedFaces run =
      [[(a1, n1), (a2, n2), (a3, n3)], [(b1, n4), (b2, n5), (b3, n6)]])
    (hfirst : [a1, a2, a3].Nodup)
    (hsecond : [b1, b2, b3].Nodup)
    (hshare : ([a1, a2, a3].filter (fun a => decide (a ∈ [b1, b2, b3]))).length = 1) :
    ∃ frag,
      fragments (parseobj readFloat elementName [(mname, out.ostr)] (pre ++ run)).ostr =
        [frag] ∧
      frag.polygons = true ∧ frag.facesize = [3, 3] ∧ frag.P.length = 5 ∧
      frag.faceidx.length = 6 ∧
      (b1 = a3 → frag.faceidx = [0, 1, 2, 2, 3, 4]) ∧
      frag.material = some ("    Bxdf \"PxrSurface\" \"".toList ++ mname ++ "\"".toList ++
        (" \"color diffuseColor\" [".toList ++ lib.dump (Json.num r) ++ " ".toList ++
          lib.dump (Json.num g) ++ " ".toList ++ lib.dump (Json.num b) ++ "]".toList)) ∧
      frag.faceindex = [0, 1] := by
  have hout : out.ostr = "    Bxdf \"PxrSurface\" \"".toList ++ mname ++ "\"".toList ++
      (" \"color diffuseColor\" [".toList ++ lib.dump (Json.num r) ++ " ".toList ++
        lib.dump (Json.num g) ++ " ".toList ++ lib.dump (Json.num b) ++ "]".toList) := by
    have e : material lib elementName mname
        (Json.obj [("baseColor".toList, Json.arr [Json.num r, Json.num g, Json.num b])]) [] =
        Except.ok
          { ostr := "    Bxdf \"PxrSurface\" \"".toList ++ mname ++ "\"".toList ++
              (" \"color diffuseColor\" [".toList ++ lib.dump (Json.num r) ++ " ".toList ++
                lib.dump (Json.num g) ++ " ".toList ++ lib.dump (Json.num b) ++ "]".toList)
            assignments := []
            cerr := [] } := rfl
    rw [hmat] at e
    simp only [Except.ok.injEq] at e
    rw [e]
  have hno : '%' ∉ out.ostr := by
    rw [hout]
    obtain ⟨p1, p2, p3, p4⟩ := hpct
    simp only [List.mem_append, not_or]
    refine ⟨⟨⟨by decide, p1⟩, by decide⟩, ⟨⟨⟨⟨⟨⟨by decide, p2⟩, by decide⟩, p3⟩, by decide⟩,
      p4⟩, by decide⟩⟩
  obtain ⟨hacc, hframe⟩ := run_acc readFloat [(mname, out.ostr)] elementName pre run hpre hrun
  have hfs : (acceptedFaces run).map (fun f => (f.length : Int)) = [3, 3] := by
    rw [hfaces]; rfl
  have hcs : (zeroBased (corners run)).map Prod.fst =
      [a1 - 1, a2 - 1, a3 - 1, b1 - 1, b2 - 1, b3 - 1] := by
    simp [corners, hfaces, zeroBased]
  have hflush := flushfaces_acc _ [(mname, out.ostr)] _ _ hacc (by rw [hfs]; simp)
  have hfresh := fresh_at_boundary readFloat [(mname, out.ostr)] elementName pre hpre
  have hostr : (readLines readFloat [(mname, out.ostr)] (Streams.init elementName)
      (pre ++ run)).ostr =
      (readLines readFloat [(mname, out.ostr)] (Streams.init elementName) pre).ostr := by
    rw [readLines_append]
    exact (readLines_run readFloat [(mname, out.ostr)] run _ [] [] hrun hfresh.acc).2.2
  have hpre0 := readLines_no_faces readFloat [(mname, out.ostr)] pre
    (Streams.init elementName) (init_fresh elementName) rfl hnoface
  have hmatname : (readLines readFloat [(mname, out.ostr)] (Streams.init elementName)
      (pre ++ run)).s.currentMaterial = mname := by
    rw [hframe.2.2.2, hbound]
  have hfr : fragments (parseobj readFloat elementName [(mname, out.ostr)] (pre ++ run)).ostr =
      fragments (flushfaces (readLines readFloat [(mname, out.ostr)] (Streams.init elementName)
        (pre ++ run)).s [(mname, out.ostr)]).1 := by
    rw [parseobj_eq, fragments_append, hostr, hpre0]
    rfl
  rw [hflush] at hfr
  refine ⟨_, hfr, ?_, ?_, ?_, ?_, ?_, ?_, ?_⟩
  · simp only [hfs]
    rfl
  · exact hfs
  · have hcard := card_zeroBased_union [a1, a2, a3] [b1, b2, b3] hfirst hsecond
    rw [hshare] at hcard
    simp only [hcs, List.length_map, length_seen]
    simp only [List.cons_append, List.nil_append, List.map, List.length] at hcard
    omega
  · simp only [hcs]
    rfl
  · intro hb1
    subst hb1
    simp only [hcs]
    exact rk_shared a1 a2 b1 b2 b3 (shared_last_first a1 a2 b1 b2 b3 hfirst hsecond hshare)
  · simp only [hmatname, StrMap.find, if_true, Option.map_some']
    rw [substitute_of_not_mem _ _ hno, hout]
  · simp only [hfs]
    rfl

/-- C25, amended, on the sample geometry file and the material `red`. -/
theorem two_triangles_end_to_end_witness :
    ∃ frag,
      fragments (parseobj readMilli "e".toList
          [("red".toList,
            "    Bxdf \"PxrSurface\" \"red\" \"color diffuseColor\" [1 0 0]".toList)]
          (fanLines.take 13 ++ fanLines.drop 13)).ostr = [frag] ∧
      frag.polygons = true ∧ frag.facesize = [3, 3] ∧ frag.P.length = 5 ∧
      frag.faceidx.length = 6 ∧
      ((3 : Int) = 3 → frag.faceidx = [0, 1, 2, 2, 3, 4]) ∧
      frag.material = some ("    Bxdf \"PxrSurface\" \"".toList ++ "red".toList ++ "\"".toList ++
        (" \"color diffuseColor\" [".toList ++ milliLib.dump (Json.num 1000) ++ " ".toList ++
          milliLib.dump (Json.num 0) ++ " ".toList ++ milliLib.dump (Json.num 0) ++
          "]".toList)) ∧
      frag.faceindex = [0, 1] :=
  two_triangles_end_to_end milliLib readMilli "e".toList "red".toList 1000 0 0
    { ostr := "    Bxdf \"PxrSurface\" \"red\" \"color diffuseColor\" [1 0 0]".toList
      assignments := []
      cerr := [] }
    (fanLines.take 13) (fanLines.drop 13) 1 2 3 3 4 5 1 2 3 4 5 6
    rfl (by decide) (by decide) (by decide) rfl (by decide) rfl (by decide) (by decide)
    (by decide)

/-! C26: the sentinel coordinate. -/

theorem emitAt_ne_sentinel {F : Type} (xs : List (Float3 F)) (i : Int) :
    emitAt xs i ≠ Emit.sentinel := by
  unfold emitAt
  cases vecAt xs i <;> simp

theorem vecAt_lt {α : Type} (xs : List α) (i : Int) (h0 : 0 ≤ i) (h1 : i < (xs.length : Nat)) :
    ∃ v, vecAt xs i = some v := by
  unfold vecAt
  rw [if_pos h0]
  have : i.toNat < xs.length := by omega
  exact ⟨xs[i.toNat], by rw [List.get?_eq_getElem?]; exact List.getElem?_eq_getElem this⟩

theorem vecAt_bounds {α : Type} (xs : List α) (i : Int) (v : α) (h : vecAt xs i = some v) :
    0 ≤ i ∧ i < (xs.length : Nat) ∧ v ∈ xs := by
  unfold vecAt at h
  by_cases h0 : 0 ≤ i
  · rw [if_pos h0] at h
    have hlt : i.toNat < xs.length := by
      by_contra hc
      rw [List.get?_eq_none.mpr (by omega)] at h
      exact absurd h (by simp)
    exact ⟨h0, by omega, List.get?_mem h⟩
  · rw [if_neg h0] at h
    exact absurd h (by simp)

theorem rk_of_vecAt (xs : List Int) (i v : Int) (h : vecAt (seen xs) i = some v) :
    rk xs v = i := by
  unfold vecAt at h
  by_cases h0 : 0 ≤ i
  · rw [if_pos h0] at h
    have hlt : i.toNat < (seen xs).length := by
      by_contra hc
      rw [List.get?_eq_none.mpr (by omega)] at h
      exact absurd h (by simp)
    rw [List.get?_eq_get hlt] at h
    simp only [Option.some.injEq] at h
    unfold rk
    rw [← h]
    have := List.get_indexOf (nodup_seen xs) ⟨i.toNat, hlt⟩
    simp only [List.get_eq_getElem] at this ⊢
    rw [this]
    omega
  · rw [if_neg h0] at h
    exact absurd h (by simp)

/-- The tables of a state of the loop are inverse to each other and every local index below
`nverts` has a reverse mapping. -/
theorem core_bijection {F : Type} (s : objstate F) (xs : List Int) (h : Core s xs) :
    (∀ v i, s.Pmap.find v = some i ↔ s.Prevmap.find i = some v) ∧
    (∀ v i, s.Pmap.find v = some i → 0 ≤ i ∧ i < s.nverts) ∧
    (∀ i, 0 ≤ i → i < s.nverts → ∃ v, s.Prevmap.find i = some v) := by
  refine ⟨?_, ?_, ?_⟩
  · intro v i
    rw [h.pmap, h.prevmap]
    constructor
    · intro hv
      by_cases hm : v ∈ xs
      · rw [if_pos hm] at hv
        simp only [Option.some.injEq] at hv
        rw [← hv]
        simpa using vecAt_map_seen xs id v hm
      · rw [if_neg hm] at hv
        exact absurd hv (by simp)
    · intro hi
      have hb := vecAt_bounds _ _ _ hi
      have hm : v ∈ xs := (mem_seen xs v).mp hb.2.2
      rw [if_pos hm, rk_of_vecAt xs i v hi]
  · intro v i
    rw [h.pmap, h.nverts]
    intro hv
    by_cases hm : v ∈ xs
    · rw [if_pos hm] at hv
      simp only [Option.some.injEq] at hv
      rw [← hv]
      exact ⟨rk_nonneg xs v, by exact_mod_cast rk_lt xs v hm⟩
    · rw [if_neg hm] at hv
      exact absurd hv (by simp)
  · intro i h0 h1
    rw [h.prevmap]
    rw [h.nverts] at h1
    exact vecAt_lt _ _ h0 h1

theorem flushfaces_no_sentinel {F : Type} (s : objstate F) (materials : StrMap) (h : Inv s) :
    ∀ frag ∈ fragments (flushfaces s materials).1, Emit.sentinel ∉ frag.P := by
  intro frag hfrag
  obtain ⟨⟨fs, cs, hacc⟩, _⟩ := h
  by_cases hne : fs = []
  · rw [flushfaces_empty s materials (by rw [hacc.sizes, hne])] at hfrag
    exact absurd hfrag (List.not_mem_nil _)
  · rw [flushfaces_acc s materials fs cs hacc hne] at hfrag
    simp only [fragments, List.filterMap_cons, List.filterMap_nil, List.mem_singleton] at hfrag
    subst hfrag
    simp only [List.mem_map, not_exists, not_and]
    intro v _ hv
    exact emitAt_ne_sentinel _ _ hv

/-- C26. In the state after any lines, `Pmap` and `Prevmap` are inverse to each other, the
local indices bound are those from 0 to `nverts - 1`, each of which has a reverse mapping,
and every entry of `faceidx` is one of them; and no fragment `parseobj` writes has the
sentinel coordinate in its `P` array. -/
theorem sentinel_unreachable {F : Type} (readFloat : Str → Option (F × Str))
    (elementName : Str) (materials : StrMap) (lines : List Str) :
    (∀ v i,
      (readLines readFloat materials (Streams.init elementName) lines).s.Pmap.find v = some i ↔
      (readLines readFloat materials (Streams.init elementName) lines).s.Prevmap.find i =
        some v) ∧
    (∀ v i,
      (readLines readFloat materials (Streams.init elementName) lines).s.Pmap.find v = some i →
      0 ≤ i ∧ i < (readLines readFloat materials (Streams.init elementName) lines).s.nverts) ∧
    (∀ i, 0 ≤ i →
      i < (readLines readFloat materials (Streams.init elementName) lines).s.nverts →
      ∃ v, (readLines readFloat materials (Streams.init elementName) lines).s.Prevmap.find i =
        some v) ∧
    (∀ i ∈ (readLines readFloat materials (Streams.init elementName) lines).s.faceidx,
      0 ≤ i ∧ i < (readLines readFloat materials (Streams.init elementName) lines).s.nverts) ∧
    ∀ frag ∈ fragments (parseobj readFloat elementName materials lines).ostr,
      Emit.sentinel ∉ frag.P := by
  have hinv : Inv (readLines readFloat materials (Streams.init elementName) lines).s :=
    readLines_inv readFloat materials lines _ (init_fresh elementName).inv
  obtain ⟨⟨fs, cs, hacc⟩, _⟩ := hinv
  obtain ⟨b1, b2, b3⟩ := core_bijection _ _ hacc.core
  refine ⟨b1, b2, b3, ?_, ?_⟩
  · intro i hi
    rw [hacc.idx] at hi
    obtain ⟨v, hv, rfl⟩ := List.mem_map.mp hi
    rw [hacc.core.nverts]
    exact ⟨rk_nonneg _ v, by exact_mod_cast rk_lt _ v hv⟩
  · exact parseobj_forall readFloat materials (fun frag => Emit.sentinel ∉ frag.P)
      (fun s hs => flushfaces_no_sentinel s materials hs) elementName lines

/-! C27: the reads of `P` and `N` under declare before use. -/

theorem find_mem (l : IntMap) (k v : Int) (h : IntMap.find l k = some v) : (k, v) ∈ l := by
  induction l with
  | nil => simp [IntMap.find] at h
  | cons p rest ih =>
    obtain ⟨k1, v1⟩ := p
    unfold IntMap.find at h
    by_cases hk : k1 = k
    · rw [if_pos hk] at h
      simp only [Option.some.injEq] at h
      subst hk
      subst h
      exact List.mem_cons_self _ _
    · rw [if_neg hk] at h
      exact List.mem_cons_of_mem _ (ih h)

theorem find_of_mem_keys (l : IntMap) (k : Int) (h : k ∈ l.map Prod.fst) :
    ∃ v, IntMap.find l k = some v := by
  induction l with
  | nil => simp at h
  | cons p rest ih =>
    obtain ⟨k1, v1⟩ := p
    unfold IntMap.find
    by_cases hk : k1 = k
    · rw [if_pos hk]
      exact ⟨v1, rfl⟩
    · rw [if_neg hk]
      apply ih
      simp only [List.map_cons, List.mem_cons] at h
      rcases h with h | h
      · exact absurd h.symm hk
      · exact h

theorem mem_upTo (m i : Int) (h : i ∈ upTo m) : 0 ≤ i ∧ i ≤ m := by
  unfold upTo at h
  obtain ⟨n, hn, rfl⟩ := List.mem_map.mp h
  rw [List.mem_range] at hn
  omega

theorem mem_zeroBased (cs : List (Int × Int)) (c : Int × Int) (h : c ∈ zeroBased cs) :
    ∃ d ∈ cs, c = (d.1 - 1, d.2 - 1) := by
  unfold zeroBased at h
  obtain ⟨d, hd, rfl⟩ := List.mem_map.mp h
  exact ⟨d, hd, rfl⟩

/-- C27. For a run of face lines after a run boundary with an accepted face, when the
position and normal indices of every accepted corner are between 1 and the numbers of
positions and normals declared before the run, every entry of the `P` array and of the `N`
array of the fragment is the value of a read inside the vector, and every local index from 0
to the largest one has an `Nmap` entry, written for a corner of the run. -/
theorem indexing_in_bounds {F : Type} (readFloat : Str → Option (F × Str))
    (materials : StrMap) (elementName : Str) (pre run : List Str)
    (hpre : atBoundary pre = true) (hrun : faceRun run = true)
    (hne : acceptedFaces run ≠ [])
    (hdecl : ∀ c ∈ corners run,
      1 ≤ c.1 ∧
      c.1 ≤ ((readLines readFloat materials (Streams.init elementName) pre).s.P.length : Nat) ∧
      1 ≤ c.2 ∧
      c.2 ≤ ((readLines readFloat materials (Streams.init elementName) pre).s.N.length : Nat)) :
    ∃ frag,
      (flushfaces (readLines readFloat materials (Streams.init elementName) (pre ++ run)).s
        materials).1 = [Rib.attribute frag] ∧
      (∀ e ∈ frag.P, ∃ q, e = Emit.value q) ∧
      (∀ ns, frag.N = some ns → ∀ e ∈ ns, ∃ q, e = Emit.value q) ∧
      ∀ i ∈ upTo (maxvertOf frag.faceidx), ∃ c ∈ corners run,
        (readLines readFloat materials (Streams.init elementName) (pre ++ run)).s.Nmap.find i =
          some (c.2 - 1) := by
  obtain ⟨hacc, hframe⟩ := run_acc readFloat materials elementName pre run hpre hrun
  have hfs : (acceptedFaces run).map (fun f => (f.length : Int)) ≠ [] := by
    simpa using hne
  have hflush := flushfaces_acc _ materials _ _ hacc hfs
  have hP : ∀ v ∈ (zeroBased (corners run)).map Prod.fst, ∃ q,
      vecAt (readLines readFloat materials (Streams.init elementName) (pre ++ run)).s.P v =
        some q := by
    intro v hv
    obtain ⟨c, hc, rfl⟩ := List.mem_map.mp hv
    obtain ⟨d, hd, rfl⟩ := mem_zeroBased _ _ hc
    rw [hframe.1]
    exact vecAt_of_range _ d.1 (hdecl d hd).1 (hdecl d hd).2.1
  have hN : ∀ v ∈ (zeroBased (corners run)).map Prod.fst, ∃ d ∈ corners run,
      (readLines readFloat materials (Streams.init elementName) (pre ++ run)).s.Nmap.find
        (rk ((zeroBased (corners run)).map Prod.fst) v) = some (d.2 - 1) := by
    intro v hv
    have hk : rk ((zeroBased (corners run)).map Prod.fst) v ∈
        ((readLines readFloat materials (Streams.init elementName)
          (pre ++ run)).s.Nmap).map Prod.fst := by
      rw [hacc.nmap]
      obtain ⟨c, hc, rfl⟩ := List.mem_map.mp hv
      simp only [List.map_reverse, List.mem_reverse, List.map_map, List.mem_map,
        Function.comp]
      exact ⟨c, hc, rfl⟩
    obtain ⟨n, hn⟩ := find_of_mem_keys _ _ hk
    have hm := find_mem _ _ _ hn
    rw [hacc.nmap, List.mem_reverse] at hm
    obtain ⟨c, hc, he⟩ := List.mem_map.mp hm
    obtain ⟨d, hd, rfl⟩ := mem_zeroBased _ _ hc
    simp only [Prod.mk.injEq] at he
    exact ⟨d, hd, by rw [hn, ← he.2]⟩
  refine ⟨_, hflush, ?_, ?_, ?_⟩
  · intro e he
    simp only [List.mem_map] at he
    obtain ⟨v, hv, rfl⟩ := he
    obtain ⟨q, hq⟩ := hP v ((mem_seen _ v).mp hv)
    exact ⟨q, emitAt_of_vecAt _ _ q hq⟩
  · intro ns hns e he
    simp only [] at hns
    split at hns
    · simp only [Option.some.injEq] at hns
      subst hns
      simp only [List.mem_map] at he
      obtain ⟨v, hv, rfl⟩ := he
      obtain ⟨d, hd, hfind⟩ := hN v ((mem_seen _ v).mp hv)
      rw [hfind, Option.getD_some, hframe.2.1]
      obtain ⟨q, hq⟩ := vecAt_of_range _ d.2 (hdecl d hd).2.2.1 (hdecl d hd).2.2.2
      exact ⟨q, emitAt_of_vecAt _ _ q hq⟩
    · exact absurd hns (by simp)
  · intro i hi
    simp only [] at hi
    rw [maxvertOf_rk] at hi
    obtain ⟨h0, h1⟩ := mem_upTo _ _ hi
    obtain ⟨v, hv⟩ := vecAt_lt (seen ((zeroBased (corners run)).map Prod.fst)) i h0 (by omega)
    have hb := vecAt_bounds _ _ _ hv
    have hr := rk_of_vecAt _ _ _ hv
    have := hN v ((mem_seen _ v).mp hb.2.2)
    rw [hr] at this
    exact this

/-- C27 on the sample run: two triangles over four positions and two normals declared
before the run. -/
theorem indexing_in_bounds_witness :
    atBoundary sampleDecls = true ∧ faceRun sampleRun = true ∧
    ∃ frag,
      (flushfaces (readLines readDigits [] (Streams.init []) (sampleDecls ++ sampleRun)).s
        []).1 = [Rib.attribute frag] ∧
      (∀ e ∈ frag.P, ∃ q, e = Emit.value q) ∧
      (∀ ns, frag.N = some ns → ∀ e ∈ ns, ∃ q, e = Emit.value q) ∧
      ∀ i ∈ upTo (maxvertOf frag.faceidx), ∃ c ∈ corners sampleRun,
        (readLines readDigits [] (Streams.init []) (sampleDecls ++ sampleRun)).s.Nmap.find i =
          some (c.2 - 1) :=
  ⟨by decide, by decide,
    indexing_in_bounds readDigits [] [] sampleDecls sampleRun (by decide) (by decide)
      (by decide) (by decide)⟩

/-! C28: the placeholder tokens of a shading block. -/

theorem pct_append {a b : Str} (ha : '%' ∉ a) (hb : '%' ∉ b) : '%' ∉ a ++ b := by
  intro h
  rcases List.mem_append.mp h with h | h
  · exact ha h
  · exact hb h

theorem floatParam_pct {D F : Type} (lib : Lib D F) (hshow : ∀ x, '%' ∉ lib.showFloat x)
    (name : Str) (f : F) (hn : '%' ∉ name) : '%' ∉ floatParam lib name f := by
  unfold floatParam
  exact pct_append (pct_append (pct_append (pct_append (by decide) hn) (by decide)) (hshow f))
    (by decide)

theorem floatColor_pct {D F : Type} (lib : Lib D F) (hshow : ∀ x, '%' ∉ lib.showFloat x)
    (param : String) (x y z : F) (hp : '%' ∉ param.toList) :
    '%' ∉ floatColor lib param x y z := by
  unfold floatColor
  exact pct_append (pct_append (pct_append (pct_append (pct_append (pct_append (pct_append
    (pct_append (by decide) hp) (by decide)) (hshow x)) (by decide)) (hshow y)) (by decide))
    (hshow z)) (by decide)

theorem referenceColor_pct (param : String) (name : Str) (hp : '%' ∉ param.toList)
    (hn : '%' ∉ name) : '%' ∉ referenceColor param name := by
  unfold referenceColor
  exact pct_append (pct_append (pct_append (pct_append (by decide) hp) (by decide)) hn)
    (by decide)

theorem index_mem_values {D : Type} (c : Json D) (i : Nat) (e : Json D)
    (h : c.index i = some e) : e ∈ c.values := by
  cases c with
  | arr items =>
    simp only [Json.index] at h
    exact List.get?_mem h
  | null => simp [Json.index] at h
  | bool b => simp [Json.index] at h
  | num d => simp [Json.index] at h
  | str s => simp [Json.index] at h
  | obj m => simp [Json.index] at h

theorem literalColor_pct {D F : Type} (lib : Lib D F) (param : String) (c : Json D)
    (text : Str) (h : literalColor lib param c = some text)
    (hc : ∀ e ∈ c.values, '%' ∉ lib.dump e) (hp : '%' ∉ param.toList) : '%' ∉ text := by
  unfold literalColor at h
  cases h0 : c.index 0 with
  | none => rw [h0] at h; simp at h
  | some c0 =>
    cases h1 : c.index 1 with
    | none => rw [h0, h1] at h; simp at h
    | some c1 =>
      cases h2 : c.index 2 with
      | none => rw [h0, h1, h2] at h; simp at h
      | some c2 =>
        rw [h0, h1, h2] at h
        simp only [Option.some.injEq] at h
        rw [← h]
        exact pct_append (pct_append (pct_append (pct_append (pct_append (pct_append
          (pct_append (pct_append (by decide) hp) (by decide))
          (hc c0 (index_mem_values c 0 c0 h0))) (by decide))
          (hc c1 (index_mem_values c 1 c1 h1))) (by decide))
          (hc c2 (index_mem_values c 2 c2 h2))) (by decide)

theorem colorText_pct {D F : Type} (lib : Lib D F) (name : Str) (j : Json D)
    (ptxColor : Bool) (param : String) (text : Str) (hname : '%' ∉ name)
    (hbase : ∀ c, j.find "baseColor".toList = some c → ∀ e ∈ c.values, '%' ∉ lib.dump e)
    (hp : '%' ∉ param.toList) (h : colorText lib name j ptxColor param = some text) :
    '%' ∉ text := by
  unfold colorText at h
  by_cases hptx : ptxColor = true
  · rw [if_pos hptx] at h
    simp only [Option.some.injEq] at h
    rw [← h]
    exact referenceColor_pct param name hp hname
  · rw [if_neg hptx] at h
    cases hb : j.find "baseColor".toList with
    | none =>
      rw [hb] at h
      simp only [Option.some.injEq] at h
      rw [← h]
      exact List.not_mem_nil _
    | some c =>
      rw [hb] at h
      exact literalColor_pct lib param c text h (hbase c hb) hp

set_option linter.unreachableTactic false in
set_option linter.unusedTactic false in
/-- The text one pass of the loop of `material` adds has no placeholder token, when the
name of the material, the text of every `float` and the text of the values it writes have
none. -/
theorem materialKey_pct {D F : Type} (lib : Lib D F) (name : Str) (j : Json D)
    (ptxColor : Bool) (kv : Str × Json D) (d : MatOut)
    (hshow : ∀ x, '%' ∉ lib.showFloat x) (hname : '%' ∉ name)
    (hbase : ∀ c, j.find "baseColor".toList = some c → ∀ e ∈ c.values, '%' ∉ lib.dump e)
    (hkv : '%' ∉ lib.dump kv.2 ∧ ∀ e ∈ kv.2.values, '%' ∉ lib.dump e)
    (hr : materialKey lib name j ptxColor MatOut.empty kv = Except.ok d) :
    '%' ∉ d.ostr := by
  obtain ⟨k, v⟩ := kv
  have hlit : ∀ (param : String) (text : Str), literalColor lib param v = some text →
      '%' ∉ param.toList → '%' ∉ text :=
    fun param text h hp => literalColor_pct lib param v text h hkv.2 hp
  have hct : ∀ (param : String) (text : Str),
      colorText lib name j ptxColor param = some text → '%' ∉ param.toList → '%' ∉ text :=
    fun param text h hp => colorText_pct lib name j ptxColor param text hname hbase hp h
  unfold materialKey at hr
  simp only [colorSource_eq] at hr
  revert hr
  by_cases h0 : k = "colorMap".toList ∨ k = "displacementMap".toList
  · simp only [if_pos h0]
    clear h0
    intro hr
    simp only [Except.ok.injEq] at hr; subst hr; dsimp only [MatOut.empty]
    repeat' (first
              | with_reducible apply pct_append
              | exact List.not_mem_nil _
              | exact floatParam_pct lib hshow _ _ (by decide)
              | exact floatColor_pct lib hshow _ _ _ _ (by decide)
              | exact referenceColor_pct _ _ (by decide) hname
              | exact hkv.1
              | exact hlit _ _ (by assumption) (by decide)
              | exact hct _ _ (by assumption) (by decide)
              | decide)
  simp only [if_neg h0]
  clear h0
  by_cases h1 : k = "assignment".toList
  · simp only [if_pos h1]
    clear h1
    intro hr
    (repeat' split at hr) <;> first
      | (simp only [Except.ok.injEq] at hr
         subst hr
         dsimp only [MatOut.empty]
         repeat' (first
          | with_reducible apply pct_append
          | exact List.not_mem_nil _
          | exact floatParam_pct lib hshow _ _ (by decide)
          | exact floatColor_pct lib hshow _ _ _ _ (by decide)
          | exact referenceColor_pct _ _ (by decide) hname
          | exact hkv.1
          | exact hlit _ _ (by assumption) (by decide)
          | exact hct _ _ (by assumption) (by decide)
          | decide))
      | (simp at hr)
  simp only [if_neg h1]
  clear h1
  by_cases h2 : k = "type".toList
  · simp only [if_pos h2]
    clear h2
    intro hr
    simp only [Except.ok.injEq] at hr; subst hr; dsimp only [MatOut.empty]
    repeat' (first
              | with_reducible apply pct_append
              | exact List.not_mem_nil _
              | exact floatParam_pct lib hshow _ _ (by decide)
              | exact floatColor_pct lib hshow _ _ _ _ (by decide)
              | exact referenceColor_pct _ _ (by decide) hname
              | exact hkv.1
              | exact hlit _ _ (by assumption) (by decide)
              | exact hct _ _ (by assumption) (by decide)
              | decide)
  simp only [if_neg h2]
  clear h2
  by_cases h3 : k = "baseColor".toList
  · simp only [if_pos h3]
    clear h3
    intro hr
    (repeat' split at hr) <;> first
      | (simp only [Except.ok.injEq] at hr
         subst hr
         dsimp only [MatOut.empty]
         repeat' (first
          | with_reducible apply pct_append
          | exact List.not_mem_nil _
          | exact floatParam_pct lib hshow _ _ (by decide)
          | exact floatColor_pct lib hshow _ _ _ _ (by decide)
          | exact referenceColor_pct _ _ (by decide) hname
          | exact hkv.1
          | exact hlit _ _ (by assumption) (by decide)
          | exact hct _ _ (by assumption) (by decide)
          | decide))
      | (simp at hr)
  simp only [if_neg h3]
  clear h3
  by_cases h4 : k = "diffTrans".toList
  · simp only [if_pos h4]
    clear h4
    intro hr
    (repeat' split at hr) <;> first
      | (simp only [Except.ok.injEq] at hr
         subst hr
         dsimp only [MatOut.empty]
         repeat' (first
          | with_reducible apply pct_append
          | exact List.not_mem_nil _
          | exact floatParam_pct lib hshow _ _ (by decide)
          | exact floatColor_pct lib hshow _ _ _ _ (by decide)
          | exact referenceColor_pct _ _ (by decide) hname
          | exact hkv.1
          | exact hlit _ _ (by assumption) (by decide)
          | exact hct _ _ (by assumption) (by decide)
          | decide))
      | (simp at hr)
  simp only [if_neg h4]
  clear h4
  by_cases h5 : k = "flatness".toList
  · simp only [if_pos h5]
    clear h5
    intro hr
    (repeat' split at hr) <;> first
      | (simp only [Except.ok.injEq] at hr
         subst hr
         dsimp only [MatOut.empty]
         repeat' (first
          | with_reducible apply pct_append
          | exact List.not_mem_nil _
          | exact floatParam_pct lib hshow _ _ (by decide)
          | exact floatColor_pct lib hshow _ _ _ _ (by decide)
          | exact referenceColor_pct _ _ (by decide) hname
          | exact hkv.1
          | exact hlit _ _ (by assumption) (by decide)
          | exact hct _ _ (by assumption) (by decide)
          | decide))
      | (simp at hr)
  simp only [if_neg h5]
  clear h5
  by_cases h6 : k = "roughness".toList
  · simp only [if_pos h6]
    clear h6
    intro hr
    (repeat' split at hr) <;> first
      | (simp only [Except.ok.injEq] at hr
         subst hr
         dsimp only [MatOut.empty]
         repeat' (first
          | with_reducible apply pct_append
          | exact List.not_mem_nil _
          | exact floatParam_pct lib hshow _ _ (by decide)
          | exact floatColor_pct lib hshow _ _ _ _ (by decide)
          | exact referenceColor_pct _ _ (by decide) hname
          | exact hkv.1
          | exact hlit _ _ (by assumption) (by decide)
          | exact hct _ _ (by assumption) (by decide)
          | decide))
      | (simp at hr)
  simp only [if_neg h6]
  clear h6
  by_cases h7 : k = "ior".toList
  · simp only [if_pos h7]
    clear h7
    intro hr
    simp only [Except.ok.injEq] at hr; subst hr; dsimp only [MatOut.empty]
    repeat' (first
              | with_reducible apply pct_append
              | exact List.not_mem_nil _
              | exact floatParam_pct lib hshow _ _ (by decide)
              | exact floatColor_pct lib hshow _ _ _ _ (by decide)
              | exact referenceColor_pct _ _ (by decide) hname
              | exact hkv.1
              | exact hlit _ _ (by assumption) (by decide)
              | exact hct _ _ (by assumption) (by decide)
              | decide)
  simp only [if_neg h7]
  clear h7
  by_cases h8 : k = "sheen".toList
  · simp only [if_pos h8]
    clear h8
    intro hr
    (repeat' split at hr) <;> first
      | (simp only [Except.ok.injEq] at hr
         subst hr
         dsimp only [MatOut.empty]
         repeat' (first
          | with_reducible apply pct_append
          | exact List.not_mem_nil _
          | exact floatParam_pct lib hshow _ _ (by decide)
          | exact floatColor_pct lib hshow _ _ _ _ (by decide)
          | exact referenceColor_pct _ _ (by decide) hname
          | exact hkv.1
          | exact hlit _ _ (by assumption) (by decide)
          | exact hct _ _ (by assumption) (by decide)
          | decide))
      | (simp at hr)
  simp only [if_neg h8]
  clear h8
  by_cases h9 : k = "sheenTint".toList
  · simp only [if_pos h9]
    clear h9
    intro hr
    (repeat' split at hr) <;> first
      | (simp only [Except.ok.injEq] at hr
         subst hr
         dsimp only [MatOut.empty]
         repeat' (first
          | with_reducible apply pct_append
          | exact List.not_mem_nil _
          | exact floatParam_pct lib hshow _ _ (by decide)
          | exact floatColor_pct lib hshow _ _ _ _ (by decide)
          | exact referenceColor_pct _ _ (by decide) hname
          | exact hkv.1
          | exact hlit _ _ (by assumption) (by decide)
          | exact hct _ _ (by assumption) (by decide)
          | decide))
      | (simp at hr)
  simp only [if_neg h9]
  clear h9
  by_cases h10 : k = "alpha".toList
  · simp only [if_pos h10]
    clear h10
    intro hr
    simp only [Except.ok.injEq] at hr; subst hr; dsimp only [MatOut.empty]
    repeat' (first
              | with_reducible apply pct_append
              | exact List.not_mem_nil _
              | exact floatParam_pct lib hshow _ _ (by decide)
              | exact floatColor_pct lib hshow _ _ _ _ (by decide)
              | exact referenceColor_pct _ _ (by decide) hname
              | exact hkv.1
              | exact hlit _ _ (by assumption) (by decide)
              | exact hct _ _ (by assumption) (by decide)
              | decide)
  simp only [if_neg h10]
  clear h10
  by_cases h11 : k = "specTrans".toList ∨ k = "scatterDistance".toList
  · simp only [if_pos h11]
    clear h11
    intro hr
    simp only [Except.ok.injEq] at hr; subst hr; dsimp only [MatOut.empty]
    repeat' (first
              | with_reducible apply pct_append
              | exact List.not_mem_nil _
              | exact floatParam_pct lib hshow _ _ (by decide)
              | exact floatColor_pct lib hshow _ _ _ _ (by decide)
              | exact referenceColor_pct _ _ (by decide) hname
              | exact hkv.1
              | exact hlit _ _ (by assumption) (by decide)
              | exact hct _ _ (by assumption) (by decide)
              | decide)
  simp only [if_neg h11]
  clear h11
  by_cases h12 : k = "refractive".toList
  · simp only [if_pos h12]
    clear h12
    generalize lib.toFloat v = t0
    generalize j.find _ = fi
    generalize j.find _ = fr
    intro hr
    cases t0 with
    | none => simp at hr
    | some x =>
      cases fi with
      | none =>
        cases fr with
        | none =>
          simp only [Except.ok.injEq] at hr; subst hr; dsimp only [MatOut.empty]
          repeat' (first
                    | with_reducible apply pct_append
                    | exact List.not_mem_nil _
                    | exact floatParam_pct lib hshow _ _ (by decide)
                    | exact floatColor_pct lib hshow _ _ _ _ (by decide)
                    | exact referenceColor_pct _ _ (by decide) hname
                    | exact hkv.1
                    | exact hlit _ _ (by assumption) (by decide)
                    | exact hct _ _ (by assumption) (by decide)
                    | decide)
        | some v =>
          simp only [] at hr
          cases hv : lib.toFloat v with
          | none => rw [hv] at hr; simp at hr
          | some y =>
            rw [hv] at hr
            simp only [Except.ok.injEq] at hr; subst hr; dsimp only [MatOut.empty]
            repeat' (first
                      | with_reducible apply pct_append
                      | exact List.not_mem_nil _
                      | exact floatParam_pct lib hshow _ _ (by decide)
                      | exact floatColor_pct lib hshow _ _ _ _ (by decide)
                      | exact referenceColor_pct _ _ (by decide) hname
                      | exact hkv.1
                      | exact hlit _ _ (by assumption) (by decide)
                      | exact hct _ _ (by assumption) (by decide)
                      | decide)
      | some u =>
        simp only [] at hr
        cases hu : lib.toFloat u with
        | none => rw [hu] at hr; simp at hr
        | some y =>
          rw [hu] at hr
          cases fr with
          | none =>
            simp only [Except.ok.injEq] at hr; subst hr; dsimp only [MatOut.empty]
            repeat' (first
                      | with_reducible apply pct_append
                      | exact List.not_mem_nil _
                      | exact floatParam_pct lib hshow _ _ (by decide)
                      | exact floatColor_pct lib hshow _ _ _ _ (by decide)
                      | exact referenceColor_pct _ _ (by decide) hname
                      | exact hkv.1
                      | exact hlit _ _ (by assumption) (by decide)
                      | exact hct _ _ (by assumption) (by decide)
                      | decide)
          | some v =>
            simp only [] at hr
            cases hv : lib.toFloat v with
            | none => rw [hv] at hr; simp at hr
            | some z =>
              rw [hv] at hr
              simp only [Except.ok.injEq] at hr; subst hr; dsimp only [MatOut.empty]
              repeat' (first
                        | with_reducible apply pct_append
                        | exact List.not_mem_nil _
                        | exact floatParam_pct lib hshow _ _ (by decide)
                        | exact floatColor_pct lib hshow _ _ _ _ (by decide)
                        | exact referenceColor_pct _ _ (by decide) hname
                        | exact hkv.1
                        | exact hlit _ _ (by assumption) (by decide)
                        | exact hct _ _ (by assumption) (by decide)
                        | decide)
  simp only [if_neg h12]
  clear h12
  by_cases h13 : k = "specularTint".toList
  · simp only [if_pos h13]
    clear h13
    intro hr
    (repeat' split at hr) <;> first
      | (simp only [Except.ok.injEq] at hr
         subst hr
         dsimp only [MatOut.empty]
         repeat' (first
          | with_reducible apply pct_append
          | exact List.not_mem_nil _
          | exact floatParam_pct lib hshow _ _ (by decide)
          | exact floatColor_pct lib hshow _ _ _ _ (by decide)
          | exact referenceColor_pct _ _ (by decide) hname
          | exact hkv.1
          | exact hlit _ _ (by assumption) (by decide)
          | exact hct _ _ (by assumption) (by decide)
          | decide))
      | (simp at hr)
  simp only [if_neg h13]
  clear h13
  by_cases h14 : k = "metallic".toList
  · simp only [if_pos h14]
    clear h14
    intro hr
    simp only [Except.ok.injEq] at hr; subst hr; dsimp only [MatOut.empty]
    repeat' (first
              | with_reducible apply pct_append
              | exact List.not_mem_nil _
              | exact floatParam_pct lib hshow _ _ (by decide)
              | exact floatColor_pct lib hshow _ _ _ _ (by decide)
              | exact referenceColor_pct _ _ (by decide) hname
              | exact hkv.1
              | exact hlit _ _ (by assumption) (by decide)
              | exact hct _ _ (by assumption) (by decide)
              | decide)
  simp only [if_neg h14]
  clear h14
  by_cases h15 : k = "clearcoat".toList ∨ k = "clearcoatGloss".toList
  · simp only [if_pos h15]
    clear h15
    intro hr
    simp only [Except.ok.injEq] at hr; subst hr; dsimp only [MatOut.empty]
    repeat' (first
              | with_reducible apply pct_append
              | exact List.not_mem_nil _
              | exact floatParam_pct lib hshow _ _ (by decide)
              | exact floatColor_pct lib hshow _ _ _ _ (by decide)
              | exact referenceColor_pct _ _ (by decide) hname
              | exact hkv.1
              | exact hlit _ _ (by assumption) (by decide)
              | exact hct _ _ (by assumption) (by decide)
              | decide)
  simp only [if_neg h15]
  clear h15
  by_cases h16 : k = "anisotropic".toList
  · simp only [if_pos h16]
    subst h16
    intro hr
    (repeat' split at hr) <;> first
      | (simp only [Except.ok.injEq] at hr
         subst hr
         dsimp only [MatOut.empty]
         repeat' (first
          | with_reducible apply pct_append
          | exact List.not_mem_nil _
          | exact floatParam_pct lib hshow _ _ (by decide)
          | exact floatColor_pct lib hshow _ _ _ _ (by decide)
          | exact referenceColor_pct _ _ (by decide) hname
          | exact hkv.1
          | exact hlit _ _ (by assumption) (by decide)
          | exact hct _ _ (by assumption) (by decide)
          | decide))
      | (simp at hr)
  simp only [if_neg h16]
  clear h16
  intro hr
  simp only [Except.ok.injEq] at hr; subst hr
  exact List.not_mem_nil _

theorem count_pct_zero {s : Str} (h : '%' ∉ s) : s.count '%' = 0 :=
  List.count_eq_zero.mpr h

theorem displacementPart_count {D : Type} (name : Str) (j : Json D) (st st1 : MatOut)
    (hname : '%' ∉ name)
    (hpath : ∀ s, j.find "displacementMap".toList = some (Json.str s) → '%' ∉ s)
    (h : displacementPart name j st = Except.ok st1) :
    st1.ostr.count '%' = st.ostr.count '%' +
      (match j.find "displacementMap".toList with
        | some v => if v.notEmptyString then 1 else 0
        | none => 0) := by
  unfold displacementPart at h
  cases hf : j.find "displacementMap".toList with
  | none =>
    rw [hf] at h
    simp only [Except.ok.injEq] at h
    subst h
    rfl
  | some v =>
    rw [hf] at h
    simp only [] at h ⊢
    by_cases hne : v.notEmptyString = true
    · rw [if_pos hne] at h ⊢
      cases hs : v.getString with
      | none => rw [hs] at h; simp at h
      | some displacementMap =>
        rw [hs] at h
        simp only [Except.ok.injEq] at h
        subst h
        have hv : v = Json.str displacementMap := by
          cases v <;> simp [Json.getString] at hs
          rw [hs]
        have hp : '%' ∉ displacementMap := hpath _ (by rw [hf, hv])
        simp only [List.count_append, count_pct_zero hname, count_pct_zero hp]
        have e1 : List.count '%' "    Pattern \"PxrPtexture\" \"".toList = 0 := by decide
        have e2 : List.count '%' "DisplacementMap\" \"string filename\" \"".toList = 0 := by
          decide
        have e3 : List.count '%' "%\"\n".toList = 1 := by decide
        have e4 : List.count '%' "    Displace \"PxrDisplace\" \"".toList = 0 := by decide
        have e5 : List.count '%' "\"".toList = 0 := by decide
        have e6 : List.count '%' " \"reference float dispScalar\" [\"".toList = 0 := by decide
        have e7 : List.count '%' "DisplacementMap:resultR\"]\n".toList = 0 := by decide
        rw [e1, e2, e3, e4, e5, e6, e7]
    · rw [if_neg hne] at h ⊢
      simp only [Except.ok.injEq] at h
      subst h
      rfl

theorem colorMapPart_count {D : Type} (name : Str) (j : Json D) (st st1 : MatOut)
    (ptxColor : Bool) (hname : '%' ∉ name)
    (hpath : ∀ s, j.find "colorMap".toList = some (Json.str s) → '%' ∉ s)
    (h : colorMapPart name j st = Except.ok (st1, ptxColor)) :
    st1.ostr.count '%' = st.ostr.count '%' +
      (match j.find "colorMap".toList with
        | some v => if v.notEmptyString then 1 else 0
        | none => 0) := by
  unfold colorMapPart at h
  cases hf : j.find "colorMap".toList with
  | none =>
    rw [hf] at h
    simp only [Except.ok.injEq, Prod.mk.injEq] at h
    rw [← h.1]
    rfl
  | some v =>
    rw [hf] at h
    simp only [] at h ⊢
    by_cases hne : v.notEmptyString = true
    · rw [if_pos hne] at h ⊢
      cases hs : v.getString with
      | none => rw [hs] at h; simp at h
      | some colorMap =>
        rw [hs] at h
        simp only [Except.ok.injEq, Prod.mk.injEq] at h
        rw [← h.1]
        have hv : v = Json.str colorMap := by
          cases v <;> simp [Json.getString] at hs
          rw [hs]
        have hp : '%' ∉ colorMap := hpath _ (by rw [hf, hv])
        have hp2 : '%' ∉ (if colorMap ≠ [] ∧ colorMap.getLast? ≠ some '/' then
            colorMap ++ "/".toList else colorMap) := by
          split
          · exact pct_append hp (by decide)
          · exact hp
        simp only [List.count_append, count_pct_zero hname, count_pct_zero hp2]
        have e1 : List.count '%' "    Pattern \"PxrPtexture\" \"".toList = 0 := by decide
        have e2 : List.count '%' "ColorMap\" \"string filename\" \"".toList = 0 := by decide
        have e3 : List.count '%' "%\"".toList = 1 := by decide
        have e4 : List.count '%' " \"int linearize\" [1]".toList = 0 := by decide
        have e5 : List.count '%' "\n".toList = 0 := by decide
        rw [e1, e2, e3, e4, e5]
    · rw [if_neg hne] at h ⊢
      simp only [Except.ok.injEq, Prod.mk.injEq] at h
      rw [← h.1]
      rfl

/-- The text before the loop of `material` has one placeholder token for each map the
material declares. -/
theorem materialHead_count {D : Type} (name : Str) (j : Json D) (assignments : StrMap)
    (st : MatOut) (ptxColor : Bool) (hname : '%' ∉ name)
    (hdisp : ∀ s, j.find "displacementMap".toList = some (Json.str s) → '%' ∉ s)
    (hcol : ∀ s, j.find "colorMap".toList = some (Json.str s) → '%' ∉ s)
    (h : materialHead name j assignments = Except.ok (st, ptxColor)) :
    st.ostr.count '%' = declaredMaps j := by
  unfold materialHead at h
  cases h1 : displacementPart name j { ostr := [], assignments := assignments, cerr := [] } with
  | error e => rw [h1] at h; simp at h
  | ok st1 =>
    rw [h1] at h
    simp only [] at h
    cases h2 : colorMapPart name j st1 with
    | error e => rw [h2] at h; simp at h
    | ok p =>
      obtain ⟨st2, ptx⟩ := p
      rw [h2] at h
      simp only [Except.ok.injEq, Prod.mk.injEq] at h
      rw [← h.1]
      have c1 := displacementPart_count name j _ st1 hname hdisp h1
      have c2 := colorMapPart_count name j st1 st2 ptx hname hcol h2
      simp only [List.count_append, count_pct_zero hname, c2, c1, declaredMaps]
      have e1 : List.count '%' "    Bxdf \"PxrSurface\" \"".toList = 0 := by decide
      have e2 : List.count '%' "\"".toList = 0 := by decide
      rw [e1, e2]
      simp

theorem lookup_mem {α : Type} (l : List (Str × α)) (k : Str) (v : α)
    (h : l.lookup k = some v) : (k, v) ∈ l := by
  induction l with
  | nil => simp at h
  | cons p rest ih =>
    obtain ⟨k1, v1⟩ := p
    rw [List.lookup_cons] at h
    by_cases hk : k = k1
    · subst hk
      simp only [beq_self_eq_true] at h
      simp only [Option.some.injEq] at h
      subst h
      exact List.mem_cons_self _ _
    · have : (k == k1) = false := by simpa using hk
      rw [this] at h
      exact List.mem_cons_of_mem _ (ih h)

/-- The text the loop of `material` adds has no placeholder token. -/
theorem materialKeys_pct {D F : Type} (lib : Lib D F) (name : Str) (j : Json D)
    (ptxColor : Bool) (hshow : ∀ x, '%' ∉ lib.showFloat x) (hname : '%' ∉ name)
    (hbase : ∀ c, j.find "baseColor".toList = some c → ∀ e ∈ c.values, '%' ∉ lib.dump e)
    (members : List (Str × Json D)) : ∀ (d : MatOut),
    (∀ kv ∈ members, kv.1 ≠ "displacementMap".toList → kv.1 ≠ "colorMap".toList →
      '%' ∉ lib.dump kv.2 ∧ ∀ e ∈ kv.2.values, '%' ∉ lib.dump e) →
    materialKeys lib name j ptxColor MatOut.empty members = Except.ok d →
    '%' ∉ d.ostr := by
  induction members with
  | nil =>
    intro d _ h
    rw [materialKeys_nil] at h
    simp only [Except.ok.injEq] at h
    subst h
    exact List.not_mem_nil _
  | cons kv rest ih =>
    intro d hvals h
    rw [materialKeys_cons] at h
    cases hk : materialKey lib name j ptxColor MatOut.empty kv with
    | error e => rw [hk] at h; simp at h
    | ok d1 =>
      rw [hk] at h
      simp only [] at h
      rw [materialKeys_after] at h
      cases hr : materialKeys lib name j ptxColor MatOut.empty rest with
      | error e => rw [hr] at h; simp [MatOut.after] at h
      | ok d2 =>
        rw [hr] at h
        simp only [MatOut.after, Except.ok.injEq] at h
        subst h
        have h2 := ih d2 (fun x hx => hvals x (List.mem_cons_of_mem _ hx)) hr
        have h1 : '%' ∉ d1.ostr := by
          by_cases hmap : kv.1 = "colorMap".toList ∨ kv.1 = "displacementMap".toList
          · unfold materialKey at hk
            simp only [if_pos hmap, Except.ok.injEq] at hk
            subst hk
            exact List.not_mem_nil _
          · rw [not_or] at hmap
            exact materialKey_pct lib name j ptxColor kv d1 hshow hname hbase
              (hvals kv (List.mem_cons_self _ _) hmap.2 hmap.1) hk
        exact pct_append h1 h2

theorem replaceTokens_count (ptxfile : Str) (h : '%' ∉ ptxfile) :
    ∀ (block : Str) (n : Nat),
      (replaceTokens ptxfile n block).count '%' = block.count '%' - n := by
  intro block
  induction block with
  | nil =>
    intro n
    cases n <;> simp [replaceTokens]
  | cons c block ih =>
    intro n
    cases n with
    | zero => simp [replaceTokens]
    | succ n =>
      unfold replaceTokens
      by_cases hc : c = '%'
      · subst hc
        rw [if_pos rfl, List.count_append, count_pct_zero h, ih n, List.count_cons_self]
        omega
      · rw [if_neg hc, List.count_cons_of_ne (fun e => hc e.symm),
          List.count_cons_of_ne (fun e => hc e.symm), ih (n + 1)]

theorem toDigitsCore_pct : ∀ (fuel n : Nat) (ds : List Char), '%' ∉ ds →
    '%' ∉ Nat.toDigitsCore 10 fuel n ds := by
  intro fuel
  induction fuel with
  | zero => intro n ds h; exact h
  | succ fuel ih =>
    intro n ds h
    have hd : ∀ m, m < 10 → Nat.digitChar m ≠ '%' := by decide
    have hc : '%' ∉ Nat.digitChar (n % 10) :: ds := by
      intro hm
      rcases List.mem_cons.mp hm with e | e
      · exact hd (n % 10) (Nat.mod_lt _ (by decide)) e.symm
      · exact h e
    unfold Nat.toDigitsCore
    simp only []
    split
    · exact hc
    · exact ih _ _ hc

theorem showMilli_pct (x : Int) : '%' ∉ showMilli x := by
  have hd : ∀ m, m < 10 → Nat.digitChar m ≠ '%' := by decide
  unfold showMilli
  simp only []
  apply pct_append
  · apply pct_append
    · split
      · decide
      · exact List.not_mem_nil _
    · exact toDigitsCore_pct _ _ [] (List.not_mem_nil _)
  · split
    · exact List.not_mem_nil _
    · intro hm
      rcases List.mem_cons.mp hm with e | e
      · exact absurd e (by decide)
      · rw [List.mem_reverse] at e
        have e2 := (List.dropWhile_sublist _).subset e
        simp only [List.reverse_cons, List.reverse_nil, List.nil_append, List.cons_append,
          List.mem_cons, List.mem_singleton, List.not_mem_nil, or_false] at e2
        rcases e2 with e2 | e2 | e2
        · exact hd _ (by omega) e2.symm
        · exact hd _ (by omega) e2.symm
        · exact hd _ (by omega) e2.symm

/-- C28. For a material whose name and map paths have no `%`, and where the text of every
`float` and of every other parameter value and of its elements has none, the block
`material` returns has exactly one `%` for each map the material declares, at most two;
and `flushfaces`, for a geometry name without `%`, writes that block with no `%` left. -/
theorem placeholder_count {D F : Type} (lib : Lib D F) (elementName name : Str)
    (members : List (Str × Json D)) (assignments : StrMap) (out : MatOut)
    (hshow : ∀ x, '%' ∉ lib.showFloat x) (hname : '%' ∉ name)
    (hdisp : ∀ s, members.lookup "displacementMap".toList = some (Json.str s) → '%' ∉ s)
    (hcol : ∀ s, members.lookup "colorMap".toList = some (Json.str s) → '%' ∉ s)
    (hvals : ∀ kv ∈ members, kv.1 ≠ "displacementMap".toList → kv.1 ≠ "colorMap".toList →
      '%' ∉ lib.dump kv.2 ∧ ∀ e ∈ kv.2.values, '%' ∉ lib.dump e)
    (h : material lib elementName name (Json.obj members) assignments = Except.ok out) :
    out.ostr.count '%' = declaredMaps (Json.obj members) ∧ out.ostr.count '%' ≤ 2 ∧
    ∀ (s : objstate F) (materials : StrMap), s.facesize ≠ [] →
      materials.find s.currentMaterial = some out.ostr → '%' ∉ s.currentName →
      ∃ frag text, (flushfaces s materials).1 = [Rib.attribute frag] ∧
        frag.material = some text ∧ '%' ∉ text := by
  have hbase : ∀ c, (Json.obj members).find "baseColor".toList = some c →
      ∀ e ∈ c.values, '%' ∉ lib.dump e := by
    intro c hc
    simp only [Json.find] at hc
    exact (hvals _ (lookup_mem members _ c hc)
      (show "baseColor".toList ≠ "displacementMap".toList by decide)
      (show "baseColor".toList ≠ "colorMap".toList by decide)).2
  have hcount : out.ostr.count '%' = declaredMaps (Json.obj members) := by
    rw [material_obj] at h
    cases hh : materialHead name (Json.obj members) assignments with
    | error e => rw [hh] at h; simp at h
    | ok p =>
      obtain ⟨st, ptxColor⟩ := p
      rw [hh] at h
      simp only [] at h
      rw [materialKeys_after] at h
      cases hk : materialKeys lib name (Json.obj members) ptxColor MatOut.empty members with
      | error e => rw [hk] at h; simp [MatOut.after] at h
      | ok d =>
        rw [hk] at h
        simp only [MatOut.after, Except.ok.injEq] at h
        subst h
        have h1 := materialHead_count name (Json.obj members) assignments st ptxColor hname
          hdisp hcol hh
        have h2 := materialKeys_pct lib name (Json.obj members) ptxColor hshow hname hbase
          members d hvals hk
        simp only [MatOut.app, List.count_append, h1, count_pct_zero h2, Nat.add_zero]
  have hle : declaredMaps (Json.obj members) ≤ 2 := by
    unfold declaredMaps
    have a : ∀ o : Option (Json D),
        (match o with
          | some v => if v.notEmptyString = true then 1 else 0
          | none => 0) ≤ 1 := by
      intro o
      cases o with
      | none => exact Nat.zero_le _
      | some v => simp only []; split <;> omega
    have a1 := a ((Json.obj members).find "displacementMap".toList)
    have a2 := a ((Json.obj members).find "colorMap".toList)
    omega
  refine ⟨hcount, hcount ▸ hle, ?_⟩
  intro s materials hne hfind hgeom
  have hptx : '%' ∉ s.currentName ++ ".ptx".toList := pct_append hgeom (by decide)
  have hfl : ∃ frag, (flushfaces s materials).1 = [Rib.attribute frag] ∧
      frag.material = (materials.find s.currentMaterial).map
        (substitute (s.currentName ++ ".ptx".toList) 2) := by
    unfold flushfaces
    rw [if_pos hne]
    exact ⟨_, rfl, rfl⟩
  obtain ⟨frag, hf1, hf2⟩ := hfl
  refine ⟨frag, substitute (s.currentName ++ ".ptx".toList) 2 out.ostr, hf1, ?_, ?_⟩
  · rw [hf2, hfind, Option.map_some']
  · rw [substitute_eq_replaceTokens _ hptx]
    apply List.count_eq_zero.mp
    rw [replaceTokens_count _ hptx, hcount]
    omega

/-- C28 on the sample material with both maps: two placeholder tokens. -/
theorem placeholder_count_witness :
    ∃ out, material milliLib [] "m".toList (Json.obj mappedMaterial) [] = Except.ok out ∧
      out.ostr.count '%' = declaredMaps (Json.obj mappedMaterial) ∧ out.ostr.count '%' ≤ 2 ∧
      ∀ (s : objstate Int) (materials : StrMap), s.facesize ≠ [] →
        materials.find s.currentMaterial = some out.ostr → '%' ∉ s.currentName →
        ∃ frag text, (flushfaces s materials).1 = [Rib.attribute frag] ∧
          frag.material = some text ∧ '%' ∉ text :=
  ⟨_, rfl,
    placeholder_count milliLib [] "m".toList mappedMaterial [] _ showMilli_pct (by decide)
      (by intro s hs; simp only [mappedMaterial, List.lookup] at hs; cases hs; decide)
      (by intro s hs; simp only [mappedMaterial, List.lookup] at hs; cases hs; decide)
      (by decide) rfl⟩

/-! C29: scoped blocks are balanced. -/

theorem nest_plain {F : Type} (item : Item F) (h : item.plain = true) (rest : List (Item F))
    (stack : List Scope) : nest (item :: rest) stack = nest rest stack := by
  cases item <;> first | rfl | (simp [Item.plain] at h)

theorem Balanced.nil {F : Type} : Balanced ([] : List (Item F)) := fun _ _ => rfl

theorem Balanced.append {F : Type} {a b : List (Item F)} (ha : Balanced a) (hb : Balanced b) :
    Balanced (a ++ b) := by
  intro tail stack
  rw [List.append_assoc, ha, hb]

theorem Balanced.plain {F : Type} (items : List (Item F)) (h : ∀ i ∈ items, i.plain = true) :
    Balanced items := by
  induction items with
  | nil => exact Balanced.nil
  | cons i rest ih =>
    intro tail stack
    rw [List.cons_append, nest_plain i (h i (List.mem_cons_self _ _))]
    exact ih (fun x hx => h x (List.mem_cons_of_mem _ hx)) tail stack

theorem Balanced.attribute {F : Type} {a : List (Item F)} (ha : Balanced a) :
    Balanced (Item.attributeBegin :: (a ++ [Item.attributeEnd])) := by
  intro tail stack
  rw [List.cons_append, List.append_assoc]
  show nest (a ++ ([Item.attributeEnd] ++ tail)) (Scope.attribute :: stack) = _
  rw [ha]
  rfl

theorem Balanced.object {F : Type} {a : List (Item F)} (ha : Balanced a) (name : Str) :
    Balanced (Item.objectBegin name :: (a ++ [Item.objectEnd])) := by
  intro tail stack
  rw [List.cons_append, List.append_assoc]
  show nest (a ++ ([Item.objectEnd] ++ tail)) (Scope.object :: stack) = _
  rw [ha]
  rfl

theorem Balanced.nest_nil {F : Type} {a : List (Item F)} (ha : Balanced a) :
    nest a [] = some [] := by
  have := ha [] []
  rw [List.append_nil] at this
  exact this

theorem Adds.same {F : Type} (w : World F) : Adds w w :=
  ⟨[], by simp, Balanced.nil⟩

theorem Adds.andThen {F : Type} {w w1 w2 : World F} (h1 : Adds w w1) (h2 : Adds w1 w2) :
    Adds w w2 := by
  obtain ⟨a, ha, ba⟩ := h1
  obtain ⟨b, hb, bb⟩ := h2
  exact ⟨a ++ b, by rw [hb, ha, List.append_assoc], ba.append bb⟩

theorem Adds.put {F : Type} (w : World F) (item : Item F) (h : item.plain = true) :
    Adds w (w.put item) :=
  ⟨[item], rfl, Balanced.plain [item] (by simpa using h)⟩

theorem Adds.attributeBlock {F : Type} {w w1 : World F} (h : Adds (w.put Item.attributeBegin) w1) :
    Adds w (w1.put Item.attributeEnd) := by
  obtain ⟨a, ha, ba⟩ := h
  refine ⟨Item.attributeBegin :: (a ++ [Item.attributeEnd]), ?_, ba.attribute⟩
  simp [World.put, ha]

theorem Adds.objectBlock {F : Type} {w w1 : World F} (name : Str)
    (h : Adds (w.put (Item.objectBegin name)) w1) : Adds w (w1.put Item.objectEnd) := by
  obtain ⟨a, ha, ba⟩ := h
  refine ⟨Item.objectBegin name :: (a ++ [Item.objectEnd]), ?_, ba.object name⟩
  simp [World.put, ha]

theorem Adds.of_ostr {F : Type} {w w1 w2 : World F} (h : Adds w w1) (e : w2.ostr = w1.ostr) :
    Adds w w2 := by
  obtain ⟨a, ha, ba⟩ := h
  exact ⟨a, by rw [e, ha], ba⟩

theorem objFile_adds {D F : Type} (env : Env D F) (elementName filename : Str)
    (materials : StrMap) (isMaster : Bool) (w : World F) :
    Adds w (objFile env elementName filename materials isMaster w) := by
  cases isMaster with
  | true =>
    exact ⟨[Item.readArchive (ribName filename)], by simp [objFile, World.put],
      Balanced.plain _ (by simp [Item.plain])⟩
  | false =>
    exact ⟨[Item.comment ("begin objFile ".toList ++ filename),
      Item.readArchive (ribName filename), Item.comment ("end objFile ".toList ++ filename)],
      by simp [objFile, World.put], Balanced.plain _ (by simp [Item.plain])⟩

theorem transformOf_adds {D F : Type} (lib : Lib D F) (v : Json D) (w w1 : World F)
    (h : transformOf lib v w = Except.ok w1) : Adds w w1 := by
  unfold transformOf at h
  cases hf : v.getFloats lib with
  | none => rw [hf] at h; simp at h
  | some matrix =>
    rw [hf] at h
    simp only [outputTransform] at h
    by_cases h16 : 16 ≤ matrix.length
    · rw [if_pos h16] at h
      simp only [Except.ok.injEq] at h
      subst h
      exact Adds.put w _ rfl
    · rw [if_neg h16] at h
      simp at h

theorem archiveMasters_adds {D F : Type} (env : Env D F) (elementName : Str)
    (materials : StrMap) (archives : List (Json D)) : ∀ (w w1 : World F),
    archiveMasters env elementName materials archives w = Except.ok w1 → Adds w w1 := by
  induction archives with
  | nil =>
    intro w w1 h
    simp only [archiveMasters, Except.ok.injEq] at h
    subst h
    exact Adds.same w
  | cons i rest ih =>
    intro w w1 h
    rw [archiveMasters] at h
    cases hs : i.getString with
    | none => rw [hs] at h; simp at h
    | some s =>
      rw [hs] at h
      simp only [] at h
      exact (Adds.objectBlock s (objFile_adds env elementName s materials true _)).andThen (ih _ _ h)

theorem placeInstances_adds {D F : Type} (lib : Lib D F) (master : Str)
    (ks : List (Str × Json D)) : ∀ (w w1 : World F),
    placeInstances lib master ks w = Except.ok w1 → Adds w w1 := by
  induction ks with
  | nil =>
    intro w w1 h
    simp only [placeInstances, Except.ok.injEq] at h
    subst h
    exact Adds.same w
  | cons k rest ih =>
    intro w w1 h
    rw [placeInstances] at h
    cases ht : transformOf lib k.2 ((w.put Item.attributeBegin).put (Item.identifierName k.1)) with
    | error e => rw [ht] at h; simp at h
    | ok w2 =>
      rw [ht] at h
      simp only [] at h
      have a1 : Adds (w.put Item.attributeBegin) (w2.put (Item.objectInstance master)) :=
        ((Adds.put _ (Item.identifierName k.1) rfl).andThen
          (transformOf_adds lib k.2 _ w2 ht)).andThen (Adds.put _ _ rfl)
      exact (Adds.attributeBlock a1).andThen (ih _ _ h)

theorem instanceTable_adds {D F : Type} (lib : Lib D F) (table : List (Str × Json D)) :
    ∀ (w w1 : World F), instanceTable lib table w = Except.ok w1 → Adds w w1 := by
  induction table with
  | nil =>
    intro w w1 h
    simp only [instanceTable, Except.ok.injEq] at h
    subst h
    exact Adds.same w
  | cons i rest ih =>
    intro w w1 h
    rw [instanceTable] at h
    cases hi : i.2.items with
    | none => rw [hi] at h; simp at h
    | some instances =>
      rw [hi] at h
      simp only [] at h
      cases hp : placeInstances lib i.1 instances w with
      | error e => rw [hp] at h; simp at h
      | ok w2 =>
        rw [hp] at h
        simp only [] at h
        exact (placeInstances_adds lib i.1 instances w w2 hp).andThen (ih _ _ h)

theorem instancedArchive_adds {D F : Type} (env : Env D F) (elementName primName : Str)
    (j : Json D) (materials : StrMap) (w w1 : World F)
    (h : instancedArchive env elementName primName j materials w = Except.ok w1) :
    Adds w w1 := by
  unfold instancedArchive at h
  simp only [] at h
  cases ha : j.sub "archives".toList with
  | error t => rw [ha] at h; simp at h
  | ok archives =>
    rw [ha] at h
    simp only [] at h
    cases hm : archiveMasters env elementName materials archives.values
        (w.put (Item.comment ("begin instance archive ".toList ++ primName))) with
    | error e => rw [hm] at h; simp at h
    | ok w2 =>
      rw [hm] at h
      simp only [] at h
      cases hj : j.atKey "jsonFile".toList with
      | error t => rw [hj] at h; simp at h
      | ok jsonFile =>
        rw [hj] at h
        simp only [] at h
        cases hs : jsonFile.asString with
        | error t => rw [hs] at h; simp at h
        | ok archiveFilename =>
          rw [hs] at h
          simp only [] at h
          cases hf : env.jsonFile archiveFilename with
          | none => rw [hf] at h; simp at h
          | some archiveFileJSON =>
            rw [hf] at h
            simp only [] at h
            cases hi : archiveFileJSON.items with
            | none => rw [hi] at h; simp at h
            | some table =>
              rw [hi] at h
              simp only [] at h
              cases ht : instanceTable env.lib table
                  (w2.put (Item.comment "begin instances ".toList)) with
              | error e => rw [ht] at h; simp at h
              | ok w4 =>
                rw [ht] at h
                simp only [Except.ok.injEq] at h
                subst h
                exact ((((Adds.put w (Item.comment _) rfl).andThen
                  (archiveMasters_adds env elementName materials _ _ w2 hm)).andThen
                  (Adds.put _ (Item.comment _) rfl)).andThen
                  (instanceTable_adds env.lib table _ w4 ht)).andThen
                  ((Adds.put _ (Item.comment _) rfl).andThen (Adds.put _ (Item.comment _) rfl))

theorem putCoords_adds {D F : Type} (lib : Lib D F) (p : Json D) (is : List Nat) :
    ∀ (w w1 : World F), putCoords lib p is w = Except.ok w1 → Adds w w1 := by
  induction is with
  | nil =>
    intro w w1 h
    simp only [putCoords, Except.ok.injEq] at h
    subst h
    exact Adds.same w
  | cons i rest ih =>
    intro w w1 h
    rw [putCoords] at h
    cases hx : (p.index i).bind lib.toFloat with
    | none => rw [hx] at h; simp at h
    | some x =>
      rw [hx] at h
      simp only [] at h
      exact (Adds.put w (Item.coord x) rfl).andThen (ih _ _ h)

theorem putPoints_adds {D F : Type} (lib : Lib D F) (ps : List (Json D)) :
    ∀ (w w1 : World F), putPoints lib ps w = Except.ok w1 → Adds w w1 := by
  induction ps with
  | nil =>
    intro w w1 h
    simp only [putPoints, Except.ok.injEq] at h
    subst h
    exact Adds.same w
  | cons p rest ih =>
    intro w w1 h
    rw [putPoints] at h
    cases hp : putCoords lib p [0, 1, 2] w with
    | error e => rw [hp] at h; simp at h
    | ok w2 =>
      rw [hp] at h
      simp only [] at h
      exact (putCoords_adds lib p _ w w2 hp).andThen (ih _ _ h)

theorem curveP_adds {D F : Type} (lib : Lib D F) (curve : Json D) (w w1 : World F)
    (h : curveP lib curve w = Except.ok w1) : Adds w w1 := by
  unfold curveP at h
  cases hv : curve.values with
  | nil =>
    rw [hv] at h
    cases curve <;> simp at h
  | cons first rest =>
    rw [hv] at h
    simp only [] at h
    exact putPoints_adds lib _ w w1 h

theorem curvesP_adds {D F : Type} (lib : Lib D F) (curves : List (Json D)) :
    ∀ (w w1 : World F), curvesP lib curves w = Except.ok w1 → Adds w w1 := by
  induction curves with
  | nil =>
    intro w w1 h
    simp only [curvesP, Except.ok.injEq] at h
    subst h
    exact Adds.same w
  | cons curve rest ih =>
    intro w w1 h
    rw [curvesP] at h
    cases hp : curveP lib curve w with
    | error e => rw [hp] at h; simp at h
    | ok w2 =>
      rw [hp] at h
      simp only [] at h
      exact (curveP_adds lib curve w w2 hp).andThen (ih _ _ h)

theorem curvesMaterial_adds {F : Type} (primName : Str) (materials assignments : StrMap)
    (w : World F) : Adds w (curvesMaterial primName materials assignments w) := by
  unfold curvesMaterial
  cases assignments.find primName with
  | none => exact Adds.same w
  | some assigned =>
    simp only []
    cases materials.find assigned with
    | none => exact Adds.same w
    | some material =>
      simp only []
      cases strFind material '%' with
      | none => exact Adds.put w (Item.shading _) rfl
      | some pos =>
        exact @Adds.of_ostr F w
          (w.put (Item.shading (strReplace material pos 1 (assigned ++ ".ptx".toList)))) _
          (Adds.put w (Item.shading _) rfl) rfl

theorem Adds.plain_items {F : Type} (w : World F) (items : List (Item F))
    (h : ∀ i ∈ items, i.plain = true) :
    Adds w { w with ostr := w.ostr ++ items } :=
  ⟨items, rfl, Balanced.plain items h⟩

theorem instancedCurves_adds {D F : Type} (env : Env D F) (primName : Str) (j : Json D)
    (materials assignments : StrMap) (w w1 : World F)
    (h : instancedCurves env primName j materials assignments w = Except.ok w1) :
    Adds w w1 := by
  unfold instancedCurves at h
  cases h1 : (j.atKey "widthTip".toList).bind (Json.asFloat env.lib) with
  | error t => rw [h1] at h; simp at h
  | ok widthTip =>
    rw [h1] at h
    simp only [] at h
    cases h2 : (j.atKey "widthRoot".toList).bind (Json.asFloat env.lib) with
    | error t => rw [h2] at h; simp at h
    | ok widthRoot =>
      rw [h2] at h
      simp only [] at h
      cases h3 : (j.atKey "jsonFile".toList).bind Json.asString with
      | error t => rw [h3] at h; simp at h
      | ok curveFilename =>
        rw [h3] at h
        simp only [] at h
        cases h4 : env.jsonFile curveFilename with
        | none => rw [h4] at h; simp at h
        | some curveFileJSON =>
          rw [h4] at h
          simp only [] at h
          generalize hc : curvesP env.lib curveFileJSON.values _ = r at h
          cases r with
          | error e => simp at h
          | ok w5 =>
            simp only [Except.ok.injEq] at h
            subst h
            refine (Adds.put w (Item.comment ("begin curves ".toList ++ primName)) rfl).andThen
              ((Adds.attributeBlock ((?a : Adds ((w.put (Item.comment
                ("begin curves ".toList ++ primName))).put Item.attributeBegin) _).andThen
                (Adds.put _ Item.curvesEnd rfl))).andThen (Adds.put _ (Item.comment _) rfl))
            refine ((((curvesMaterial_adds primName materials assignments _).andThen
              (Adds.put _ Item.basis rfl)).andThen (Adds.put _ Item.curvesBegin rfl)).andThen
              ((Adds.plain_items _ _ ?_).andThen ((Adds.put _ Item.pBegin rfl).andThen
                (curvesP_adds env.lib _ _ w5 hc)))).andThen
              (Adds.of_ostr (Adds.plain_items w5 (Item.widthBegin ::
                (curveFileJSON.values.flatMap (fun curve =>
                  curveWidths env.lib widthRoot widthTip curve.values.length)).map
                  Item.width) ?_) ?_)
            · intro i hi
              obtain ⟨c, _, rfl⟩ := List.mem_map.mp hi
              rfl
            · intro i hi
              rcases List.mem_cons.mp hi with hi | hi
              · subst hi
                rfl
              · obtain ⟨c, _, rfl⟩ := List.mem_map.mp hi
                rfl
            · simp

theorem primitive_adds {D F : Type} (env : Env D F) (elementName : Str)
    (materials assignments : StrMap) (i : Str × Json D) (w w1 : World F)
    (h : primitive env elementName materials assignments i w = Except.ok w1) : Adds w w1 := by
  unfold primitive at h
  cases ht : i.2.find "type".toList with
  | none =>
    rw [ht] at h
    simp only [Except.ok.injEq] at h
    subst h
    exact Adds.same w
  | some type =>
    rw [ht] at h
    simp only [] at h
    by_cases h1 : type.isStr "curve".toList = true
    · rw [if_pos h1] at h
      exact instancedCurves_adds env i.1 i.2 materials assignments w w1 h
    · rw [if_neg h1] at h
      by_cases h2 : type.isStr "archive".toList = true
      · rw [if_pos h2] at h
        exact instancedArchive_adds env elementName i.1 i.2 materials w w1 h
      · rw [if_neg h2] at h
        by_cases h3 : type.isStr "element".toList = true
        · rw [if_pos h3] at h
          simp only [Except.ok.injEq] at h
          subst h
          exact Adds.of_ostr (Adds.same w) rfl
        · rw [if_neg h3] at h
          simp only [Except.ok.injEq] at h
          subst h
          exact Adds.same w

theorem primitives_adds {D F : Type} (env : Env D F) (elementName : Str)
    (materials assignments : StrMap) (members : List (Str × Json D)) :
    ∀ (w w1 : World F),
    primitives env elementName materials assignments members w = Except.ok w1 →
    Adds w w1 := by
  induction members with
  | nil =>
    intro w w1 h
    simp only [primitives, Except.ok.injEq] at h
    subst h
    exact Adds.same w
  | cons i rest ih =>
    intro w w1 h
    rw [primitives] at h
    cases hp : primitive env elementName materials assignments i w with
    | error e => rw [hp] at h; simp at h
    | ok w2 =>
      rw [hp] at h
      simp only [] at h
      exact (primitive_adds env elementName materials assignments i w w2 hp).andThen (ih _ _ h)

theorem instancedPrimitives_adds {D F : Type} (env : Env D F) (elementName : Str)
    (j : Json D) (materials assignments : StrMap) (w w1 : World F)
    (h : instancedPrimitives env elementName j materials assignments w = Except.ok w1) :
    Adds w w1 := by
  unfold instancedPrimitives at h
  simp only [] at h
  cases hi : j.items with
  | none => rw [hi] at h; simp at h
  | some members =>
    rw [hi] at h
    simp only [] at h
    cases hp : primitives env elementName materials assignments members
        (w.put (Item.comment "begin instancedPrimitiveJsonFiles ".toList)) with
    | error e => rw [hp] at h; simp at h
    | ok w2 =>
      rw [hp] at h
      simp only [Except.ok.injEq] at h
      subst h
      exact ((Adds.put w (Item.comment _) rfl).andThen
        (primitives_adds env elementName materials assignments members _ w2 hp)).andThen
        (Adds.put _ (Item.comment _) rfl)

theorem copyTransform_adds {D F : Type} (env : Env D F) (copy : Json D) (w1 w2 : World F)
    (h : copyTransform env copy w1 = Except.ok w2) : Adds w1 w2 := by
  rcases copyTransform_ok env copy w1 w2 h with e | ⟨matrix, e⟩
  · rw [e]
    exact Adds.same w1
  · rw [e]
    exact Adds.put w1 _ rfl

theorem copies_adds {D F : Type} (env : Env D F) (elementName : Str)
    (materials assignments : StrMap) (ks : List (Str × Json D)) :
    ∀ (w w1 : World F),
    copies env elementName materials assignments ks w = Except.ok w1 → Adds w w1 := by
  induction ks with
  | nil =>
    intro w w1 h
    simp only [copies, Except.ok.injEq] at h
    subst h
    exact Adds.same w
  | cons k rest ih =>
    intro w w1 h
    cases hT : copyTransform env k.2 (w.put Item.attributeBegin) with
    | error e =>
      rw [copies] at h
      unfold copyTransform at hT
      cases hs : k.2.subMut "transformMatrix".toList with
      | error t => rw [hs] at h; simp at h
      | ok transformMatrix =>
        rw [hs] at h hT
        simp only [] at h hT
        rw [hT] at h
        simp at h
    | ok w2 =>
      rw [copies_step env elementName materials assignments k rest w w2 hT] at h
      have aT := copyTransform_adds env k.2 _ w2 hT
      cases hg : k.2.find "geomObjFile".toList with
      | none =>
        rw [hg] at h
        simp only [] at h
        exact (Adds.attributeBlock ((aT.andThen (Adds.put _ (Item.identifierName k.1) rfl)).andThen
          (Adds.put _ (Item.objectInstance elementName) rfl))).andThen (ih _ _ h)
      | some g =>
        rw [hg] at h
        simp only [] at h
        cases hf : (k.2.atKey "geomObjFile".toList).bind Json.asString with
        | error t => rw [hf] at h; simp at h
        | ok filename =>
          rw [hf] at h
          simp only [] at h
          have aO := objFile_adds env k.1 filename materials false w2
          cases hp : k.2.find "instancedPrimitiveJsonFiles".toList with
          | none =>
            rw [hp] at h
            simp only [] at h
            exact (Adds.attributeBlock (aT.andThen aO)).andThen (ih _ _ h)
          | some p =>
            rw [hp] at h
            simp only [] at h
            cases hq : instancedPrimitives env k.1 p materials assignments
                (objFile env k.1 filename materials false w2) with
            | error e => rw [hq] at h; simp at h
            | ok w4 =>
              rw [hq] at h
              simp only [] at h
              exact (Adds.attributeBlock ((aT.andThen aO).andThen
                (instancedPrimitives_adds env k.1 p materials assignments _ w4 hq))).andThen
                (ih _ _ h)

theorem elementBody_adds {D F : Type} (env : Env D F) (j : Json D) (w w1 : World F)
    (h : elementBody env j w = Except.ok w1) : Adds w w1 := by
  unfold elementBody at h
  cases h1 : (j.atKey "name".toList).bind Json.asString with
  | error t => rw [h1] at h; simp at h
  | ok elementName =>
    rw [h1] at h
    simp only [] at h
    cases h2 : (j.atKey "matFile".toList).bind Json.asString with
    | error t => rw [h2] at h; simp at h
    | ok matFilename =>
      rw [h2] at h
      simp only [] at h
      cases h3 : env.jsonFile matFilename with
      | none => rw [h3] at h; simp at h
      | some matFileJSON =>
        rw [h3] at h
        simp only [] at h
        cases h4 : materialFile env.lib elementName matFilename matFileJSON
            { materials := [], assignments := [], cerr := [] } with
        | error e => rw [h4] at h; simp at h
        | ok t =>
          rw [h4] at h
          simp only [] at h
          cases h5 : (j.atKey "geomObjFile".toList).bind Json.asString with
          | error th => rw [h5] at h; simp at h
          | ok filename =>
            rw [h5] at h
            simp only [] at h
            generalize hp : (match j.find "instancedPrimitiveJsonFiles".toList with
              | some p => instancedPrimitives env elementName p t.materials t.assignments _
              | none => Except.ok _) = r4 at h
            cases r4 with
            | error e => simp at h
            | ok w4 =>
              simp only [] at h
              generalize ht : (match j.find "transformMatrix".toList with
                | some transformMatrix => _
                | none => Except.ok _) = r7 at h
              cases r7 with
              | error e => simp at h
              | ok w7 =>
                simp only [] at h
                have a3 : Adds (w.put (Item.objectBegin elementName)) w4 := by
                  have a0 : Adds (w.put (Item.objectBegin elementName))
                      (objFile env elementName filename t.materials false
                        { (w.put (Item.objectBegin elementName)).put
                            (Item.identifierObject elementName) with
                          cerr := ((w.put (Item.objectBegin elementName)).put
                            (Item.identifierObject elementName)).cerr ++ t.cerr }) :=
                    (Adds.of_ostr (Adds.put _ (Item.identifierObject elementName) rfl)
                      rfl).andThen (objFile_adds env elementName filename t.materials false _)
                  cases hf : j.find "instancedPrimitiveJsonFiles".toList with
                  | none =>
                    rw [hf] at hp
                    simp only [Except.ok.injEq] at hp
                    rw [← hp]
                    exact a0
                  | some p =>
                    rw [hf] at hp
                    simp only [] at hp
                    exact a0.andThen (instancedPrimitives_adds env elementName p t.materials
                      t.assignments _ w4 hp)
                have a7 : Adds ((w4.put Item.objectEnd).put Item.attributeBegin) w7 := by
                  cases hf : j.find "transformMatrix".toList with
                  | none =>
                    rw [hf] at ht
                    simp only [Except.ok.injEq] at ht
                    rw [← ht]
                    exact Adds.same _
                  | some transformMatrix =>
                    rw [hf] at ht
                    simp only [] at ht
                    by_cases hn : transformMatrix.isNull = true
                    · rw [if_pos hn] at ht
                      simp only [Except.ok.injEq] at ht
                      rw [← ht]
                      exact Adds.put _ (Item.identifierName elementName) rfl
                    · rw [if_neg hn] at ht
                      exact (Adds.put _ (Item.identifierName elementName) rfl).andThen
                        (transformOf_adds env.lib transformMatrix _ w7 ht)
                have a8 : Adds w ((w7.put (Item.objectInstance elementName)).put
                    Item.attributeEnd) :=
                  (Adds.objectBlock elementName a3).andThen
                    (Adds.attributeBlock (a7.andThen (Adds.put _ (Item.objectInstance elementName) rfl)))
                cases hc : j.find "instancedCopies".toList with
                | none =>
                  rw [hc] at h
                  simp only [Except.ok.injEq] at h
                  rw [← h]
                  exact a8
                | some instances =>
                  rw [hc] at h
                  simp only [] at h
                  cases hi : instances.items with
                  | none => rw [hi] at h; simp at h
                  | some ks =>
                    rw [hi] at h
                    simp only [] at h
                    exact a8.andThen (copies_adds env elementName t.materials t.assignments ks
                      _ w1 h)

theorem scopes_of_parseobj {F : Type} (ostr : List (Rib F)) :
    Balanced (ostr.flatMap Rib.scopes) := by
  induction ostr with
  | nil => exact Balanced.nil
  | cons r rest ih =>
    rw [List.flatMap_cons]
    refine Balanced.append ?_ ih
    rcases r with text | frag
    · exact Balanced.plain _ (by simp [Rib.scopes, Item.plain])
    · have := Balanced.attribute (Balanced.nil : Balanced ([] : List (Item F)))
      simpa [Rib.scopes] using this

/-- C29. When the body of `element` runs to its end, every access succeeding, what it adds
to the main stream is well nested: read from no open scope, every `AttributeEnd` and
`ObjectEnd` closes the innermost open scope, which is of its own kind, and no scope is left
open; `element` returns that stream.  The scope lines of every mesh file `parseobj` writes
are well nested too, each fragment being one `AttributeBegin` .. `AttributeEnd` block. -/
theorem scopes_balanced {D F : Type} (env : Env D F) (j : Json D) (w w1 : World F)
    (h : elementBody env j w = Except.ok w1) :
    element env j w = Except.ok w1 ∧
    (∃ added, w1.ostr = w.ostr ++ added ∧ nest added [] = some []) ∧
    ∀ (elementName : Str) (materials : StrMap) (lines : List Str),
      nest ((parseobj env.readFloat elementName materials lines).ostr.flatMap Rib.scopes) [] =
        some [] := by
  refine ⟨element_of_body_ok env j w w1 h, ?_, ?_⟩
  · obtain ⟨added, ha, hb⟩ := elementBody_adds env j w w1 h
    exact ⟨added, ha, hb.nest_nil⟩
  · intro elementName materials lines
    exact (scopes_of_parseobj _).nest_nil

/-- C29 on the sample manifest with an archive primitive, a curve primitive, a transform
and an instanced copy. -/
theorem scopes_balanced_witness :
    ∃ w1, elementBody fullEnv fullManifest World.init = Except.ok w1 ∧
      element fullEnv fullManifest World.init = Except.ok w1 ∧
      (∃ added, w1.ostr = (World.init : World Int).ostr ++ added ∧
        nest added [] = some []) ∧
      ∀ (elementName : Str) (materials : StrMap) (lines : List Str),
        nest ((parseobj fullEnv.readFloat elementName materials lines).ostr.flatMap
          Rib.scopes) [] = some [] :=
  ⟨_, rfl, scopes_balanced fullEnv fullManifest World.init _ rfl⟩

end Mis2rib
